import Mathlib

/-!
# MyGoLib: the ini loader (`myiniparse/iniparse.go`)

A shallow embedding of `loadIni` and of the parts of the Go standard library it
calls (`strings`, `strconv`, `reflect`), followed by theorems about it.

Conventions of the embedding.

* A Go `string` is modelled as the list of its Unicode code points (`Str`); the
  file is taken to be valid UTF-8 text.  Every byte the code compares against
  (`[ ] = ; # \r \n`) is ASCII, so positions of these characters and the slices
  cut at them agree with the byte-level reading.
* `reflect` is modelled by what `loadIni` inspects: the kind of the value passed,
  the direct fields of the pointed-to struct (name, `ini` tag, kind) and, for
  each of them, their own direct fields together with the values they hold.
* The target is mutated in place by the Go code; here the record is threaded
  through the scan and returned next to the outcome.
* A Go run-time panic is an outcome of its own, distinct from a returned error.
* Output written with `fmt.Println` / `fmt.Printf` is not modelled.
-/

namespace IniParse

/-- A Go string, as the list of its code points. -/
abbrev Str := List Char

/-! ## `strings` -/

/-- Go `unicode.IsSpace`: the Latin-1 spaces and the other code points of the
Unicode White_Space property. -/
def isSpace (c : Char) : Bool :=
  let n := c.toNat
  (9 ≤ n && n ≤ 13) || n == 32 || n == 0x85 || n == 0xA0 || n == 0x1680 ||
  (0x2000 ≤ n && n ≤ 0x200a) || n == 0x2028 || n == 0x2029 || n == 0x202f ||
  n == 0x205f || n == 0x3000

/-- Go `strings.TrimSpace`: drop leading and trailing white space. -/
def TrimSpace (s : Str) : Str :=
  ((s.dropWhile isSpace).reverse.dropWhile isSpace).reverse

/-- Go `strings.HasPrefix`. -/
def HasPrefix (s pre : Str) : Bool :=
  pre.isPrefixOf s

/-- Position scan behind `strings.Index`: `i` is the offset of `s` in the
original string. -/
def indexFrom (sub : Str) : Str → Nat → Int
  | [], i => if sub.isEmpty then (i : Int) else -1
  | c :: cs, i => if sub.isPrefixOf (c :: cs) then (i : Int) else indexFrom sub cs (i + 1)

/-- Go `strings.Index`: offset of the first occurrence of `sub` in `s`, or `-1`. -/
def Index (s sub : Str) : Int :=
  indexFrom sub s 0

/-- Put `c` in front of the first segment of a split. -/
def consHead (c : Char) : List Str → List Str
  | [] => [[c]]
  | l :: ls => (c :: l) :: ls

/-- Go `strings.Split(s, "\r\n")`: the segments between successive
(left-most, non-overlapping) occurrences of carriage return + line feed.
The result always has at least one segment. -/
def splitCRLF : Str → List Str
  | [] => [[]]
  | [c] => [[c]]
  | c :: d :: rest =>
    if c = '\r' ∧ d = '\n' then [] :: splitCRLF rest
    else consHead c (splitCRLF (d :: rest))

/-- A Go slice expression `s[lo:hi]`; `none` stands for the run-time panic
"slice bounds out of range". -/
def slice (s : Str) (lo hi : Int) : Option Str :=
  if 0 ≤ lo ∧ lo ≤ hi ∧ hi ≤ (s.length : Int) then
    some ((s.take hi.toNat).drop lo.toNat)
  else none

/-- A Go index expression `s[i]`; `none` stands for the run-time panic
"index out of range". -/
def byteAt (s : Str) (i : Int) : Option Char :=
  if 0 ≤ i then s.get? i.toNat else none

/-! ## `strconv` -/

/-- Value of a non-empty string of ASCII decimal digits (the digit loop of
`strconv.ParseUint` in base 10, without the 64-bit cut-off, which `ParseInt`
re-checks). -/
def parseDigits (s : Str) : Option Nat :=
  if s.isEmpty then none
  else s.foldl
    (fun acc c =>
      match acc with
      | none => none
      | some n => if c.isDigit then some (n * 10 + (c.toNat - 48)) else none)
    (some 0)

/-- Go `strconv.ParseInt(s, 10, 64)`: optional sign, decimal digits, value in
the signed 64-bit range; `none` stands for a non-nil error. -/
def ParseInt (s : Str) : Option Int :=
  match s with
  | [] => none
  | c :: rest =>
    let neg := c == '-'
    let body := if c == '+' || c == '-' then rest else s
    match parseDigits body with
    | none => none
    | some un =>
      if !neg && un ≥ 2 ^ 63 then none
      else if neg && un > 2 ^ 63 then none
      else some (if neg then -(un : Int) else (un : Int))

/-- Go `strconv.ParseBool`: exactly twelve literals are accepted. -/
def ParseBool (s : Str) : Option Bool :=
  if s = "1".toList ∨ s = "t".toList ∨ s = "T".toList ∨ s = "TRUE".toList ∨
      s = "true".toList ∨ s = "True".toList then some true
  else if s = "0".toList ∨ s = "f".toList ∨ s = "F".toList ∨ s = "FALSE".toList ∨
      s = "false".toList ∨ s = "False".toList then some false
  else none

/-! ## `reflect` -/

/-- Go `reflect.Kind`. -/
inductive Kind
  | Invalid | Bool | Int | Int8 | Int16 | Int32 | Int64
  | Uint | Uint8 | Uint16 | Uint32 | Uint64 | Uintptr
  | Float32 | Float64 | Complex64 | Complex128
  | Array | Chan | Func | Interface | Map | Ptr | Slice | String | Struct
  | UnsafePointer
  deriving DecidableEq, Repr

/-- The content of a field of a nested struct.  A float is kept as its IEEE
bit pattern; `other` covers every kind `loadIni` never writes. -/
inductive Val
  | str (s : Str)
  | int (n : Int)
  | bool (b : Bool)
  | float (bits : Nat)
  | other
  deriving DecidableEq, Repr

/-- A direct field of a nested struct: its `reflect.StructField` data (name,
`ini` tag as returned by `Tag.Get("ini")`, whether the name is exported, kind)
and the value it currently holds. -/
structure Leaf where
  name : Str
  ini : Str
  exported : Bool
  kind : Kind
  val : Val
  deriving DecidableEq, Repr

/-- A direct field of the target struct.  `fields` are the direct fields of
its value when `kind` is `Struct`; `val` is its content otherwise. -/
structure Section where
  name : Str
  ini : Str
  exported : Bool
  embedded : Bool
  kind : Kind
  fields : List Leaf
  val : Val
  deriving DecidableEq, Repr

/-- The struct a pointer target points to: its direct fields in declaration
order. -/
abbrev Record := List Section

/-- The `data interface{}` argument of `loadIni`. -/
inductive Data
  /-- The nil interface value: `reflect.TypeOf` returns nil. -/
  | nil
  /-- A value whose kind `k` is not `Ptr`. -/
  | nonPointer (k : Kind)
  /-- A pointer whose element type has kind `k`, not `Struct`. -/
  | pointerTo (k : Kind)
  /-- A non-nil pointer to a struct value. -/
  | structPointer (target : Record)
  /-- A nil pointer of type pointer-to-struct; `shape` carries the type only. -/
  | nilStructPointer (shape : Record)
  deriving DecidableEq, Repr

/-- The `t.Kind()` of `reflect.TypeOf(data)`; `none` when the type is nil. -/
def Data.kind : Data → Option Kind
  | .nil => none
  | .nonPointer k => some k
  | .pointerTo _ => some Kind.Ptr
  | .structPointer _ => some Kind.Ptr
  | .nilStructPointer _ => some Kind.Ptr

/-- The `t.Elem().Kind()` of a pointer type. -/
def Data.elemKind : Data → Kind
  | .pointerTo k => k
  | .structPointer _ => Kind.Struct
  | .nilStructPointer _ => Kind.Struct
  | _ => Kind.Invalid

/-- Go `Value.FieldByName` on a struct value, for a name that is a direct
field: the first direct field with that name.  The empty name finds nothing. -/
def FieldByName (r : Record) (name : Str) : Option Section :=
  if name = [] then none else r.find? (fun f => f.name == name)

/-- Go `Value.FieldByName` on a nested struct value. -/
def leafByName (fs : List Leaf) (name : Str) : Option Leaf :=
  if name = [] then none else fs.find? (fun f => f.name == name)

/-- Apply `f` to the first element satisfying `p`. -/
def updateFirst {α : Type} (p : α → Bool) (f : α → α) : List α → List α
  | [] => []
  | a :: as => if p a then f a :: as else a :: updateFirst p f as

/-- The platform and the outside world: the file system seen by
`ioutil.ReadFile`, the bit size of `int`, and the two floating-point operations
used (`strconv.ParseFloat(s, 64)` and the conversion `float32(x)`), kept
abstract over bit patterns. -/
structure Env where
  readFile : Str → Option Str
  int64bit : Bool
  parseFloat : Str → Option Nat
  toFloat32 : Nat → Nat

/-- Two-complement wrap of `x` to `w` bits: the Go conversion to a `w`-bit
signed integer type. -/
def wrapInt (w : Nat) (x : Int) : Int :=
  (x + ((2 ^ (w - 1) : Nat) : Int)) % ((2 ^ w : Nat) : Int) - ((2 ^ (w - 1) : Nat) : Int)

/-- Bit size of a signed integer kind. -/
def intBits (env : Env) : Kind → Option Nat
  | .Int => if env.int64bit then some 64 else some 32
  | .Int8 => some 8
  | .Int16 => some 16
  | .Int32 => some 32
  | .Int64 => some 64
  | _ => none

/-- Errors `loadIni` returns. -/
inductive LoadError
  | notPointer
  | notStructPointer
  | readFile
  | syntaxError (line : Nat)
  | valueTypeError (line : Nat)
  | notStruct (structName : Str)
  deriving DecidableEq, Repr

/-- The text of a returned error. -/
def LoadError.message : LoadError → Str
  | .notPointer => "data param should be a pointer".toList
  | .notStructPointer => "data param should be a struct pointer".toList
  | .readFile => "ioutil readfile err".toList
  | .syntaxError n => "line:".toList ++ (Nat.repr n).toList ++ " syntax error".toList
  | .valueTypeError n => "line:".toList ++ (Nat.repr n).toList ++ " value type error".toList
  | .notStruct s => "data中的".toList ++ s ++ "字段应该是一个结构体".toList

/-- Run-time panics reachable from `loadIni`. -/
inductive Panic
  /-- A method call on the nil `reflect.Type`. -/
  | nilType
  /-- A string index out of range. -/
  | indexOutOfRange
  /-- Slice bounds out of range. -/
  | sliceOutOfRange
  /-- A `reflect.Value` method called on the zero Value. -/
  | zeroValue
  /-- A `Set...` call on a value obtained through an unexported field. -/
  | notAssignable
  /-- A `Set...` call on a value of another kind. -/
  | wrongKind
  deriving DecidableEq, Repr

/-- How a call of `loadIni` ends. -/
inductive Outcome
  | ok
  | error (e : LoadError)
  | panic (p : Panic)
  deriving DecidableEq, Repr

/-- Go `Value.SetString`, `SetInt`, `SetBool`, `SetFloat` on the field object
`obj`, reached through a read-only path when `ro`: the new content, or the
panic raised.  `x` is the value handed to the setter. -/
def setValue (env : Env) (ro : Bool) (obj : Leaf) (x : Val) : Except Panic Val :=
  if ro then .error .notAssignable
  else
    match x with
    | .str s => if obj.kind = Kind.String then .ok (.str s) else .error .wrongKind
    | .int n =>
      match intBits env obj.kind with
      | some w => .ok (.int (wrapInt w n))
      | none => .error .wrongKind
    | .bool b => if obj.kind = Kind.Bool then .ok (.bool b) else .error .wrongKind
    | .float x =>
      if obj.kind = Kind.Float32 then .ok (.float (env.toFloat32 x))
      else if obj.kind = Kind.Float64 then .ok (.float x)
      else .error .wrongKind
    | .other => .error .wrongKind

/-- The conversion selected by the `switch fileType.Type.Kind()`: `none` when
the kind has no case (nothing is done), otherwise the parsed value or `none`
inside when parsing fails. -/
def convert (env : Env) (k : Kind) (value : Str) : Option (Option Val) :=
  match k with
  | .String => some (some (.str value))
  | .Int | .Int8 | .Int16 | .Int32 | .Int64 => some ((ParseInt value).map Val.int)
  | .Bool => some ((ParseBool value).map Val.bool)
  | .Float32 | .Float64 => some ((env.parseFloat value).map Val.float)
  | _ => none

/-- The state carried from line to line: the name of the field of the active
section (`structName`, empty at the start) and the target record. -/
structure State where
  structName : Str
  target : Record
  deriving DecidableEq, Repr

/-- Effect of one iteration of the line loop. -/
inductive Step
  /-- The loop goes on (`continue` or end of the body). -/
  | next (st : State)
  /-- The function returns the error. -/
  | fail (e : LoadError) (st : State)
  /-- The function panics. -/
  | panic (p : Panic) (st : State)
  deriving DecidableEq, Repr

/-- The loop over `t.Elem().Field(i)` of a section header: the name of the
first field whose `ini` tag equals `sectionName`, or the previous `structName`
when there is none. -/
def findSection (r : Record) (sectionName structName : Str) : Str :=
  match r.find? (fun f => sectionName == f.ini) with
  | some f => f.name
  | none => structName

/-- The loop over `sType.Field(i)` of an assignment: the first field whose
`ini` tag equals `key`. -/
def findKey (fs : List Leaf) (key : Str) : Option Leaf :=
  fs.find? (fun f => f.ini == key)

/-- Store `x` as the content of the first field named `fieldName` of the first
field named `structName` of the record. -/
def writeLeaf (r : Record) (structName fieldName : Str) (x : Val) : Record :=
  updateFirst (fun s => s.name == structName)
    (fun s => { s with
      fields := updateFirst (fun l => l.name == fieldName) (fun l => { l with val := x }) s.fields })
    r

/-- The assignment branch of the loop body once `key` and `value` are cut out
(source lines 107 to 164).  `isNil` says that `data` is a nil pointer. -/
def assign (env : Env) (isNil : Bool) (idx : Nat) (key value : Str) (st : State) : Step :=
  -- v.Elem().FieldByName(structName)
  if isNil then .panic .zeroValue st
  else
    match FieldByName st.target st.structName with
    | none => .panic .zeroValue st          -- sValue.Type() on the zero Value
    | some sValue =>
      if sValue.kind ≠ Kind.Struct then .fail (.notStruct st.structName) st
      else
        match findKey sValue.fields key with
        | none => .next st                   -- fieldName stays empty
        | some fileType =>
          if fileType.name.length = 0 then .next st
          else
            -- fileObj := sValue.FieldByName(fieldName)
            let fileObj := leafByName sValue.fields fileType.name
            match convert env fileType.kind value with
            | none => .next st                 -- no case of the switch applies
            | some none => .fail (.valueTypeError (idx + 1)) st
            | some (some x) =>
              match fileObj with
              | none => .panic .zeroValue st
              | some obj =>
                let ro := (!sValue.exported && !sValue.embedded) || !obj.exported
                match setValue env ro obj x with
                | .error p => .panic p st
                | .ok y =>
                  .next { st with target := writeLeaf st.target st.structName fileType.name y }

/-- One iteration of `for idx, line := range lineSlice` (source lines 63 to 166). -/
def processLine (env : Env) (isNil : Bool) (idx : Nat) (line0 : Str) (st : State) : Step :=
  let line := TrimSpace line0
  if line.length = 0 then .next st
  else if HasPrefix line ";".toList || HasPrefix line "#".toList then .next st
  else if HasPrefix line "[".toList then
    match byteAt line ((line.length : Int) - 1) with
    | none => .panic .indexOutOfRange st
    | some last =>
      if last ≠ ']' then .fail (.syntaxError (idx + 1)) st
      else
        match slice line 1 ((line.length : Int) - 1) with
        | none => .panic .sliceOutOfRange st
        | some inner =>
          let sectionName := TrimSpace inner
          if sectionName.length = 0 then .fail (.syntaxError (idx + 1)) st
          else .next { st with structName := findSection st.target sectionName st.structName }
  else
    if Index line "=".toList = -1 || HasPrefix line "=".toList then
      .fail (.syntaxError (idx + 1)) st
    else
      let index := Index line "=".toList
      match slice line 0 index, slice line (index + 1) (line.length : Int) with
      | some l, some r => assign env isNil idx (TrimSpace l) (TrimSpace r) st
      | _, _ => .panic .sliceOutOfRange st

/-- The line loop from index `idx` on: the outcome and the state reached. -/
def scanLines (env : Env) (isNil : Bool) : Nat → List Str → State → Outcome × State
  | _, [], st => (.ok, st)
  | idx, line :: rest, st =>
    match processLine env isNil idx line st with
    | .next st1 => scanLines env isNil (idx + 1) rest st1
    | .fail e st1 => (.error e, st1)
    | .panic p st1 => (.panic p, st1)

/-- What a call leaves behind: the outcome and the argument, with the pointed-to
record as the call left it. -/
structure Result where
  outcome : Outcome
  data : Data
  deriving DecidableEq, Repr

/-- The function `loadIni(fileName, data)`. -/
def loadIni (env : Env) (fileName : Str) (data : Data) : Result :=
  match data.kind with
  | none => ⟨.panic .nilType, data⟩         -- t.Name() on a nil Type
  | some k =>
    if k ≠ Kind.Ptr then ⟨.error .notPointer, data⟩
    else if data.elemKind ≠ Kind.Struct then ⟨.error .notStructPointer, data⟩
    else
      match env.readFile fileName with
      | none => ⟨.error .readFile, data⟩
      | some b =>
        let lineSlice := splitCRLF b
        match data with
        | .structPointer target =>
          let r := scanLines env false 0 lineSlice ⟨[], target⟩
          ⟨r.1, .structPointer r.2.target⟩
        | .nilStructPointer shape =>
          let r := scanLines env true 0 lineSlice ⟨[], shape⟩
          ⟨r.1, .nilStructPointer shape⟩
        | d => ⟨.error .notStructPointer, d⟩

/-! ## The types declared in the source -/

/-- A field of a nested struct with its zero value. -/
def zeroLeaf (name ini : String) (kind : Kind) (val : Val) : Leaf :=
  ⟨name.toList, ini.toList, true, kind, val⟩

/-- Zero value of `MysqlConfig`. -/
def MysqlConfig : List Leaf :=
  [ zeroLeaf "Address" "address" .String (.str []),
    zeroLeaf "Port" "port" .Int (.int 0),
    zeroLeaf "Username" "username" .String (.str []),
    zeroLeaf "Password" "password" .String (.str []) ]

/-- Zero value of `RedisConfig`. -/
def RedisConfig : List Leaf :=
  [ zeroLeaf "Host" "host" .String (.str []),
    zeroLeaf "Port" "port" .Int (.int 0),
    zeroLeaf "Password" "password" .String (.str []),
    zeroLeaf "Database" "database" .Int (.int 0),
    zeroLeaf "Test" "test" .Bool (.bool false) ]

/-- Zero value of `Config`: two embedded structs tagged `mysql` and `redis`. -/
def Config : Record :=
  [ ⟨"MysqlConfig".toList, "mysql".toList, true, true, .Struct, MysqlConfig, .other⟩,
    ⟨"RedisConfig".toList, "redis".toList, true, true, .Struct, RedisConfig, .other⟩ ]

/-- The scenario file of the specification. -/
def scenario : Str :=
  "[mysql]\r\naddress = 127.0.0.1\r\nport = 3306\r\n[redis]\r\nhost = 127.0.0.1\r\nport = 6379\r\ndatabase = 0\r\ntest = true\r\n".toList

/-- An environment in which every file name reads as `content`, `int` has 64
bits and no text parses as a float. -/
def envOf (content : Str) : Env :=
  ⟨fun _ => some content, true, fun _ => none, fun x => x⟩


/-- A `Config` with the given contents in the fields the scenario sets, and the
zero value in `Username` and both `Password` fields. -/
def configWith (address : String) (port : Int) (host : String) (rport database : Int)
    (test : Bool) : Record :=
  [ ⟨"MysqlConfig".toList, "mysql".toList, true, true, .Struct,
      [ zeroLeaf "Address" "address" .String (.str address.toList),
        zeroLeaf "Port" "port" .Int (.int port),
        zeroLeaf "Username" "username" .String (.str []),
        zeroLeaf "Password" "password" .String (.str []) ], .other⟩,
    ⟨"RedisConfig".toList, "redis".toList, true, true, .Struct,
      [ zeroLeaf "Host" "host" .String (.str host.toList),
        zeroLeaf "Port" "port" .Int (.int rport),
        zeroLeaf "Password" "password" .String (.str []),
        zeroLeaf "Database" "database" .Int (.int database),
        zeroLeaf "Test" "test" .Bool (.bool test) ], .other⟩ ]

/-! ## Vocabulary of the statements -/

/-- The content of field `fieldName` of the nested struct field `structName`. -/
def fieldValue (r : Record) (structName fieldName : String) : Option Val :=
  (FieldByName r structName.toList).bind fun s =>
    (leafByName s.fields fieldName.toList).map fun l => l.val

/-- The lines of a file, as `loadIni` sees them. -/
def linesOf (content : Str) : List Str :=
  splitCRLF content

/-- The state in which line `n` (1-based) is reached when no earlier line
stops the scan: the outcome and state of scanning the first `n - 1` lines. -/
def before (env : Env) (target : Record) (content : Str) (n : Nat) : Outcome × State :=
  scanLines env false 0 ((linesOf content).take (n - 1)) ⟨[], target⟩

/-- The content of field `fieldName` of the nested struct field `structName`,
both given as Go strings. -/
def leafValue (r : Record) (structName fieldName : Str) : Option Val :=
  (FieldByName r structName).bind fun s =>
    (leafByName s.fields fieldName).map fun l => l.val

/-- An assignment line of the file format: once trimmed it is non-empty, starts
with none of `;`, `#`, `[`, `=`, and contains `=`. -/
def isAssignment (line : Str) : Bool :=
  let t := TrimSpace line
  !t.isEmpty && !HasPrefix t ";".toList && !HasPrefix t "#".toList &&
    !HasPrefix t "[".toList && !HasPrefix t "=".toList && t.contains '='

/-- The key of an assignment line: the trimmed text before the first `=`. -/
def keyOf (line : Str) : Str :=
  TrimSpace ((TrimSpace line).take ((TrimSpace line).indexOf '='))

/-- The raw value of an assignment line: the trimmed text after the first `=`. -/
def valueOf (line : Str) : Str :=
  TrimSpace ((TrimSpace line).drop ((TrimSpace line).indexOf '=' + 1))

/-- The number a string of decimal digits denotes. -/
def decimalValue (digits : Str) : Nat :=
  digits.foldl (fun n c => n * 10 + (c.toNat - 48)) 0

/-- A base-10 signed integer literal in the 64-bit range: an optional sign, then
one or more decimal digits, denoting a value from `-2^63` to `2^63 - 1`. -/
def IsInt64Literal (s : Str) : Prop :=
  ∃ sign digits, s = sign ++ digits ∧ (sign = [] ∨ sign = ['+'] ∨ sign = ['-']) ∧
    digits ≠ [] ∧ (∀ c ∈ digits, c.isDigit = true) ∧
    (if sign = ['-'] then decimalValue digits ≤ 2 ^ 63 else decimalValue digits < 2 ^ 63)

/-- The literals that stand for true. -/
def trueLiterals : List Str :=
  ["1".toList, "t".toList, "T".toList, "TRUE".toList, "true".toList, "True".toList]

/-- The literals that stand for false. -/
def falseLiterals : List Str :=
  ["0".toList, "f".toList, "F".toList, "FALSE".toList, "false".toList, "False".toList]

/-- An accepted boolean literal. -/
def IsBoolLiteral (s : Str) : Prop :=
  s ∈ trueLiterals ∨ s ∈ falseLiterals

/-- The signed integer kinds. -/
def isIntKind (k : Kind) : Bool :=
  k = .Int || k = .Int8 || k = .Int16 || k = .Int32 || k = .Int64

/-- Whether carriage return + line feed occurs in the string. -/
def hasCRLF : Str → Bool
  | [] => false
  | [_] => false
  | c :: d :: rest => (c == '\r' && d == '\n') || hasCRLF (d :: rest)

/-- The file made of the given lines, separated by carriage return + line feed. -/
def joinCRLF : List Str → Str
  | [] => []
  | [l] => l
  | l :: m :: ls => l ++ '\r' :: '\n' :: joinCRLF (m :: ls)

/-- The scenario file with line 3 changed to `port = threethousand`. -/
def scenarioBadPort : Str :=
  "[mysql]\r\naddress = 127.0.0.1\r\nport = threethousand\r\n[redis]\r\nhost = 127.0.0.1\r\nport = 6379\r\ndatabase = 0\r\ntest = true\r\n".toList

/-- A header line whose section name matches no declared section of `r`. -/
def IsUnknownHeader (r : Record) (line : Str) : Prop :=
  ∃ inner, TrimSpace line = '[' :: (inner ++ [']']) ∧ TrimSpace inner ≠ [] ∧
    ∀ s ∈ r, s.ini ≠ TrimSpace inner

/-- An assignment line whose key matches no declared key of the nested struct
of `sec`. -/
def IsUnknownKey (sec : Section) (line : Str) : Prop :=
  isAssignment line = true ∧ ∀ l ∈ sec.fields, l.ini ≠ keyOf line

/-- A target whose only field, `Port int`, carries the tag `ini:"port"`: a
section name bound to a field that is no struct. -/
def flatRecord : Record :=
  [⟨"Port".toList, "port".toList, true, false, .Int, [], .int 0⟩]

/-- Equality of two texts when letter case is ignored. -/
def equalsIgnoringCase (a b : Str) : Bool :=
  a.map Char.toLower == b.map Char.toLower

/-! ### The file format and well-formed files -/

/-- What one line of the file says, by the file format: a blank or comment line
(`skip`), a section header, a key/value assignment, or neither. -/
inductive LineKind
  | skip
  | malformed
  | header (name : Str)
  | assignment (key value : Str)
  deriving DecidableEq, Repr

/-- The reading of a line by the file format: trim; empty or starting with `;`
or `#` is skipped; starting with `[` it must end with `]` and have a non-empty
trimmed name between the brackets; otherwise it must contain `=`, not at its
start, and splits at the first `=` into a trimmed key and a trimmed value. -/
def classify (line : Str) : LineKind :=
  let t := TrimSpace line
  if t = [] then .skip
  else if t.head? = some ';' ∨ t.head? = some '#' then .skip
  else if t.head? = some '[' then
    if t.getLast? = some ']' then
      if TrimSpace (t.drop 1).dropLast = [] then .malformed
      else .header (TrimSpace (t.drop 1).dropLast)
    else .malformed
  else if isAssignment line then .assignment (keyOf line) (valueOf line)
  else .malformed

/-- The loop body on a line of the given kind. -/
def applyKind (env : Env) (idx : Nat) (k : LineKind) (st : State) : Step :=
  match k with
  | .skip => .next st
  | .malformed => .fail (.syntaxError (idx + 1)) st
  | .header name => .next { st with structName := findSection st.target name st.structName }
  | .assignment key value => assign env false idx key value st

/-- The state reached when every line kind of the list lets the loop go on. -/
def runKinds (env : Env) : List LineKind → State → Option State
  | [], st => some st
  | k :: ks, st =>
    match applyKind env 0 k st with
    | .next st1 => runKinds env ks st1
    | _ => none

/-- The type data of a field, with its content erased. -/
def Leaf.erase (l : Leaf) : Leaf :=
  { l with val := .other }

/-- The type data of a field of the target, with every content erased. -/
def Section.erase (s : Section) : Section :=
  { s with fields := s.fields.map Leaf.erase, val := .other }

/-- The schema of a record: what `reflect.TypeOf` sees of it. -/
def schemaOf (r : Record) : Record :=
  r.map Section.erase

/-- The declared sections of a schema: the fields that carry an `ini` tag. -/
def declaredSections (r : Record) : List Section :=
  r.filter fun s => !s.ini.isEmpty

/-- The declared keys of a section: the fields that carry an `ini` tag. -/
def declaredKeys (s : Section) : List Leaf :=
  s.fields.filter fun l => !l.ini.isEmpty

/-- Whether the value text parses for the kind, one of the kinds with a
conversion. -/
def parses (env : Env) (k : Kind) (value : Str) : Bool :=
  match convert env k value with
  | some (some _) => true
  | _ => false

/-- The conversion of a value text for a field: the parsed value, as the
setter of the field's kind stores it. -/
def stored (env : Env) (l : Leaf) (value : Str) : Option Val :=
  match convert env l.kind value with
  | some (some x) =>
    match setValue env false l x with
    | .ok y => some y
    | .error _ => none
  | _ => none

/-- One section of a well-formed file: the declared section it is for and, in
file order, the declared keys assigned under its header with their value texts. -/
structure Block where
  sec : Section
  entries : List (Leaf × Str)

/-- The lines of a block, as line kinds: the header, then one assignment for
each entry. -/
def Block.kinds (b : Block) : List LineKind :=
  .header b.sec.ini :: b.entries.map fun e => .assignment e.1.ini e.2

/-- What Go guarantees of struct types: field names are non-empty and distinct,
in the target struct and in each nested struct. -/
def GoNames (schema : Record) : Prop :=
  (schema.map fun s => s.name).Nodup ∧ ∀ s ∈ schema, s.name ≠ [] ∧
    (s.fields.map fun l => l.name).Nodup ∧ ∀ l ∈ s.fields, l.name ≠ []

/-- Every declared section is a field of struct kind. -/
def SectionsAreRecords (schema : Record) : Prop :=
  ∀ s ∈ declaredSections schema, s.kind = Kind.Struct

/-- Section names are unique, and key names are unique within each section. -/
def UniqueTags (schema : Record) : Prop :=
  ((declaredSections schema).map fun s => s.ini).Nodup ∧
    ∀ s ∈ declaredSections schema, ((declaredKeys s).map fun l => l.ini).Nodup

/-- Every declared field can be set through `reflect`: declared keys are
exported, and declared sections are exported or embedded. -/
def Settable (schema : Record) : Prop :=
  ∀ s ∈ declaredSections schema, (s.exported = true ∨ s.embedded = true) ∧
    ∀ l ∈ declaredKeys s, l.exported = true

/-- The file consists, blank and comment lines apart, of the lines of `blocks`:
one block for each declared section, and in each block one assignment for each
declared key of the section, with a value text that parses for the key's kind. -/
def WellFormedFile (env : Env) (schema : Record) (content : Str) (blocks : List Block) : Prop :=
  ((linesOf content).map classify).filter (fun k => k ≠ LineKind.skip) =
      blocks.flatMap Block.kinds ∧
    (blocks.map fun b => b.sec).Perm (declaredSections schema) ∧
    ∀ b ∈ blocks, (b.entries.map fun e => e.1).Perm (declaredKeys b.sec) ∧
      ∀ e ∈ b.entries, parses env e.1.kind e.2 = true

/-- A target with one embedded section `S` tagged `s` whose only field, `port int`
tagged `port`, is unexported. -/
def unexportedRecord : Record :=
  [⟨"S".toList, "s".toList, true, true, .Struct,
    [⟨"port".toList, "port".toList, false, .Int, .int 0⟩], .other⟩]

/-- A file that assigns every key of `Config` once, section by section. -/
def fullFile : Str :=
  "; settings\r\n[mysql]\r\naddress = 127.0.0.1\r\nport = 3306\r\nusername = root\r\npassword = pw\r\n\r\n[redis]\r\nhost = localhost\r\nport = 6379\r\npassword = \r\ndatabase = 2\r\ntest = true\r\n".toList

/-- The blocks of `fullFile`. -/
def fullFileBlocks : List Block :=
  [ ⟨⟨"MysqlConfig".toList, "mysql".toList, true, true, .Struct,
        MysqlConfig.map Leaf.erase, .other⟩,
      [ ((zeroLeaf "Address" "address" .String (.str [])).erase, "127.0.0.1".toList),
        ((zeroLeaf "Port" "port" .Int (.int 0)).erase, "3306".toList),
        ((zeroLeaf "Username" "username" .String (.str [])).erase, "root".toList),
        ((zeroLeaf "Password" "password" .String (.str [])).erase, "pw".toList) ]⟩,
    ⟨⟨"RedisConfig".toList, "redis".toList, true, true, .Struct,
        RedisConfig.map Leaf.erase, .other⟩,
      [ ((zeroLeaf "Host" "host" .String (.str [])).erase, "localhost".toList),
        ((zeroLeaf "Port" "port" .Int (.int 0)).erase, "6379".toList),
        ((zeroLeaf "Password" "password" .String (.str [])).erase, []),
        ((zeroLeaf "Database" "database" .Int (.int 0)).erase, "2".toList),
        ((zeroLeaf "Test" "test" .Bool (.bool false)).erase, "true".toList) ]⟩ ]

/-- The one block of the file `[s]`, `port = 1` for `unexportedRecord`. -/
def unexportedBlocks : List Block :=
  [ ⟨⟨"S".toList, "s".toList, true, true, .Struct,
        [⟨"port".toList, "port".toList, false, .Int, .other⟩], .other⟩,
      [ (⟨"port".toList, "port".toList, false, .Int, .other⟩, "1".toList) ]⟩ ]

/-! ### Vocabulary of the statements about single lines -/

/-- The state a step of the loop leaves behind. -/
def Step.state : Step → State
  | .next st => st
  | .fail _ st => st
  | .panic _ st => st

/-- The kinds of text, signed integer, boolean and floating-point fields. -/
def isPrimitiveKind (k : Kind) : Bool :=
  k = .String || isIntKind k || k = .Bool || k = .Float32 || k = .Float64

/-- The integer a signed string of decimal digits denotes. -/
def literalValue : Str → Int
  | '-' :: digits => -(decimalValue digits : Int)
  | '+' :: digits => (decimalValue digits : Int)
  | digits => (decimalValue digits : Int)

/-- The signed range of `w` bits. -/
def InIntRange (w : Nat) (z : Int) : Prop :=
  -((2 ^ (w - 1) : Nat) : Int) ≤ z ∧ z < ((2 ^ (w - 1) : Nat) : Int)

/-- The width of the sized signed integer kinds below 64 bits. -/
def narrowBits : Kind → Option Nat
  | .Int8 => some 8
  | .Int16 => some 16
  | .Int32 => some 32
  | _ => none

/-- A target with one section `Limits` tagged `limits` whose only field is
`Level int8` tagged `level`. -/
def narrowRecord : Record :=
  [⟨"Limits".toList, "limits".toList, true, false, .Struct,
    [⟨"Level".toList, "level".toList, true, .Int8, .int 0⟩], .other⟩]

/-- The target `narrowRecord` with the field spelled `level`, unexported. -/
def hiddenNarrowRecord : Record :=
  [⟨"Limits".toList, "limits".toList, true, false, .Struct,
    [⟨"level".toList, "level".toList, false, .Int8, .int 0⟩], .other⟩]

/-- A target with one section `Notes` tagged `notes` whose only field is
`text string` tagged `text`, unexported. -/
def hiddenTextRecord : Record :=
  [⟨"Notes".toList, "notes".toList, true, false, .Struct,
    [⟨"text".toList, "text".toList, false, .String, .str []⟩], .other⟩]

/-- A target with one section `Shape` tagged `shape` whose fields are
`Sides uint` tagged `sides` and `Name string` tagged `name`. -/
def shapeRecord : Record :=
  [⟨"Shape".toList, "shape".toList, true, false, .Struct,
    [⟨"Sides".toList, "sides".toList, true, .Uint, .other⟩,
      ⟨"Name".toList, "name".toList, true, .String, .str []⟩], .other⟩]

/-! ### Vocabulary of the statements about inserted lines -/

/-- A line that is empty or white space only, or whose first character that is
no white space is `;` or `#`. -/
def IsSkipLine (s : Str) : Prop :=
  (∀ c ∈ s, isSpace c = true) ∨
    ∃ ws c rest, s = ws ++ c :: rest ∧ (∀ x ∈ ws, isSpace x = true) ∧ (c = ';' ∨ c = '#')

/-- The error with its line number, when it names a line after the first `k`
lines, increased by one. -/
def LoadError.shift (k : Nat) : LoadError → LoadError
  | .syntaxError n => .syntaxError (if k < n then n + 1 else n)
  | .valueTypeError n => .valueTypeError (if k < n then n + 1 else n)
  | e => e

/-- The outcome with the line number of its error, when that line comes after
the first `k` lines, increased by one. -/
def Outcome.shift (k : Nat) : Outcome → Outcome
  | .error e => .error (e.shift k)
  | o => o

/-- An environment with two files: `c1` under the empty name, `c2` under every
other name. -/
def envOfFiles (c1 c2 : Str) : Env :=
  ⟨fun f => if f = [] then some c1 else some c2, true, fun _ => none, fun x => x⟩

/-! ### Vocabulary of the statements about what is written -/

/-- In state `st`, the line is an assignment whose key resolves to the field
named `ln` of the nested struct of the active field, named `sn`: the only lines
on which `loadIni` sets that field. -/
def WritesSlot (st : State) (line sn ln : Str) : Prop :=
  isAssignment line = true ∧ st.structName = sn ∧
    ∃ sec ft, FieldByName st.target sn = some sec ∧
      findKey sec.fields (keyOf line) = some ft ∧ ft.name = ln

/-- The name of the active section is still empty, or is the name of a field of
the schema that carries an `ini` tag. -/
def ActiveDeclared (schema : Record) (structName : Str) : Prop :=
  structName = [] ∨ ∃ s ∈ schema, s.name = structName ∧ s.ini ≠ []

/-! ### Vocabulary of the statements about the active section -/

/-- A header line whose name is the `ini` tag of a field of the schema. -/
def ResolvingHeader (schema : Record) (line : Str) : Prop :=
  ∃ name, classify line = .header name ∧ ∃ s ∈ schema, s.ini = name

end IniParse

namespace MyLogger

/-! ## The logger: `mylogger.go` -/

/-- The type `LogLevel` (`uint16`): the value as a natural number. -/
abbrev LogLevel := Nat

/-- The constant `UNKNOWN` (`iota` 0). -/
def UNKNOWN : LogLevel := 0

/-- The constant `DEBUG`. -/
def DEBUG : LogLevel := 1

/-- The constant `INFO`. -/
def INFO : LogLevel := 2

/-- The constant `WARNING`. -/
def WARNING : LogLevel := 3

/-- The constant `ERROR`. -/
def ERROR : LogLevel := 4

/-- The constant `FATAL`. -/
def FATAL : LogLevel := 5

/-- Go `unicode.ToLower` on one rune: `A` to `Z` are moved to `a` to `z`, the
other ASCII runes are kept, and a rune beyond ASCII is mapped by the case table
of the Unicode library, `table`. -/
def lowerRune (table : Char → Char) (c : Char) : Char :=
  if c.toNat < 128 then
    if 'A'.toNat ≤ c.toNat ∧ c.toNat ≤ 'Z'.toNat then Char.ofNat (c.toNat + 32) else c
  else table c

/-- Go `strings.ToLower`, rune by rune. -/
def ToLower (table : Char → Char) (s : List Char) : List Char :=
  s.map (lowerRune table)

/-- The message of the error of `parseLogLevel`. -/
def invalidLevel : List Char := "无效的日志级别".toList

/-- The function `parseLogLevel`: the level and the error, `none` for `nil`. -/
def parseLogLevel (table : Char → Char) (logLevelStr : List Char) :
    LogLevel × Option (List Char) :=
  let s := ToLower table logLevelStr
  if s = "debug".toList then (DEBUG, none)
  else if s = "info".toList then (INFO, none)
  else if s = "warning".toList then (WARNING, none)
  else if s = "error".toList then (ERROR, none)
  else if s = "fatal".toList then (FATAL, none)
  else (UNKNOWN, some invalidLevel)

/-- The function `getLogString`. -/
def getLogString (logLevel : LogLevel) : List Char :=
  if logLevel = DEBUG then "DEBUG".toList
  else if logLevel = INFO then "INFO".toList
  else if logLevel = WARNING then "WARNING".toList
  else if logLevel = ERROR then "ERROR".toList
  else if logLevel = FATAL then "FATAL".toList
  else "UNKNOWN".toList

/-- The lower-case names of the five levels. -/
def levelNames : List (List Char) :=
  ["debug".toList, "info".toList, "warning".toList, "error".toList, "fatal".toList]

end MyLogger

namespace IniParse

/-! ## Facts about the string functions -/

theorem toList_semicolon : ";".toList = [';'] := rfl
theorem toList_hash : "#".toList = ['#'] := rfl
theorem toList_lbracket : "[".toList = ['['] := rfl
theorem toList_equals : "=".toList = ['='] := rfl

theorem HasPrefix_singleton (s : Str) (c : Char) :
    HasPrefix s [c] = true ↔ s.head? = some c := by
  cases s with
  | nil => simp [HasPrefix, List.isPrefixOf]
  | cons x xs =>
    simp [HasPrefix, List.isPrefixOf]
    exact eq_comm

theorem indexFrom_singleton (c : Char) (s : Str) (i : Nat) :
    indexFrom [c] s i = if c ∈ s then ((i + s.indexOf c : Nat) : Int) else -1 := by
  induction s generalizing i with
  | nil => simp [indexFrom]
  | cons x xs ih =>
    by_cases h : c = x
    · subst h
      simp [indexFrom, List.isPrefixOf]
    · have hx : ¬ x = c := fun e => h e.symm
      simp [indexFrom, List.isPrefixOf, h, ih, List.indexOf_cons_ne _ hx]
      split
      · omega
      · rfl

theorem Index_singleton (c : Char) (s : Str) :
    Index s [c] = if c ∈ s then ((s.indexOf c : Nat) : Int) else -1 := by
  simp [Index, indexFrom_singleton]

theorem Index_singleton_eq_neg_one (c : Char) (s : Str) :
    Index s [c] = -1 ↔ c ∉ s := by
  rw [Index_singleton]
  split <;> simp_all

theorem TrimSpace_eq_rdropWhile (s : Str) :
    TrimSpace s = (s.dropWhile isSpace).rdropWhile isSpace := rfl

theorem TrimSpace_head (s : Str) (c : Char) (rest : Str)
    (h : TrimSpace s = c :: rest) : isSpace c = false := by
  rw [TrimSpace_eq_rdropWhile] at h
  have hpre : (s.dropWhile isSpace).rdropWhile isSpace <+: s.dropWhile isSpace :=
    List.rdropWhile_prefix isSpace (s.dropWhile isSpace)
  rw [h] at hpre
  obtain ⟨t, ht⟩ := hpre
  have hh := List.head?_dropWhile_not isSpace s
  rw [← ht] at hh
  simpa using hh

theorem TrimSpace_getLast (s : Str) (c : Char)
    (h : (TrimSpace s).getLast? = some c) : isSpace c = false := by
  rw [TrimSpace_eq_rdropWhile] at h
  have hne : (s.dropWhile isSpace).rdropWhile isSpace ≠ [] := by
    intro e
    rw [e] at h
    simp at h
  have hl := List.rdropWhile_last_not isSpace (s.dropWhile isSpace) hne
  rw [List.getLast?_eq_getLast _ hne] at h
  simp only [Option.some.injEq] at h
  rw [h] at hl
  simpa using hl

theorem TrimSpace_eq_self (s : Str)
    (hh : ∀ c, s.head? = some c → isSpace c = false)
    (hl : ∀ c, s.getLast? = some c → isSpace c = false) : TrimSpace s = s := by
  rw [TrimSpace_eq_rdropWhile]
  have h1 : s.dropWhile isSpace = s := by
    cases s with
    | nil => rfl
    | cons x xs =>
      have := hh x rfl
      simp [List.dropWhile_cons, this]
  rw [h1, List.rdropWhile_eq_self_iff]
  intro hne
  have := hl (s.getLast hne) (List.getLast?_eq_getLast _ hne)
  simp [this]

theorem TrimSpace_eq_nil_of_all (s : Str) (h : ∀ c ∈ s, isSpace c = true) :
    TrimSpace s = [] := by
  rw [TrimSpace_eq_rdropWhile]
  have h1 : s.dropWhile isSpace = [] := List.dropWhile_eq_nil_iff.mpr h
  rw [h1]
  rfl

theorem byteAt_last (t : Str) (h : t ≠ []) :
    byteAt t ((t.length : Int) - 1) = t.getLast? := by
  have hl : 0 < t.length := List.length_pos.mpr h
  have h0 : (0 : Int) ≤ (t.length : Int) - 1 := by omega
  have h1 : ((t.length : Int) - 1).toNat = t.length - 1 := by omega
  simp [byteAt, h0, h1, List.getLast?_eq_getElem?]

theorem slice_brackets (a b : Char) (inner : Str) :
    slice (a :: (inner ++ [b])) 1 (((a :: (inner ++ [b])).length : Int) - 1) = some inner := by
  have h1 : ((((a :: (inner ++ [b])).length : Nat) : Int) - 1).toNat = inner.length + 1 := by
    simp
  have h2 : (1 : Int) ≤ (((a :: (inner ++ [b])).length : Nat) : Int) - 1 := by
    simp
  have h3 : (((a :: (inner ++ [b])).length : Nat) : Int) - 1
      ≤ (((a :: (inner ++ [b])).length : Nat) : Int) := by omega
  rw [slice, if_pos ⟨by decide, h2, h3⟩, h1]
  simp

theorem getLast?_brackets (a b : Char) (inner : Str) :
    (a :: (inner ++ [b])).getLast? = some b :=
  List.getLast?_eq_some_iff.mpr ⟨a :: inner, rfl⟩

theorem header_shape (t : Str) (h1 : t.head? = some '[') (h2 : t.getLast? = some ']') :
    ∃ inner, t = '[' :: (inner ++ [']']) := by
  obtain ⟨ys, hys⟩ := List.getLast?_eq_some_iff.mp h2
  subst hys
  cases ys with
  | nil => simp at h1
  | cons y ys =>
    simp at h1
    subst h1
    exact ⟨ys, rfl⟩

theorem slice_at_index (t : Str) (c : Char) (h : c ∈ t) :
    slice t 0 (Index t [c]) = some (t.take (t.indexOf c)) ∧
    slice t (Index t [c] + 1) (t.length : Int) = some (t.drop (t.indexOf c + 1)) := by
  have hlt : t.indexOf c < t.length := List.indexOf_lt_length.mpr h
  rw [Index_singleton, if_pos h]
  constructor
  · have : (0 : Int) ≤ 0 ∧ (0 : Int) ≤ ((t.indexOf c : Nat) : Int) ∧
        ((t.indexOf c : Nat) : Int) ≤ (t.length : Int) := by omega
    simp [slice, this]
  · have : (0 : Int) ≤ ((t.indexOf c : Nat) : Int) + 1 ∧
        ((t.indexOf c : Nat) : Int) + 1 ≤ (t.length : Int) ∧
        ((t.length : Nat) : Int) ≤ (t.length : Int) := by omega
    have h2 : (((t.indexOf c : Nat) : Int) + 1).toNat = t.indexOf c + 1 := by omega
    simp [slice, this, h2]

/-! ## Splitting and joining lines -/

theorem hasCRLF_tail (c : Char) (a : Str) (h : hasCRLF (c :: a) = false) : hasCRLF a = false := by
  cases a with
  | nil => rfl
  | cons d rest =>
    simp only [hasCRLF, Bool.or_eq_false_iff] at h
    exact h.2

theorem splitCRLF_append_crlf (a b : Str) (h : hasCRLF a = false) :
    splitCRLF (a ++ '\r' :: '\n' :: b) = a :: splitCRLF b := by
  induction a with
  | nil => simp [splitCRLF]
  | cons c a ih =>
    have ih1 := ih (hasCRLF_tail c a h)
    cases a with
    | nil =>
      have hne : ¬ (c = '\r' ∧ '\r' = '\n') := fun hh => absurd hh.2 (by decide)
      simp only [List.cons_append, List.nil_append, splitCRLF, if_neg hne] at ih1 ⊢
      rw [ih1]
      rfl
    | cons d rest =>
      have hne : ¬ (c = '\r' ∧ d = '\n') := by
        simp only [hasCRLF, Bool.or_eq_false_iff, Bool.and_eq_false_imp, beq_iff_eq] at h
        intro hh
        have := h.1 hh.1
        simp [hh.2] at this
      simp only [List.cons_append, splitCRLF, if_neg hne, List.append_eq] at ih1 ⊢
      rw [ih1]
      rfl

theorem splitCRLF_of_not_hasCRLF (a : Str) (h : hasCRLF a = false) : splitCRLF a = [a] := by
  induction a with
  | nil => rfl
  | cons c a ih =>
    have ih1 := ih (hasCRLF_tail c a h)
    cases a with
    | nil => rfl
    | cons d rest =>
      have hne : ¬ (c = '\r' ∧ d = '\n') := by
        simp only [hasCRLF, Bool.or_eq_false_iff, Bool.and_eq_false_imp, beq_iff_eq] at h
        intro hh
        have := h.1 hh.1
        simp [hh.2] at this
      simp only [splitCRLF, if_neg hne]
      rw [ih1]
      rfl

theorem hasCRLF_decompose (s : Str) (h : hasCRLF s = true) :
    ∃ a b, s = a ++ '\r' :: '\n' :: b ∧ hasCRLF a = false := by
  induction s with
  | nil => simp [hasCRLF] at h
  | cons c s ih =>
    cases s with
    | nil => simp [hasCRLF] at h
    | cons d rest =>
      by_cases hcd : c = '\r' ∧ d = '\n'
      · exact ⟨[], rest, by simp [hcd.1, hcd.2], rfl⟩
      · have ht : hasCRLF (d :: rest) = true := by
          simp only [hasCRLF, Bool.or_eq_true, Bool.and_eq_true, beq_iff_eq] at h
          rcases h with h | h
          · exact absurd h hcd
          · exact h
        obtain ⟨a, b, hab, ha⟩ := ih ht
        refine ⟨c :: a, b, by simp [hab], ?_⟩
        cases a with
        | nil => rfl
        | cons x a1 =>
          simp only [List.cons_append, List.cons.injEq] at hab
          have hx : x = d := hab.1.symm
          subst hx
          simp only [hasCRLF, Bool.or_eq_false_iff, Bool.and_eq_false_imp, beq_iff_eq]
          refine ⟨?_, ha⟩
          intro hc
          simp only [hc, true_and] at hcd
          simpa using hcd

theorem splitCRLF_segments_aux (m : Nat) :
    ∀ s : Str, s.length = m → ∀ seg ∈ splitCRLF s, hasCRLF seg = false := by
  induction m using Nat.strong_induction_on with
  | _ m ih =>
    intro s hlen
    by_cases h : hasCRLF s = true
    · obtain ⟨a, b, hab, ha⟩ := hasCRLF_decompose s h
      have hb : b.length < m := by
        rw [← hlen, hab]
        simp
        omega
      rw [hab, splitCRLF_append_crlf a b ha]
      intro seg hseg
      rcases List.mem_cons.mp hseg with e | e
      · rw [e]
        exact ha
      · exact ih b.length hb b rfl seg e
    · have h1 : hasCRLF s = false := by simpa using h
      rw [splitCRLF_of_not_hasCRLF s h1]
      intro seg hseg
      rw [List.mem_singleton.mp hseg]
      exact h1

theorem splitCRLF_segments (s : Str) : ∀ seg ∈ splitCRLF s, hasCRLF seg = false :=
  splitCRLF_segments_aux s.length s rfl

theorem splitCRLF_joinCRLF (ls : List Str) (hne : ls ≠ [])
    (h : ∀ l ∈ ls, hasCRLF l = false) : splitCRLF (joinCRLF ls) = ls := by
  induction ls with
  | nil => exact absurd rfl hne
  | cons l ls ih =>
    cases ls with
    | nil => exact splitCRLF_of_not_hasCRLF l (h l (List.mem_cons_self _ _))
    | cons m rest =>
      have ih1 := ih (by simp) (fun x hx => h x (List.mem_cons_of_mem _ hx))
      show splitCRLF (l ++ '\r' :: '\n' :: joinCRLF (m :: rest)) = l :: m :: rest
      rw [splitCRLF_append_crlf l _ (h l (List.mem_cons_self _ _)), ih1]

theorem splitCRLF_ne_nil (s : Str) : splitCRLF s ≠ [] := by
  by_cases h : hasCRLF s = true
  · obtain ⟨a, b, hab, ha⟩ := hasCRLF_decompose s h
    rw [hab, splitCRLF_append_crlf a b ha]
    simp
  · have h1 : hasCRLF s = false := by simpa using h
    rw [splitCRLF_of_not_hasCRLF s h1]
    simp

/-! ## Facts about `strconv` -/

theorem foldl_digits_none (s : Str) :
    s.foldl (fun (acc : Option Nat) c =>
      match acc with
      | none => none
      | some n => if c.isDigit then some (n * 10 + (c.toNat - 48)) else none) none = none := by
  induction s with
  | nil => rfl
  | cons c cs ih => simpa using ih

theorem foldl_digits_some (s : Str) (a : Nat) :
    s.foldl (fun (acc : Option Nat) c =>
      match acc with
      | none => none
      | some n => if c.isDigit then some (n * 10 + (c.toNat - 48)) else none) (some a)
    = if ∀ c ∈ s, c.isDigit = true then
        some (s.foldl (fun n c => n * 10 + (c.toNat - 48)) a)
      else none := by
  induction s generalizing a with
  | nil => simp
  | cons c cs ih =>
    simp only [List.foldl_cons, List.mem_cons, forall_eq_or_imp]
    by_cases hc : c.isDigit = true
    · simp only [hc, if_true, true_and]
      exact ih _
    · simp only [hc, Bool.false_eq_true, if_false, false_and]
      exact foldl_digits_none cs

theorem parseDigits_eq (s : Str) :
    parseDigits s =
      if s ≠ [] ∧ ∀ c ∈ s, c.isDigit = true then some (decimalValue s) else none := by
  unfold parseDigits decimalValue
  cases s with
  | nil => simp
  | cons c cs =>
    rw [foldl_digits_some]
    simp

theorem ParseInt_cons (c : Char) (rest : Str) :
    ParseInt (c :: rest) =
      if c = '+' then
        (if rest ≠ [] ∧ (∀ d ∈ rest, d.isDigit = true) ∧ decimalValue rest < 2 ^ 63
          then some (decimalValue rest : Int) else none)
      else if c = '-' then
        (if rest ≠ [] ∧ (∀ d ∈ rest, d.isDigit = true) ∧ decimalValue rest ≤ 2 ^ 63
          then some (-(decimalValue rest : Int)) else none)
      else
        (if (∀ d ∈ c :: rest, d.isDigit = true) ∧ decimalValue (c :: rest) < 2 ^ 63
          then some (decimalValue (c :: rest) : Int) else none) := by
  unfold ParseInt
  simp only
  by_cases hp : c = '+'
  · subst hp
    have e2 : ('+' == '-') = false := by decide
    simp only [if_true, beq_self_eq_true, Bool.true_or, parseDigits_eq, e2]
    by_cases h : rest ≠ [] ∧ ∀ d ∈ rest, d.isDigit = true
    · rw [if_pos h]
      by_cases hb : decimalValue rest < 2 ^ 63
      · rw [if_pos ⟨h.1, h.2, hb⟩]
        have h1 : ¬ decimalValue rest ≥ 2 ^ 63 := by omega
        simp only [h1, decide_False, Bool.not_false, Bool.and_false, Bool.false_eq_true,
          if_false, Bool.false_and]
      · rw [if_neg (fun hh => hb hh.2.2)]
        have h1 : decimalValue rest ≥ 2 ^ 63 := by omega
        simp only [h1, decide_True, Bool.not_false, Bool.and_self, if_true]
    · have h2 : ¬ (rest ≠ [] ∧ (∀ d ∈ rest, d.isDigit = true) ∧ decimalValue rest < 2 ^ 63) :=
        fun hh => h ⟨hh.1, hh.2.1⟩
      rw [if_neg h, if_neg h2]
  · by_cases hm : c = '-'
    · subst hm
      simp only [if_true, beq_self_eq_true, Bool.or_true, parseDigits_eq, hp, if_false]
      by_cases h : rest ≠ [] ∧ ∀ d ∈ rest, d.isDigit = true
      · rw [if_pos h]
        by_cases hb : decimalValue rest ≤ 2 ^ 63
        · rw [if_pos ⟨h.1, h.2, hb⟩]
          have h1 : ¬ decimalValue rest > 2 ^ 63 := by omega
          simp only [h1, decide_False, Bool.not_true, Bool.and_false, Bool.false_eq_true,
            if_false, Bool.false_and]
        · rw [if_neg (fun hh => hb hh.2.2)]
          have h1 : decimalValue rest > 2 ^ 63 := by omega
          simp only [h1, decide_True, Bool.not_true, Bool.and_self, if_true, Bool.false_and,
            Bool.false_eq_true, if_false]
      · have h2 : ¬ (rest ≠ [] ∧ (∀ d ∈ rest, d.isDigit = true) ∧
            decimalValue rest ≤ 2 ^ 63) := fun hh => h ⟨hh.1, hh.2.1⟩
        rw [if_neg h, if_neg h2]
    · have e1 : (c == '+') = false := by simpa using hp
      have e2 : (c == '-') = false := by simpa using hm
      simp only [e1, e2, Bool.or_self, Bool.false_eq_true, if_false, hp, hm, parseDigits_eq]
      by_cases h : ∀ d ∈ c :: rest, d.isDigit = true
      · rw [if_pos ⟨by simp, h⟩]
        by_cases hb : decimalValue (c :: rest) < 2 ^ 63
        · rw [if_pos ⟨h, hb⟩]
          have h1 : ¬ decimalValue (c :: rest) ≥ 2 ^ 63 := by omega
          simp only [h1, decide_False, Bool.not_false, Bool.and_false, Bool.false_eq_true,
            if_false, Bool.false_and]
        · rw [if_neg (fun hh => hb hh.2)]
          have h1 : decimalValue (c :: rest) ≥ 2 ^ 63 := by omega
          simp only [h1, decide_True, Bool.not_false, Bool.and_self, if_true]
      · have h2 : ¬ ((∀ d ∈ c :: rest, d.isDigit = true) ∧
            decimalValue (c :: rest) < 2 ^ 63) := fun hh => h hh.1
        have h3 : ¬ (c :: rest ≠ [] ∧ ∀ d ∈ c :: rest, d.isDigit = true) := fun hh => h hh.2
        rw [if_neg h3, if_neg h2]

theorem ParseInt_isSome_iff (s : Str) : (ParseInt s).isSome = true ↔ IsInt64Literal s := by
  constructor
  · intro h
    cases s with
    | nil => simp [ParseInt] at h
    | cons c rest =>
      rw [ParseInt_cons] at h
      by_cases hp : c = '+'
      · rw [if_pos hp] at h
        by_cases hh : rest ≠ [] ∧ (∀ d ∈ rest, d.isDigit = true) ∧ decimalValue rest < 2 ^ 63
        · refine ⟨['+'], rest, by simp [hp], Or.inr (Or.inl rfl), hh.1, hh.2.1, ?_⟩
          rw [if_neg (by decide)]
          exact hh.2.2
        · rw [if_neg hh] at h
          simp at h
      · rw [if_neg hp] at h
        by_cases hm : c = '-'
        · rw [if_pos hm] at h
          by_cases hh : rest ≠ [] ∧ (∀ d ∈ rest, d.isDigit = true) ∧ decimalValue rest ≤ 2 ^ 63
          · refine ⟨['-'], rest, by simp [hm], Or.inr (Or.inr rfl), hh.1, hh.2.1, ?_⟩
            rw [if_pos rfl]
            exact hh.2.2
          · rw [if_neg hh] at h
            simp at h
        · rw [if_neg hm] at h
          by_cases hh : (∀ d ∈ c :: rest, d.isDigit = true) ∧ decimalValue (c :: rest) < 2 ^ 63
          · refine ⟨[], c :: rest, rfl, Or.inl rfl, by simp, hh.1, ?_⟩
            rw [if_neg (by decide)]
            exact hh.2
          · rw [if_neg hh] at h
            simp at h
  · rintro ⟨sign, digits, hs, hsign, hne, hdig, hb⟩
    rcases hsign with e | e | e
    · subst e
      simp only [List.nil_append] at hs
      rw [← hs] at hne hdig hb
      rw [if_neg (by decide)] at hb
      cases hd : s with
      | nil => exact absurd hd hne
      | cons c rest =>
        rw [hd] at hdig hb
        have hc : c.isDigit = true := hdig c (List.mem_cons_self _ _)
        have hp : c ≠ '+' := by
          intro e
          rw [e] at hc
          exact absurd hc (by decide)
        have hm : c ≠ '-' := by
          intro e
          rw [e] at hc
          exact absurd hc (by decide)
        rw [ParseInt_cons, if_neg hp, if_neg hm, if_pos ⟨hdig, hb⟩]
        rfl
    · subst e
      subst hs
      rw [if_neg (by decide)] at hb
      show (ParseInt ('+' :: digits)).isSome = true
      rw [ParseInt_cons, if_pos rfl, if_pos ⟨hne, hdig, hb⟩]
      rfl
    · subst e
      subst hs
      rw [if_pos rfl] at hb
      show (ParseInt ('-' :: digits)).isSome = true
      rw [ParseInt_cons, if_neg (by decide), if_pos rfl, if_pos ⟨hne, hdig, hb⟩]
      rfl

theorem ParseInt_eq_none_of_not_literal (s : Str) (h : ¬ IsInt64Literal s) :
    ParseInt s = none := by
  cases hp : ParseInt s with
  | none => rfl
  | some z =>
    exact absurd ((ParseInt_isSome_iff s).mp (by simp [hp])) h

theorem ParseBool_eq_none_of_not_literal (s : Str) (h : ¬ IsBoolLiteral s) :
    ParseBool s = none := by
  unfold IsBoolLiteral trueLiterals falseLiterals at h
  simp only [List.mem_cons, List.mem_singleton, List.not_mem_nil, or_false, not_or] at h
  unfold ParseBool
  rw [if_neg (by simp only [not_or]; exact h.1), if_neg (by simp only [not_or]; exact h.2)]

theorem ParseBool_eq_true_iff (s : Str) : ParseBool s = some true ↔ s ∈ trueLiterals := by
  unfold ParseBool trueLiterals
  simp only [List.mem_cons, List.mem_singleton, List.not_mem_nil, or_false]
  split
  · simp_all
  · split <;> simp_all

theorem ParseBool_eq_false_iff (s : Str) : ParseBool s = some false ↔ s ∈ falseLiterals := by
  unfold ParseBool falseLiterals
  simp only [List.mem_cons, List.mem_singleton, List.not_mem_nil, or_false]
  split
  · rename_i h
    simp only [Option.some.injEq, Bool.true_eq_false, false_iff]
    rcases h with h | h | h | h | h | h <;> subst h <;> decide
  · split <;> simp_all

/-! ## Facts about the line loop -/

theorem scanLines_append (env : Env) (isNil : Bool) (l1 l2 : List Str) (idx : Nat) (st : State) :
    scanLines env isNil idx (l1 ++ l2) st =
      match scanLines env isNil idx l1 st with
      | (.ok, st1) => scanLines env isNil (idx + l1.length) l2 st1
      | r => r := by
  induction l1 generalizing idx st with
  | nil => simp [scanLines]
  | cons l ls ih =>
    simp only [List.cons_append, scanLines]
    cases hp : processLine env isNil idx l st with
    | next st1 =>
      have : idx + (l :: ls).length = idx + 1 + ls.length := by simp; omega
      rw [this]
      exact ih (idx + 1) st1
    | fail e st1 => rfl
    | panic p st1 => rfl

theorem scanLines_at (env : Env) (isNil : Bool) (lines : List Str) (k : Nat) (line : Str)
    (st : State) (hline : lines.get? k = some line)
    (hprev : (scanLines env isNil 0 (lines.take k) st).1 = .ok) :
    scanLines env isNil 0 lines st =
      match processLine env isNil k line (scanLines env isNil 0 (lines.take k) st).2 with
      | .next st1 => scanLines env isNil (k + 1) (lines.drop (k + 1)) st1
      | .fail e st1 => (.error e, st1)
      | .panic p st1 => (.panic p, st1) := by
  have hk : k < lines.length := by
    rcases Nat.lt_or_ge k lines.length with h | h
    · exact h
    · rw [List.get?_eq_none.mpr h] at hline
      exact absurd hline (by simp)
  have hsplit : lines = lines.take k ++ line :: lines.drop (k + 1) := by
    have hget : lines[k] = line := by
      rw [List.get?_eq_get hk] at hline
      simpa using hline
    rw [← hget]
    simp
  have hlen : (lines.take k).length = k := by
    simp [List.length_take]; omega
  conv_lhs => rw [hsplit, scanLines_append]
  cases hr : scanLines env isNil 0 (lines.take k) st with
  | mk o st1 =>
    rw [hr] at hprev
    simp only at hprev
    subst hprev
    simp only [hlen, Nat.zero_add, scanLines]

theorem loadIni_structPointer (env : Env) (fileName content : Str) (target : Record)
    (h : env.readFile fileName = some content) :
    loadIni env fileName (.structPointer target) =
      ⟨(scanLines env false 0 (splitCRLF content) ⟨[], target⟩).1,
       .structPointer (scanLines env false 0 (splitCRLF content) ⟨[], target⟩).2.target⟩ := by
  simp [loadIni, Data.kind, Data.elemKind, h]

theorem processLine_blank (env : Env) (isNil : Bool) (idx : Nat) (line : Str) (st : State)
    (h : TrimSpace line = []) : processLine env isNil idx line st = .next st := by
  simp [processLine, h]

theorem processLine_comment (env : Env) (isNil : Bool) (idx : Nat) (line : Str) (st : State)
    (h : HasPrefix (TrimSpace line) ";".toList = true ∨ HasPrefix (TrimSpace line) "#".toList = true) :
    processLine env isNil idx line st = .next st := by
  unfold processLine
  simp only
  split
  · rfl
  · rw [if_pos (by simpa using h)]

theorem processLine_bad_assignment (env : Env) (isNil : Bool) (idx : Nat) (line : Str) (st : State)
    (hne : TrimSpace line ≠ [])
    (h1 : HasPrefix (TrimSpace line) ";".toList = false)
    (h2 : HasPrefix (TrimSpace line) "#".toList = false)
    (h3 : HasPrefix (TrimSpace line) "[".toList = false)
    (h : '=' ∉ TrimSpace line ∨ HasPrefix (TrimSpace line) "=".toList = true) :
    processLine env isNil idx line st = .fail (.syntaxError (idx + 1)) st := by
  have hidx : (Index (TrimSpace line) "=".toList = -1 ∨
      HasPrefix (TrimSpace line) "=".toList = true) := by
    rcases h with h | h
    · left
      rw [toList_equals, Index_singleton_eq_neg_one]
      exact h
    · right
      exact h
  unfold processLine
  simp only [List.length_eq_zero, hne, h1, h2, h3, if_false, Bool.or_self, Bool.false_eq_true]
  rw [if_pos (by simpa using hidx)]

theorem processLine_bad_header (env : Env) (isNil : Bool) (idx : Nat) (line : Str) (st : State)
    (h1 : HasPrefix (TrimSpace line) "[".toList = true)
    (h : (TrimSpace line).getLast? ≠ some ']' ∨
      ∃ inner, TrimSpace line = '[' :: (inner ++ [']']) ∧ ∀ c ∈ inner, isSpace c = true) :
    processLine env isNil idx line st = .fail (.syntaxError (idx + 1)) st := by
  have hhead : (TrimSpace line).head? = some '[' := by
    rw [toList_lbracket, HasPrefix_singleton] at h1
    exact h1
  have hne : TrimSpace line ≠ [] := by
    intro e
    rw [e] at hhead
    simp at hhead
  have hs : HasPrefix (TrimSpace line) ";".toList = false := by
    rw [toList_semicolon, ← Bool.not_eq_true, HasPrefix_singleton, hhead]
    decide
  have hh : HasPrefix (TrimSpace line) "#".toList = false := by
    rw [toList_hash, ← Bool.not_eq_true, HasPrefix_singleton, hhead]
    decide
  unfold processLine
  simp only [List.length_eq_zero, hne, hs, hh, h1, if_false, if_true, Bool.or_self,
    Bool.false_eq_true, byteAt_last _ hne]
  rcases h with h | ⟨inner, hinner, hsp⟩
  · cases hl : (TrimSpace line).getLast? with
    | none =>
      exact absurd (List.getLast?_eq_none_iff.mp hl) hne
    | some c =>
      have hc : c ≠ ']' := by
        intro e
        rw [hl, e] at h
        exact h rfl
      simp [hc]
  · have hl : (TrimSpace line).getLast? = some ']' := by
      rw [hinner]
      exact getLast?_brackets _ _ _
    rw [hl]
    simp only [ne_eq, not_true_eq_false, if_false]
    rw [hinner, slice_brackets]
    simp [TrimSpace_eq_nil_of_all inner hsp]

theorem processLine_header (env : Env) (isNil : Bool) (idx : Nat) (line inner : Str) (st : State)
    (ht : TrimSpace line = '[' :: (inner ++ [']']))
    (hne : TrimSpace inner ≠ []) :
    processLine env isNil idx line st =
      .next { st with structName := findSection st.target (TrimSpace inner) st.structName } := by
  have hl : (TrimSpace line).getLast? = some ']' := by
    rw [ht]
    exact getLast?_brackets _ _ _
  have hne1 : TrimSpace line ≠ [] := by
    rw [ht]
    simp
  unfold processLine
  simp only [byteAt_last _ hne1, hl]
  rw [ht, slice_brackets]
  simp [HasPrefix, List.isPrefixOf, hne]

theorem processLine_assignment (env : Env) (isNil : Bool) (idx : Nat) (line : Str) (st : State)
    (hne : TrimSpace line ≠ [])
    (h1 : HasPrefix (TrimSpace line) ";".toList = false)
    (h2 : HasPrefix (TrimSpace line) "#".toList = false)
    (h3 : HasPrefix (TrimSpace line) "[".toList = false)
    (h4 : HasPrefix (TrimSpace line) "=".toList = false)
    (h : '=' ∈ TrimSpace line) :
    processLine env isNil idx line st =
      assign env isNil idx
        (TrimSpace ((TrimSpace line).take ((TrimSpace line).indexOf '=')))
        (TrimSpace ((TrimSpace line).drop ((TrimSpace line).indexOf '=' + 1))) st := by
  have hidx : ¬ Index (TrimSpace line) ['='] = -1 := by
    rw [Index_singleton_eq_neg_one]
    exact fun hc => hc h
  have hsl := slice_at_index (TrimSpace line) '=' h
  rw [toList_equals] at h4
  unfold processLine
  simp only [List.length_eq_zero, hne, h1, h2, h3, h4, hidx, if_false, Bool.or_self,
    Bool.false_eq_true, decide_False, toList_equals, hsl.1, hsl.2]

theorem processLine_header_empty (env : Env) (isNil : Bool) (idx : Nat) (line inner : Str)
    (st : State) (ht : TrimSpace line = '[' :: (inner ++ [']']))
    (he : TrimSpace inner = []) :
    processLine env isNil idx line st = .fail (.syntaxError (idx + 1)) st := by
  have hl : (TrimSpace line).getLast? = some ']' := by
    rw [ht]
    exact getLast?_brackets _ _ _
  have hne1 : TrimSpace line ≠ [] := by
    rw [ht]
    simp
  unfold processLine
  simp only [byteAt_last _ hne1, hl]
  rw [ht, slice_brackets]
  simp [HasPrefix, List.isPrefixOf, he]

/-- Every iteration of the loop body is one of four things: a skip, a syntax
error for this line, a change of the active section, or the assignment branch. -/
theorem processLine_cases (env : Env) (isNil : Bool) (idx : Nat) (line : Str) (st : State) :
    processLine env isNil idx line st = .next st ∨
    processLine env isNil idx line st = .fail (.syntaxError (idx + 1)) st ∨
    (∃ name, processLine env isNil idx line st =
      .next { st with structName := findSection st.target name st.structName }) ∨
    (isAssignment line = true ∧ processLine env isNil idx line st =
      assign env isNil idx (keyOf line) (valueOf line) st) := by
  by_cases hne : TrimSpace line = []
  · exact Or.inl (processLine_blank env isNil idx line st hne)
  by_cases hs : HasPrefix (TrimSpace line) ";".toList = true
  · exact Or.inl (processLine_comment env isNil idx line st (Or.inl hs))
  by_cases hh : HasPrefix (TrimSpace line) "#".toList = true
  · exact Or.inl (processLine_comment env isNil idx line st (Or.inr hh))
  by_cases hb : HasPrefix (TrimSpace line) "[".toList = true
  · by_cases hl : (TrimSpace line).getLast? = some ']'
    · have hhead : (TrimSpace line).head? = some '[' := by
        rw [toList_lbracket, HasPrefix_singleton] at hb
        exact hb
      obtain ⟨inner, hinner⟩ := header_shape _ hhead hl
      by_cases he : TrimSpace inner = []
      · exact Or.inr (Or.inl (processLine_header_empty env isNil idx line inner st hinner he))
      · exact Or.inr (Or.inr (Or.inl ⟨_, processLine_header env isNil idx line inner st hinner he⟩))
    · exact Or.inr (Or.inl (processLine_bad_header env isNil idx line st hb (Or.inl hl)))
  have hs1 : HasPrefix (TrimSpace line) ";".toList = false := by simpa using hs
  have hh1 : HasPrefix (TrimSpace line) "#".toList = false := by simpa using hh
  have hb1 : HasPrefix (TrimSpace line) "[".toList = false := by simpa using hb
  by_cases he : HasPrefix (TrimSpace line) "=".toList = true
  · exact Or.inr (Or.inl
      (processLine_bad_assignment env isNil idx line st hne hs1 hh1 hb1 (Or.inr he)))
  by_cases hm : '=' ∈ TrimSpace line
  · have he1 : HasPrefix (TrimSpace line) "=".toList = false := by simpa using he
    have hassign : isAssignment line = true := by
      unfold isAssignment
      simp only [Bool.and_eq_true, Bool.not_eq_true', List.contains_iff_exists_mem_beq,
        List.isEmpty_eq_false, beq_iff_eq, exists_eq_right']
      exact ⟨⟨⟨⟨⟨hne, hs1⟩, hh1⟩, hb1⟩, he1⟩, by simpa using hm⟩
    exact Or.inr (Or.inr (Or.inr
      ⟨hassign, processLine_assignment env isNil idx line st hne hs1 hh1 hb1 he1 hm⟩))
  · exact Or.inr (Or.inl
      (processLine_bad_assignment env isNil idx line st hne hs1 hh1 hb1 (Or.inl hm)))

/-- The assignment branch ends in one of: a `reflect` panic, the error for a
section field that is no struct, a value type error for this line, a skip, or
one write into the record. -/
theorem assign_cases (env : Env) (isNil : Bool) (idx : Nat) (key value : Str) (st : State) :
    (∃ p, assign env isNil idx key value st = .panic p st ∧
      (p = .zeroValue ∨ p = .notAssignable ∨ p = .wrongKind)) ∨
    assign env isNil idx key value st = .fail (.notStruct st.structName) st ∨
    assign env isNil idx key value st = .fail (.valueTypeError (idx + 1)) st ∨
    assign env isNil idx key value st = .next st ∨
    (∃ fieldName y, assign env isNil idx key value st =
      .next { st with target := writeLeaf st.target st.structName fieldName y }) := by
  unfold assign
  cases isNil with
  | true => exact Or.inl ⟨_, rfl, Or.inl rfl⟩
  | false =>
    simp only [Bool.false_eq_true, if_false]
    cases FieldByName st.target st.structName with
    | none => exact Or.inl ⟨_, rfl, Or.inl rfl⟩
    | some sValue =>
      simp only
      by_cases hk : sValue.kind = Kind.Struct
      · rw [if_neg (not_not.mpr hk)]
        cases findKey sValue.fields key with
        | none => exact Or.inr (Or.inr (Or.inr (Or.inl rfl)))
        | some fileType =>
          simp only
          by_cases hn : fileType.name.length = 0
          · rw [if_pos hn]
            exact Or.inr (Or.inr (Or.inr (Or.inl rfl)))
          · rw [if_neg hn]
            cases convert env fileType.kind value with
            | none => exact Or.inr (Or.inr (Or.inr (Or.inl rfl)))
            | some c =>
              cases c with
              | none => exact Or.inr (Or.inr (Or.inl rfl))
              | some x =>
                simp only
                cases leafByName sValue.fields fileType.name with
                | none => exact Or.inl ⟨_, rfl, Or.inl rfl⟩
                | some obj =>
                  simp only
                  cases hset : setValue env
                      ((!sValue.exported && !sValue.embedded) || !obj.exported) obj x with
                  | error p =>
                    refine Or.inl ⟨p, rfl, ?_⟩
                    unfold setValue at hset
                    split at hset
                    · injection hset with hset
                      exact Or.inr (Or.inl hset.symm)
                    · right; right
                      split at hset <;> (try split at hset) <;> (try split at hset) <;>
                        first
                          | (injection hset with hset; exact hset.symm)
                          | (exact absurd hset (by simp))
                  | ok y => exact Or.inr (Or.inr (Or.inr (Or.inr ⟨_, _, rfl⟩)))
      · rw [if_pos hk]
        exact Or.inr (Or.inl rfl)

theorem processLine_fail_state (env : Env) (isNil : Bool) (idx : Nat) (line : Str)
    (st st1 : State) (e : LoadError) (h : processLine env isNil idx line st = .fail e st1) :
    st1 = st ∧ (e = .syntaxError (idx + 1) ∨ e = .valueTypeError (idx + 1) ∨
      e = .notStruct st.structName) := by
  rcases processLine_cases env isNil idx line st with hc | hc | ⟨name, hc⟩ | ⟨_, hc⟩
  · rw [hc] at h
    exact Step.noConfusion h
  · rw [hc] at h
    injection h with h1 h2
    exact ⟨h2.symm, Or.inl h1.symm⟩
  · rw [hc] at h
    exact Step.noConfusion h
  · rw [hc] at h
    rcases assign_cases env isNil idx (keyOf line) (valueOf line) st with
      ⟨p, ha, _⟩ | ha | ha | ha | ⟨f, y, ha⟩
    · rw [ha] at h
      exact Step.noConfusion h
    · rw [ha] at h
      injection h with h1 h2
      exact ⟨h2.symm, Or.inr (Or.inr h1.symm)⟩
    · rw [ha] at h
      injection h with h1 h2
      exact ⟨h2.symm, Or.inr (Or.inl h1.symm)⟩
    · rw [ha] at h
      exact Step.noConfusion h
    · rw [ha] at h
      exact Step.noConfusion h

theorem processLine_panic_state (env : Env) (isNil : Bool) (idx : Nat) (line : Str)
    (st st1 : State) (p : Panic) (h : processLine env isNil idx line st = .panic p st1) :
    st1 = st ∧ (p = .zeroValue ∨ p = .notAssignable ∨ p = .wrongKind) := by
  rcases processLine_cases env isNil idx line st with hc | hc | ⟨name, hc⟩ | ⟨_, hc⟩
  · rw [hc] at h
    exact Step.noConfusion h
  · rw [hc] at h
    exact Step.noConfusion h
  · rw [hc] at h
    exact Step.noConfusion h
  · rw [hc] at h
    rcases assign_cases env isNil idx (keyOf line) (valueOf line) st with
      ⟨q, ha, hq⟩ | ha | ha | ha | ⟨f, y, ha⟩
    · rw [ha] at h
      injection h with h1 h2
      subst h1
      exact ⟨h2.symm, hq⟩
    · rw [ha] at h
      exact Step.noConfusion h
    · rw [ha] at h
      exact Step.noConfusion h
    · rw [ha] at h
      exact Step.noConfusion h
    · rw [ha] at h
      exact Step.noConfusion h

theorem scanLines_panic (env : Env) (isNil : Bool) (lines : List Str) (idx : Nat) (st : State)
    (p : Panic) (h : (scanLines env isNil idx lines st).1 = .panic p) :
    p = .zeroValue ∨ p = .notAssignable ∨ p = .wrongKind := by
  induction lines generalizing idx st with
  | nil => simp [scanLines] at h
  | cons l ls ih =>
    simp only [scanLines] at h
    cases hp : processLine env isNil idx l st with
    | next st1 =>
      rw [hp] at h
      exact ih (idx + 1) st1 h
    | fail e st1 =>
      rw [hp] at h
      simp at h
    | panic q st1 =>
      rw [hp] at h
      simp only [Outcome.panic.injEq] at h
      subst h
      exact (processLine_panic_state env isNil idx l st st1 q hp).2

theorem loadIni_panic (env : Env) (fileName : Str) (data : Data) (p : Panic)
    (h : (loadIni env fileName data).outcome = .panic p) :
    p = .nilType ∨ p = .zeroValue ∨ p = .notAssignable ∨ p = .wrongKind := by
  unfold loadIni at h
  split at h
  · simp only [Outcome.panic.injEq] at h
    exact Or.inl h.symm
  · split at h
    · simp at h
    · split at h
      · simp at h
      · split at h
        · simp at h
        · split at h
          · exact Or.inr (scanLines_panic env false _ 0 _ p h)
          · exact Or.inr (scanLines_panic env true _ 0 _ p h)
          · simp at h

theorem processLine_of_isAssignment (env : Env) (isNil : Bool) (idx : Nat) (line : Str)
    (st : State) (h : isAssignment line = true) :
    processLine env isNil idx line st =
      assign env isNil idx (keyOf line) (valueOf line) st := by
  unfold isAssignment at h
  simp only [Bool.and_eq_true, Bool.not_eq_true', List.contains_iff_exists_mem_beq,
    List.isEmpty_eq_false, beq_iff_eq, exists_eq_right'] at h
  obtain ⟨⟨⟨⟨⟨h0, h1⟩, h2⟩, h3⟩, h4⟩, h5⟩ := h
  exact processLine_assignment env isNil idx line st h0 h1 h2 h3 h4 (by simpa using h5)

theorem convert_int (env : Env) (k : Kind) (value : Str) (hk : isIntKind k = true) :
    convert env k value = some ((ParseInt value).map Val.int) := by
  cases k <;> first | rfl | exact absurd hk (by decide)

theorem assign_value_type_error (env : Env) (idx : Nat) (key value : Str) (st : State)
    (sec : Section) (leaf : Leaf)
    (hsec : FieldByName st.target st.structName = some sec)
    (hstruct : sec.kind = Kind.Struct)
    (hkey : findKey sec.fields key = some leaf)
    (hname : leaf.name ≠ [])
    (hconv : convert env leaf.kind value = some none) :
    assign env false idx key value st = .fail (.valueTypeError (idx + 1)) st := by
  unfold assign
  simp [hsec, hstruct, hkey, hname, hconv]

/-- What `loadIni` does once line `n` is reached. -/
theorem loadIni_at (env : Env) (fileName content : Str) (target : Record) (n : Nat) (line : Str)
    (hread : env.readFile fileName = some content)
    (hn : 0 < n)
    (hline : (linesOf content).get? (n - 1) = some line)
    (hprev : (before env target content n).1 = .ok) :
    loadIni env fileName (.structPointer target) =
      match processLine env false (n - 1) line (before env target content n).2 with
      | .next st1 =>
        ⟨(scanLines env false n ((linesOf content).drop n) st1).1,
          .structPointer (scanLines env false n ((linesOf content).drop n) st1).2.target⟩
      | .fail e st1 => ⟨.error e, .structPointer st1.target⟩
      | .panic p st1 => ⟨.panic p, .structPointer st1.target⟩ := by
  have hn1 : n - 1 + 1 = n := by omega
  rw [loadIni_structPointer env fileName content target hread,
    scanLines_at env false (splitCRLF content) (n - 1) line _ hline hprev]
  unfold before linesOf
  rw [hn1]
  cases processLine env false (n - 1) line
    (scanLines env false 0 (List.take (n - 1) (splitCRLF content)) ⟨[], target⟩).2 <;> rfl

theorem scanLines_error (env : Env) (isNil : Bool) (lines : List Str) (idx : Nat)
    (st st1 : State) (e : LoadError)
    (h : scanLines env isNil idx lines st = (.error e, st1)) :
    ∃ k line st0, lines.get? k = some line ∧
      scanLines env isNil idx (lines.take k) st = (.ok, st0) ∧
      processLine env isNil (idx + k) line st0 = .fail e st1 := by
  induction lines generalizing idx st with
  | nil => simp [scanLines] at h
  | cons l ls ih =>
    simp only [scanLines] at h
    cases hp : processLine env isNil idx l st with
    | next st2 =>
      rw [hp] at h
      obtain ⟨k, line, st0, hk, hscan, hstep⟩ := ih (idx + 1) st2 h
      refine ⟨k + 1, line, st0, by simpa using hk, ?_, ?_⟩
      · simp only [List.take_succ_cons, scanLines, hp]
        exact hscan
      · have : idx + (k + 1) = idx + 1 + k := by omega
        rw [this]
        exact hstep
    | fail e2 st2 =>
      rw [hp] at h
      simp only [Prod.mk.injEq, Outcome.error.injEq] at h
      refine ⟨0, l, st, rfl, rfl, ?_⟩
      rw [← h.1, ← h.2]
      exact hp
    | panic q st2 =>
      rw [hp] at h
      simp at h

theorem scanLines_readFile (env : Env) (g : Str → Option Str) (isNil : Bool)
    (lines : List Str) (idx : Nat) (st : State) :
    scanLines ⟨g, env.int64bit, env.parseFloat, env.toFloat32⟩ isNil idx lines st =
      scanLines env isNil idx lines st := by
  induction lines generalizing idx st with
  | nil => rfl
  | cons l ls ih =>
    have hp : processLine ⟨g, env.int64bit, env.parseFloat, env.toFloat32⟩ isNil idx l st =
        processLine env isNil idx l st := rfl
    simp only [scanLines, hp]
    cases processLine env isNil idx l st with
    | next st1 => exact ih (idx + 1) st1
    | fail e st1 => rfl
    | panic q st1 => rfl

/-- An error that names line `n` is raised at line `n`, after the first `n - 1`
lines have been scanned without a stop, and leaves the record as they left it. -/
theorem loadIni_error_line (env : Env) (fileName content : Str) (target : Record) (n : Nat)
    (hread : env.readFile fileName = some content)
    (herr : (loadIni env fileName (.structPointer target)).outcome = .error (.syntaxError n) ∨
      (loadIni env fileName (.structPointer target)).outcome = .error (.valueTypeError n)) :
    1 ≤ n ∧ n ≤ (linesOf content).length ∧
    (before env target content n).1 = .ok ∧
    (loadIni env fileName (.structPointer target)).data =
      .structPointer (before env target content n).2.target := by
  rw [loadIni_structPointer env fileName content target hread] at herr ⊢
  simp only at herr ⊢
  cases hs : scanLines env false 0 (splitCRLF content) ⟨[], target⟩ with
  | mk o st1 =>
    rw [hs] at herr
    simp only at herr ⊢
    have hex : ∃ e, o = .error e ∧ (e = .syntaxError n ∨ e = .valueTypeError n) := by
      rcases herr with h | h
      · exact ⟨_, h, Or.inl rfl⟩
      · exact ⟨_, h, Or.inr rfl⟩
    obtain ⟨e, ho, he⟩ := hex
    subst ho
    obtain ⟨k, line, st0, hk, hscan, hstep⟩ := scanLines_error env false _ 0 _ _ e hs
    have hfs := processLine_fail_state env false (0 + k) line st0 st1 e hstep
    have hkn : n = k + 1 := by
      rcases he with he | he <;> rcases hfs.2 with h | h | h <;> rw [he] at h <;>
        first
          | (injection h with h; omega)
          | exact LoadError.noConfusion h
    have hklt : k < (splitCRLF content).length := by
      rcases Nat.lt_or_ge k (splitCRLF content).length with h | h
      · exact h
      · rw [List.get?_eq_none.mpr h] at hk
        exact absurd hk (by simp)
    have hb : before env target content n = (.ok, st0) := by
      unfold before linesOf
      rw [hkn]
      exact hscan
    refine ⟨by omega, by unfold linesOf; omega, ?_, ?_⟩
    · rw [hb]
    · rw [hb, hfs.1]

/-- The state after line `n`, in terms of the state in which line `n` is reached. -/
theorem before_succ (env : Env) (target : Record) (content : Str) (n : Nat) (line : Str)
    (hn : 0 < n)
    (hline : (linesOf content).get? (n - 1) = some line)
    (hprev : (before env target content n).1 = .ok) :
    before env target content (n + 1) =
      match processLine env false (n - 1) line (before env target content n).2 with
      | .next st1 => (.ok, st1)
      | .fail e st1 => (.error e, st1)
      | .panic p st1 => (.panic p, st1) := by
  have hk : n - 1 < (linesOf content).length := by
    rcases Nat.lt_or_ge (n - 1) (linesOf content).length with h | h
    · exact h
    · rw [List.get?_eq_none.mpr h] at hline
      exact absurd hline (by simp)
  have hget : (linesOf content)[n - 1] = line := by
    rw [List.get?_eq_get hk] at hline
    simpa using hline
  have htake : (linesOf content).take (n + 1 - 1) = (linesOf content).take (n - 1) ++ [line] := by
    have : n + 1 - 1 = n - 1 + 1 := by omega
    rw [this, List.take_succ, List.getElem?_eq_getElem hk, hget]
    rfl
  have hlen : ((linesOf content).take (n - 1)).length = n - 1 := by
    simp only [List.length_take]
    omega
  unfold before at hprev ⊢
  rw [htake, scanLines_append]
  cases hr : scanLines env false 0 ((linesOf content).take (n - 1)) ⟨[], target⟩ with
  | mk o st1 =>
    rw [hr] at hprev
    simp only at hprev
    subst hprev
    simp only [hlen, Nat.zero_add, scanLines]

theorem findSection_unknown (r : Record) (name cur : Str) (h : ∀ s ∈ r, s.ini ≠ name) :
    findSection r name cur = cur := by
  unfold findSection
  have : r.find? (fun f => name == f.ini) = none := by
    rw [List.find?_eq_none]
    intro s hs
    simpa using fun e => h s hs e.symm
  rw [this]

theorem findKey_unknown (fs : List Leaf) (key : Str) (h : ∀ l ∈ fs, l.ini ≠ key) :
    findKey fs key = none := by
  unfold findKey
  rw [List.find?_eq_none]
  intro l hl
  simpa using h l hl

/-- A line that names an unknown section, or an unknown key of an active section
that is a struct, is skipped. -/
theorem processLine_unknown (env : Env) (idx : Nat) (line : Str) (st : State)
    (h : IsUnknownHeader st.target line ∨
      ∃ sec, FieldByName st.target st.structName = some sec ∧ sec.kind = Kind.Struct ∧
        IsUnknownKey sec line) :
    processLine env false idx line st = .next st := by
  rcases h with ⟨inner, ht, hne, hno⟩ | ⟨sec, hsec, hstruct, hassign, hno⟩
  · rw [processLine_header env false idx line inner st ht hne, findSection_unknown _ _ _ hno]
  · rw [processLine_of_isAssignment env false idx line st hassign]
    unfold assign
    simp [hsec, hstruct, findKey_unknown _ _ hno]

theorem find?_updateFirst {α : Type} (p : α → Bool) (f : α → α) (l : List α) (a : α)
    (h : l.find? p = some a) (hf : p (f a) = true) :
    (updateFirst p f l).find? p = some (f a) := by
  induction l with
  | nil => simp at h
  | cons x xs ih =>
    by_cases hx : p x = true
    · simp only [List.find?_cons, hx, Option.some.injEq] at h
      subst h
      simp [updateFirst, hx, hf]
    · have hx1 : p x = false := by simpa using hx
      simp only [List.find?_cons, hx1] at h
      simp [updateFirst, hx1, ih h]

theorem leafValue_writeLeaf (r : Record) (sn fieldName : Str) (y : Val) (sec : Section)
    (leaf : Leaf) (hsec : FieldByName r sn = some sec)
    (hleaf : leafByName sec.fields fieldName = some leaf) :
    leafValue (writeLeaf r sn fieldName y) sn fieldName = some y := by
  unfold FieldByName at hsec
  unfold leafByName at hleaf
  split at hsec
  · exact absurd hsec (by simp)
  · rename_i hsn
    split at hleaf
    · exact absurd hleaf (by simp)
    · rename_i hln
      have h1 := find?_updateFirst (fun s : Section => s.name == sn)
        (fun s => { s with
          fields := updateFirst (fun l : Leaf => l.name == fieldName)
            (fun l => { l with val := y }) s.fields }) r sec hsec
        (by simpa using List.find?_some hsec)
      have h2 := find?_updateFirst (fun l : Leaf => l.name == fieldName)
        (fun l => { l with val := y }) sec.fields leaf hleaf
        (by simpa using List.find?_some hleaf)
      unfold leafValue FieldByName writeLeaf leafByName
      rw [if_neg hsn, h1]
      simp only [Option.some_bind, if_neg hln]
      rw [h2]
      rfl

/-- The assignment branch when everything resolves and the value converts:
one write. -/
theorem assign_write (env : Env) (idx : Nat) (key value : Str) (st : State)
    (sec : Section) (leaf : Leaf) (x y : Val)
    (hsec : FieldByName st.target st.structName = some sec)
    (hstruct : sec.kind = Kind.Struct)
    (hkey : findKey sec.fields key = some leaf)
    (hname : leaf.name ≠ [])
    (hobj : leafByName sec.fields leaf.name = some leaf)
    (hro : ((!sec.exported && !sec.embedded) || !leaf.exported) = false)
    (hconv : convert env leaf.kind value = some (some x))
    (hset : setValue env false leaf x = .ok y) :
    assign env false idx key value st =
      .next { st with target := writeLeaf st.target st.structName leaf.name y } := by
  unfold assign
  simp [hsec, hstruct, hkey, hname, hconv, hobj, hro, hset]

theorem scanLines_target_of_no_assignment (env : Env) (isNil : Bool) (lines : List Str)
    (idx : Nat) (st : State) (h : ∀ l ∈ lines, isAssignment l = false) :
    (scanLines env isNil idx lines st).2.target = st.target := by
  induction lines generalizing idx st with
  | nil => rfl
  | cons l ls ih =>
    have hl : isAssignment l = false := h l (List.mem_cons_self _ _)
    have hls : ∀ x ∈ ls, isAssignment x = false := fun x hx => h x (List.mem_cons_of_mem _ hx)
    simp only [scanLines]
    rcases processLine_cases env isNil idx l st with hc | hc | ⟨name, hc⟩ | ⟨ha, _⟩
    · rw [hc]
      exact ih (idx + 1) st hls
    · rw [hc]
    · rw [hc]
      exact ih (idx + 1) _ hls
    · rw [ha] at hl
      exact absurd hl (by decide)

theorem assign_not_struct (env : Env) (idx : Nat) (key value : Str) (st : State)
    (sec : Section)
    (hsec : FieldByName st.target st.structName = some sec)
    (hkind : sec.kind ≠ Kind.Struct) :
    assign env false idx key value st = .fail (.notStruct st.structName) st := by
  unfold assign
  simp [hsec, hkind]

/-! ## The loop body follows the file format -/

theorem HasPrefix_singleton_false (s : Str) (c : Char) :
    HasPrefix s [c] = false ↔ s.head? ≠ some c := by
  rw [← Bool.not_eq_true, HasPrefix_singleton]

theorem processLine_classify (env : Env) (idx : Nat) (line : Str) (st : State) :
    processLine env false idx line st = applyKind env idx (classify line) st := by
  unfold classify
  simp only
  by_cases hne : TrimSpace line = []
  · rw [if_pos hne]
    exact processLine_blank env false idx line st hne
  rw [if_neg hne]
  by_cases hc : (TrimSpace line).head? = some ';' ∨ (TrimSpace line).head? = some '#'
  · rw [if_pos hc]
    refine processLine_comment env false idx line st ?_
    rcases hc with h | h
    · exact Or.inl ((HasPrefix_singleton _ _).mpr h)
    · exact Or.inr ((HasPrefix_singleton _ _).mpr h)
  rw [if_neg hc]
  have hs : HasPrefix (TrimSpace line) ";".toList = false :=
    (HasPrefix_singleton_false _ _).mpr (fun h => hc (Or.inl h))
  have hh : HasPrefix (TrimSpace line) "#".toList = false :=
    (HasPrefix_singleton_false _ _).mpr (fun h => hc (Or.inr h))
  by_cases hb : (TrimSpace line).head? = some '['
  · rw [if_pos hb]
    have hb1 : HasPrefix (TrimSpace line) "[".toList = true := (HasPrefix_singleton _ _).mpr hb
    by_cases hl : (TrimSpace line).getLast? = some ']'
    · rw [if_pos hl]
      obtain ⟨inner, hinner⟩ := header_shape _ hb hl
      have hin : ((TrimSpace line).drop 1).dropLast = inner := by
        rw [hinner]
        simp
      rw [hin]
      by_cases he : TrimSpace inner = []
      · rw [if_pos he]
        exact processLine_header_empty env false idx line inner st hinner he
      · rw [if_neg he]
        exact processLine_header env false idx line inner st hinner he
    · rw [if_neg hl]
      exact processLine_bad_header env false idx line st hb1 (Or.inl hl)
  rw [if_neg hb]
  have hb1 : HasPrefix (TrimSpace line) "[".toList = false :=
    (HasPrefix_singleton_false _ _).mpr hb
  by_cases ha : isAssignment line = true
  · rw [if_pos ha]
    exact processLine_of_isAssignment env false idx line st ha
  · rw [if_neg ha]
    refine processLine_bad_assignment env false idx line st hne hs hh hb1 ?_
    by_cases he : HasPrefix (TrimSpace line) "=".toList = true
    · exact Or.inr he
    · left
      intro hm
      apply ha
      unfold isAssignment
      simp only [Bool.and_eq_true, Bool.not_eq_true', List.contains_iff_exists_mem_beq,
        List.isEmpty_eq_false, beq_iff_eq, exists_eq_right']
      exact ⟨⟨⟨⟨⟨hne, hs⟩, hh⟩, hb1⟩, by simpa using he⟩, by simpa using hm⟩

theorem assign_next_idx (env : Env) (idx idx1 : Nat) (key value : Str) (st st1 : State)
    (h : assign env false idx key value st = .next st1) :
    assign env false idx1 key value st = .next st1 := by
  unfold assign at h ⊢
  simp only [Bool.false_eq_true, if_false] at h ⊢
  split
  · rename_i h1
    simp only [h1] at h
    exact h
  · rename_i sValue h1
    simp only [h1] at h
    split
    · rename_i h2
      rw [if_pos h2] at h
      exact Step.noConfusion h
    · rename_i h2
      rw [if_neg h2] at h
      split
      · rename_i h3
        simp only [h3] at h
        exact h
      · rename_i fileType h3
        simp only [h3] at h
        split
        · rename_i h4
          rw [if_pos h4] at h
          exact h
        · rename_i h4
          rw [if_neg h4] at h
          cases hc : convert env fileType.kind value with
          | none =>
            simp only [hc] at h ⊢
            exact h
          | some c =>
            cases c with
            | none =>
              simp only [hc] at h
              exact Step.noConfusion h
            | some x =>
              simp only [hc] at h ⊢
              exact h

theorem applyKind_next_idx (env : Env) (idx idx1 : Nat) (k : LineKind) (st st1 : State)
    (h : applyKind env idx k st = .next st1) : applyKind env idx1 k st = .next st1 := by
  cases k with
  | skip => exact h
  | malformed => exact Step.noConfusion h
  | header name => exact h
  | assignment key value => exact assign_next_idx env idx idx1 key value st st1 h

/-- When every non-skipped line lets the loop go on, the scan succeeds and ends
in the state the line kinds lead to. -/
theorem scanLines_of_runKinds (env : Env) (lines : List Str) (idx : Nat) (st st1 : State)
    (h : runKinds env ((lines.map classify).filter (fun k => k ≠ LineKind.skip)) st = some st1) :
    scanLines env false idx lines st = (.ok, st1) := by
  induction lines generalizing idx st with
  | nil =>
    simp only [List.map_nil, List.filter_nil, runKinds, Option.some.injEq] at h
    rw [← h]
    rfl
  | cons l ls ih =>
    simp only [scanLines, processLine_classify]
    by_cases hk : classify l = LineKind.skip
    · have hf : ((l :: ls).map classify).filter (fun k => k ≠ LineKind.skip) =
          (ls.map classify).filter (fun k => k ≠ LineKind.skip) := by
        simp [hk]
      rw [hf] at h
      rw [hk]
      exact ih (idx + 1) st h
    · have hf : ((l :: ls).map classify).filter (fun k => k ≠ LineKind.skip) =
          classify l :: (ls.map classify).filter (fun k => k ≠ LineKind.skip) := by
        simp [hk]
      rw [hf] at h
      simp only [runKinds] at h
      cases ha : applyKind env 0 (classify l) st with
      | next st2 =>
        rw [ha] at h
        rw [applyKind_next_idx env 0 idx _ st st2 ha]
        exact ih (idx + 1) st2 h
      | fail e st2 =>
        rw [ha] at h
        exact absurd h (by simp)
      | panic q st2 =>
        rw [ha] at h
        exact absurd h (by simp)

/-! ## Schemas and writes -/

theorem map_updateFirst {α β : Type} (p : α → Bool) (f : α → α) (g : α → β) (l : List α)
    (h : ∀ a, g (f a) = g a) : (updateFirst p f l).map g = l.map g := by
  induction l with
  | nil => rfl
  | cons x xs ih =>
    by_cases hx : p x = true
    · simp [updateFirst, hx, h]
    · simp [updateFirst, hx, ih]

theorem find?_updateFirst_disjoint {α : Type} (p q : α → Bool) (f : α → α) (l : List α)
    (h : ∀ a, p a = true → q a = false ∧ q (f a) = false) :
    (updateFirst p f l).find? q = l.find? q := by
  induction l with
  | nil => rfl
  | cons x xs ih =>
    by_cases hx : p x = true
    · simp [updateFirst, hx, List.find?_cons, (h x hx).1, (h x hx).2]
    · simp [updateFirst, hx, List.find?_cons, ih]

theorem schemaOf_writeLeaf (r : Record) (sn fieldName : Str) (y : Val) :
    schemaOf (writeLeaf r sn fieldName y) = schemaOf r := by
  unfold schemaOf writeLeaf
  apply map_updateFirst
  intro s
  simp only [Section.erase, Section.mk.injEq, and_true, true_and]
  apply map_updateFirst
  intro l
  rfl

theorem leafValue_writeLeaf_other (r : Record) (sn fieldName sn1 fieldName1 : Str) (y : Val)
    (h : sn ≠ sn1 ∨ fieldName ≠ fieldName1) :
    leafValue (writeLeaf r sn1 fieldName1 y) sn fieldName = leafValue r sn fieldName := by
  unfold leafValue FieldByName writeLeaf
  by_cases hsn : sn = []
  · simp [hsn]
  simp only [if_neg hsn]
  induction r with
  | nil => rfl
  | cons a as ih =>
    by_cases ha1 : a.name = sn1
    · have hp : (a.name == sn1) = true := by simpa using ha1
      simp only [updateFirst, hp, if_true, List.find?_cons]
      by_cases ha : a.name = sn
      · have hq : (a.name == sn) = true := by simpa using ha
        simp only [hq, Option.some_bind]
        have hne : fieldName ≠ fieldName1 := by
          rcases h with h | h
          · exact absurd (ha.symm.trans ha1) h
          · exact h
        unfold leafByName
        by_cases hf : fieldName = []
        · simp [hf]
        simp only [if_neg hf]
        rw [find?_updateFirst_disjoint]
        intro l hl
        have hl1 : l.name = fieldName1 := by simpa using hl
        constructor
        · simpa [hl1] using fun e => hne e.symm
        · simpa [hl1] using fun e => hne e.symm
      · have hq : (a.name == sn) = false := by simpa using ha
        simp only [hq]
    · have hp : (a.name == sn1) = false := by simpa using ha1
      simp only [updateFirst, hp, Bool.false_eq_true, if_false, List.find?_cons]
      by_cases ha : a.name = sn
      · have hq : (a.name == sn) = true := by simpa using ha
        simp only [hq]
      · have hq : (a.name == sn) = false := by simpa using ha
        simp only [hq]
        exact ih

theorem findSection_schemaOf (r : Record) (name cur : Str) :
    findSection (schemaOf r) name cur = findSection r name cur := by
  unfold findSection schemaOf
  rw [List.find?_map]
  have : ((fun f : Section => name == f.ini) ∘ Section.erase) = fun f => name == f.ini := rfl
  rw [this]
  cases List.find? (fun f : Section => name == f.ini) r <;> rfl

theorem FieldByName_schemaOf (r : Record) (sn : Str) :
    FieldByName (schemaOf r) sn = (FieldByName r sn).map Section.erase := by
  unfold FieldByName schemaOf
  split
  · rfl
  · rw [List.find?_map]
    rfl

theorem findKey_erase (fs : List Leaf) (key : Str) :
    findKey (fs.map Leaf.erase) key = (findKey fs key).map Leaf.erase := by
  unfold findKey
  rw [List.find?_map]
  rfl

theorem find?_of_nodup {α β : Type} (f : α → β) (p : α → Bool) (l : List α) (a : α)
    (hp : ∀ x, p x = true ↔ f x = f a)
    (hn : (l.map f).Nodup) (ha : a ∈ l) : l.find? p = some a := by
  induction l with
  | nil => simp at ha
  | cons x xs ih =>
    simp only [List.map_cons, List.nodup_cons] at hn
    rcases List.mem_cons.mp ha with e | e
    · subst e
      have : p a = true := (hp a).mpr rfl
      simp [this]
    · have hx : f x ≠ f a := by
        intro hh
        apply hn.1
        rw [hh]
        exact List.mem_map_of_mem f e
      have hx1 : p x = false := by
        cases hpx : p x with
        | false => rfl
        | true => exact absurd ((hp x).mp hpx) hx
      simp only [List.find?_cons, hx1]
      exact ih hn.2 e

theorem find?_filter_of_imp {α : Type} (p q : α → Bool) (l : List α)
    (h : ∀ a, p a = true → q a = true) : l.find? p = (l.filter q).find? p := by
  induction l with
  | nil => rfl
  | cons x xs ih =>
    by_cases hq : q x = true
    · simp only [List.filter_cons, hq, if_true, List.find?_cons, ih]
    · have hp : p x = false := by
        cases hpx : p x with
        | false => rfl
        | true => exact absurd (h x hpx) hq
      simp only [List.filter_cons, hq, Bool.false_eq_true, if_false, List.find?_cons, hp, ih]

theorem setValue_kind (env : Env) (ro : Bool) (a b : Leaf) (x : Val) (h : a.kind = b.kind) :
    setValue env ro a x = setValue env ro b x := by
  unfold setValue
  rw [h]

theorem convert_shape (env : Env) (k : Kind) (value : Str) (x : Val)
    (hc : convert env k value = some (some x)) :
    (k = Kind.String ∧ ∃ t, x = .str t) ∨ (isIntKind k = true ∧ ∃ n, x = .int n) ∨
    (k = Kind.Bool ∧ ∃ b, x = .bool b) ∨
    ((k = Kind.Float32 ∨ k = Kind.Float64) ∧ ∃ f, x = .float f) := by
  have hmap : ∀ {α : Type} (f : α → Val) (p : Option α),
      some (p.map f) = some (some x) → ∃ a, x = f a := by
    intro α f p h
    cases p with
    | none => simp at h
    | some a =>
      simp only [Option.map_some', Option.some.injEq] at h
      exact ⟨a, h.symm⟩
  cases k <;>
    first
      | exact Or.inl ⟨rfl, value, (Option.some.inj (Option.some.inj hc)).symm⟩
      | exact Or.inr (Or.inl ⟨rfl, hmap Val.int (ParseInt value) hc⟩)
      | exact Or.inr (Or.inr (Or.inl ⟨rfl, hmap Val.bool (ParseBool value) hc⟩))
      | exact Or.inr (Or.inr (Or.inr ⟨Or.inl rfl, hmap Val.float (env.parseFloat value) hc⟩))
      | exact Or.inr (Or.inr (Or.inr ⟨Or.inr rfl, hmap Val.float (env.parseFloat value) hc⟩))
      | exact Option.noConfusion hc

theorem setValue_of_convert (env : Env) (l : Leaf) (value : Str) (x : Val)
    (hc : convert env l.kind value = some (some x)) :
    ∃ y, setValue env false l x = .ok y := by
  unfold setValue
  simp only [Bool.false_eq_true, if_false]
  rcases convert_shape env l.kind value x hc with ⟨hk, t, hx⟩ | ⟨hk, n, hx⟩ | ⟨hk, b, hx⟩ |
    ⟨hk, f, hx⟩
  · subst hx
    simp [hk]
  · subst hx
    simp only
    cases hkk : l.kind <;> rw [hkk] at hk <;>
      first
        | exact Bool.noConfusion hk
        | (cases hb : env.int64bit <;> simp [intBits, hb])
  · subst hx
    simp [hk]
  · subst hx
    rcases hk with hk | hk <;> simp [hk]

theorem stored_of_parses (env : Env) (l : Leaf) (value : Str)
    (h : parses env l.kind value = true) :
    ∃ x y, convert env l.kind value = some (some x) ∧ setValue env false l x = .ok y ∧
      stored env l value = some y := by
  unfold parses at h
  cases hc : convert env l.kind value with
  | none => simp [hc] at h
  | some c =>
    cases c with
    | none => simp [hc] at h
    | some x =>
      obtain ⟨y, hy⟩ := setValue_of_convert env l value x hc
      refine ⟨x, y, rfl, hy, ?_⟩
      unfold stored
      simp [hc, hy]

/-! ## Loading a well-formed file -/

theorem isEmpty_eq_false_iff (t : Str) : (!t.isEmpty) = true ↔ t ≠ [] := by
  cases t <;> simp

theorem mem_declaredSections (schema : Record) (s : Section) :
    s ∈ declaredSections schema ↔ s ∈ schema ∧ s.ini ≠ [] := by
  unfold declaredSections
  rw [List.mem_filter, isEmpty_eq_false_iff]

theorem mem_declaredKeys (s : Section) (l : Leaf) :
    l ∈ declaredKeys s ↔ l ∈ s.fields ∧ l.ini ≠ [] := by
  unfold declaredKeys
  rw [List.mem_filter, isEmpty_eq_false_iff]

theorem findSection_declared (schema r : Record) (s : Section) (cur : Str)
    (hr : schemaOf r = schema) (hU : UniqueTags schema)
    (hs : s ∈ declaredSections schema) : findSection r s.ini cur = s.name := by
  rw [← findSection_schemaOf, hr]
  unfold findSection
  have hne : s.ini ≠ [] := ((mem_declaredSections _ _).mp hs).2
  have hfind : schema.find? (fun f => s.ini == f.ini) = some s := by
    rw [find?_filter_of_imp (fun f : Section => s.ini == f.ini) (fun f => !f.ini.isEmpty)]
    · exact find?_of_nodup (fun f : Section => f.ini) _ _ s
        (fun x => by simp only [beq_iff_eq]; exact eq_comm) hU.1 hs
    · intro a ha
      have : s.ini = a.ini := by simpa using ha
      rw [isEmpty_eq_false_iff, ← this]
      exact hne
  rw [hfind]

theorem findKey_declared (schema : Record) (s : Section) (l : Leaf)
    (hU : UniqueTags schema) (hs : s ∈ declaredSections schema) (hl : l ∈ declaredKeys s) :
    findKey s.fields l.ini = some l := by
  unfold findKey
  have hne : l.ini ≠ [] := ((mem_declaredKeys _ _).mp hl).2
  rw [find?_filter_of_imp (fun f : Leaf => f.ini == l.ini) (fun f => !f.ini.isEmpty)]
  · exact find?_of_nodup (fun f : Leaf => f.ini) _ _ l (fun x => by simp) (hU.2 s hs) hl
  · intro a ha
    have : a.ini = l.ini := by simpa using ha
    rw [isEmpty_eq_false_iff, this]
    exact hne

/-- One assignment line of a well-formed file: the value is stored in the field
the key is bound to, in the active section. -/
theorem applyKind_declared (env : Env) (schema r : Record) (s : Section) (l : Leaf) (v : Str)
    (hr : schemaOf r = schema)
    (hG : GoNames schema) (hR : SectionsAreRecords schema) (hU : UniqueTags schema)
    (hS : Settable schema)
    (hs : s ∈ declaredSections schema) (hl : l ∈ declaredKeys s)
    (hp : parses env l.kind v = true) :
    ∃ y, stored env l v = some y ∧
      applyKind env 0 (.assignment l.ini v) ⟨s.name, r⟩ =
        .next ⟨s.name, writeLeaf r s.name l.name y⟩ ∧
      leafValue (writeLeaf r s.name l.name y) s.name l.name = some y := by
  have hs1 := (mem_declaredSections _ _).mp hs
  have hl1 := (mem_declaredKeys _ _).mp hl
  obtain ⟨hGn, hGs⟩ := hG
  obtain ⟨hsname, hsnodup, hlnames⟩ := hGs s hs1.1
  -- the section field, in the schema and in the record
  have hfs : FieldByName schema s.name = some s := by
    unfold FieldByName
    rw [if_neg hsname]
    exact find?_of_nodup (fun f : Section => f.name) _ _ s (fun x => by simp) hGn hs1.1
  rw [← hr, FieldByName_schemaOf] at hfs
  obtain ⟨st, hst, hste⟩ := Option.map_eq_some'.mp hfs
  have hkind : st.kind = Kind.Struct := by
    rw [← hR s hs, ← hste]
    rfl
  have hfields : st.fields.map Leaf.erase = s.fields := by
    rw [← hste]
    rfl
  -- the field, in the schema and in the record
  have hfk := findKey_declared schema s l hU hs hl
  rw [← hfields, findKey_erase] at hfk
  obtain ⟨lt, hlt, hlte⟩ := Option.map_eq_some'.mp hfk
  have hltname : lt.name = l.name := by
    rw [← hlte]
    rfl
  have hltkind : lt.kind = l.kind := by
    rw [← hlte]
    rfl
  have hltexp : lt.exported = l.exported := by
    rw [← hlte]
    rfl
  have hlname : l.name ≠ [] := hlnames l hl1.1
  have hltmem : lt ∈ st.fields := List.mem_of_find?_eq_some hlt
  have hnodup : (st.fields.map fun f => f.name).Nodup := by
    have : (st.fields.map fun f => f.name) = (s.fields.map fun f => f.name) := by
      rw [← hfields, List.map_map]
      rfl
    rw [this]
    exact hsnodup
  have hobj : leafByName st.fields lt.name = some lt := by
    unfold leafByName
    rw [if_neg (by rw [hltname]; exact hlname)]
    exact find?_of_nodup (fun f : Leaf => f.name) _ _ lt (fun x => by simp) hnodup hltmem
  have hro : ((!st.exported && !st.embedded) || !lt.exported) = false := by
    have h1 : st.exported = s.exported := by
      rw [← hste]
      rfl
    have h2 : st.embedded = s.embedded := by
      rw [← hste]
      rfl
    rw [h1, h2, hltexp, (hS s hs).2 l hl]
    rcases (hS s hs).1 with h | h <;> simp [h]
  obtain ⟨x, y, hconv, hset, hstored⟩ := stored_of_parses env l v hp
  refine ⟨y, hstored, ?_, ?_⟩
  · have := assign_write env 0 l.ini v ⟨s.name, r⟩ st lt x y hst hkind hlt
      (by rw [hltname]; exact hlname) hobj hro (by rw [hltkind]; exact hconv)
      (by rw [setValue_kind env false lt l x hltkind]; exact hset)
    rw [hltname] at this
    exact this
  · rw [hltname] at hobj
    exact leafValue_writeLeaf r s.name l.name y st lt hst hobj

theorem runKinds_append (env : Env) (ks1 ks2 : List LineKind) (st : State) :
    runKinds env (ks1 ++ ks2) st = (runKinds env ks1 st).bind (runKinds env ks2) := by
  induction ks1 generalizing st with
  | nil => rfl
  | cons k ks ih =>
    simp only [List.cons_append, runKinds]
    cases applyKind env 0 k st with
    | next st1 => exact ih st1
    | fail e st1 => rfl
    | panic q st1 => rfl

/-- The assignment lines of one block: every value is stored in its field, and
no other field changes. -/
theorem runKinds_entries (env : Env) (schema : Record) (s : Section)
    (hG : GoNames schema) (hR : SectionsAreRecords schema) (hU : UniqueTags schema)
    (hS : Settable schema) (hs : s ∈ declaredSections schema)
    (es : List (Leaf × Str)) (r : Record)
    (hr : schemaOf r = schema)
    (hes : ∀ e ∈ es, e.1 ∈ declaredKeys s ∧ parses env e.1.kind e.2 = true)
    (hnd : (es.map fun e => e.1.name).Nodup) :
    ∃ r1, runKinds env (es.map fun e => LineKind.assignment e.1.ini e.2) ⟨s.name, r⟩ =
        some ⟨s.name, r1⟩ ∧
      schemaOf r1 = schema ∧
      (∀ e ∈ es, (stored env e.1 e.2).isSome = true ∧
        leafValue r1 s.name e.1.name = stored env e.1 e.2) ∧
      (∀ sn fieldName, (sn ≠ s.name ∨ ∀ e ∈ es, e.1.name ≠ fieldName) →
        leafValue r1 sn fieldName = leafValue r sn fieldName) := by
  induction es generalizing r with
  | nil =>
    exact ⟨r, rfl, hr, fun e he => absurd he (by simp), fun _ _ _ => rfl⟩
  | cons e es ih =>
    simp only [List.map_cons, List.nodup_cons] at hnd
    obtain ⟨y, hy, hstep, hread⟩ := applyKind_declared env schema r s e.1 e.2 hr hG hR hU hS hs
      (hes e (List.mem_cons_self _ _)).1 (hes e (List.mem_cons_self _ _)).2
    obtain ⟨r1, hrun, hsch, hvals, hframe⟩ := ih (writeLeaf r s.name e.1.name y)
      (by rw [schemaOf_writeLeaf]; exact hr)
      (fun x hx => hes x (List.mem_cons_of_mem _ hx)) hnd.2
    refine ⟨r1, ?_, hsch, ?_, ?_⟩
    · simp only [List.map_cons, runKinds, hstep]
      exact hrun
    · intro x hx
      rcases List.mem_cons.mp hx with h | h
      · subst h
        refine ⟨by rw [hy]; rfl, ?_⟩
        rw [hframe s.name x.1.name (Or.inr ?_), hread, hy]
        intro e1 he1 heq
        exact hnd.1 (List.mem_map.mpr ⟨e1, he1, heq⟩)
      · exact hvals x h
    · intro sn fieldName hcond
      rw [hframe sn fieldName ?_, leafValue_writeLeaf_other]
      · rcases hcond with h | h
        · exact Or.inl h
        · exact Or.inr (fun heq => h e (List.mem_cons_self _ _) heq.symm)
      · rcases hcond with h | h
        · exact Or.inl h
        · exact Or.inr (fun e1 he1 => h e1 (List.mem_cons_of_mem _ he1))

/-- The blocks of a well-formed file: every value of every block is stored in
its field. -/
theorem runKinds_blocks (env : Env) (schema : Record)
    (hG : GoNames schema) (hR : SectionsAreRecords schema) (hU : UniqueTags schema)
    (hS : Settable schema)
    (blocks : List Block) (sn0 : Str) (r : Record)
    (hr : schemaOf r = schema)
    (hbs : ∀ b ∈ blocks, b.sec ∈ declaredSections schema ∧
      (∀ e ∈ b.entries, e.1 ∈ declaredKeys b.sec ∧ parses env e.1.kind e.2 = true) ∧
      (b.entries.map fun e => e.1.name).Nodup)
    (hnd : (blocks.map fun b => b.sec.name).Nodup) :
    ∃ sn1 r1, runKinds env (blocks.flatMap Block.kinds) ⟨sn0, r⟩ = some ⟨sn1, r1⟩ ∧
      schemaOf r1 = schema ∧
      (∀ b ∈ blocks, ∀ e ∈ b.entries, (stored env e.1 e.2).isSome = true ∧
        leafValue r1 b.sec.name e.1.name = stored env e.1 e.2) ∧
      (∀ sn fieldName, (∀ b ∈ blocks, b.sec.name ≠ sn) →
        leafValue r1 sn fieldName = leafValue r sn fieldName) := by
  induction blocks generalizing sn0 r with
  | nil =>
    exact ⟨sn0, r, rfl, hr, fun b hb => absurd hb (by simp), fun _ _ _ => rfl⟩
  | cons b bs ih =>
    simp only [List.map_cons, List.nodup_cons] at hnd
    obtain ⟨hbsec, hbes, hbnd⟩ := hbs b (List.mem_cons_self _ _)
    obtain ⟨rb, hrunb, hschb, hvalsb, hframeb⟩ :=
      runKinds_entries env schema b.sec hG hR hU hS hbsec b.entries r hr hbes hbnd
    obtain ⟨sn1, r1, hrun, hsch, hvals, hframe⟩ := ih b.sec.name rb hschb
      (fun x hx => hbs x (List.mem_cons_of_mem _ hx)) hnd.2
    refine ⟨sn1, r1, ?_, hsch, ?_, ?_⟩
    · have hhead : applyKind env 0 (.header b.sec.ini) ⟨sn0, r⟩ = .next ⟨b.sec.name, r⟩ := by
        simp only [applyKind, findSection_declared schema r b.sec sn0 hr hU hbsec]
      have hk : (b :: bs).flatMap Block.kinds =
          LineKind.header b.sec.ini ::
            ((b.entries.map fun e => LineKind.assignment e.1.ini e.2) ++
              bs.flatMap Block.kinds) := by
        simp [List.flatMap_cons, Block.kinds]
      rw [hk]
      simp only [runKinds, hhead]
      rw [runKinds_append, hrunb]
      exact hrun
    · intro x hx e he
      rcases List.mem_cons.mp hx with h | h
      · subst h
        refine ⟨(hvalsb e he).1, ?_⟩
        rw [hframe x.sec.name e.1.name ?_, (hvalsb e he).2]
        intro b1 hb1 heq
        exact hnd.1 (List.mem_map.mpr ⟨b1, hb1, heq⟩)
      · exact hvals x h e he
    · intro sn fieldName hcond
      rw [hframe sn fieldName (fun b1 hb1 => hcond b1 (List.mem_cons_of_mem _ hb1)),
        hframeb sn fieldName (Or.inl (fun heq => hcond b (List.mem_cons_self _ _) heq.symm))]

/-! ## The scenario file -/

theorem scanLines_step (env : Env) (isNil : Bool) (idx : Nat) (l : Str) (rest : List Str)
    (st st1 : State) (h : processLine env isNil idx l st = .next st1) :
    scanLines env isNil idx (l :: rest) st = scanLines env isNil (idx + 1) rest st1 := by
  simp [scanLines, h]

theorem scenario_lines :
    splitCRLF scenario =
      ["[mysql]".toList, "address = 127.0.0.1".toList, "port = 3306".toList,
        "[redis]".toList, "host = 127.0.0.1".toList, "port = 6379".toList,
        "database = 0".toList, "test = true".toList, []] := by
  decide

set_option maxRecDepth 4000 in
theorem scenario_scan (env : Env) :
    scanLines env false 0 (splitCRLF scenario) ⟨[], Config⟩
      = (.ok, ⟨"RedisConfig".toList, configWith "127.0.0.1" 3306 "127.0.0.1" 6379 0 true⟩) := by
    have e0 : Config = configWith "" 0 "" 0 0 false := rfl
    have s1 : processLine env false 0 "[mysql]".toList ⟨[], configWith "" 0 "" 0 0 false⟩
        = .next ⟨"MysqlConfig".toList, configWith "" 0 "" 0 0 false⟩ := by
      obtain ⟨rf, b, pf, tf⟩ := env
      cases b <;> rfl
    have s2 : processLine env false 1 "address = 127.0.0.1".toList ⟨"MysqlConfig".toList, configWith "" 0 "" 0 0 false⟩
        = .next ⟨"MysqlConfig".toList, configWith "127.0.0.1" 0 "" 0 0 false⟩ := by
      obtain ⟨rf, b, pf, tf⟩ := env
      cases b <;> rfl
    have s3 : processLine env false 2 "port = 3306".toList ⟨"MysqlConfig".toList, configWith "127.0.0.1" 0 "" 0 0 false⟩
        = .next ⟨"MysqlConfig".toList, configWith "127.0.0.1" 3306 "" 0 0 false⟩ := by
      obtain ⟨rf, b, pf, tf⟩ := env
      cases b <;> rfl
    have s4 : processLine env false 3 "[redis]".toList ⟨"MysqlConfig".toList, configWith "127.0.0.1" 3306 "" 0 0 false⟩
        = .next ⟨"RedisConfig".toList, configWith "127.0.0.1" 3306 "" 0 0 false⟩ := by
      obtain ⟨rf, b, pf, tf⟩ := env
      cases b <;> rfl
    have s5 : processLine env false 4 "host = 127.0.0.1".toList ⟨"RedisConfig".toList, configWith "127.0.0.1" 3306 "" 0 0 false⟩
        = .next ⟨"RedisConfig".toList, configWith "127.0.0.1" 3306 "127.0.0.1" 0 0 false⟩ := by
      obtain ⟨rf, b, pf, tf⟩ := env
      cases b <;> rfl
    have s6 : processLine env false 5 "port = 6379".toList ⟨"RedisConfig".toList, configWith "127.0.0.1" 3306 "127.0.0.1" 0 0 false⟩
        = .next ⟨"RedisConfig".toList, configWith "127.0.0.1" 3306 "127.0.0.1" 6379 0 false⟩ := by
      obtain ⟨rf, b, pf, tf⟩ := env
      cases b <;> rfl
    have s7 : processLine env false 6 "database = 0".toList ⟨"RedisConfig".toList, configWith "127.0.0.1" 3306 "127.0.0.1" 6379 0 false⟩
        = .next ⟨"RedisConfig".toList, configWith "127.0.0.1" 3306 "127.0.0.1" 6379 0 false⟩ := by
      obtain ⟨rf, b, pf, tf⟩ := env
      cases b <;> rfl
    have s8 : processLine env false 7 "test = true".toList ⟨"RedisConfig".toList, configWith "127.0.0.1" 3306 "127.0.0.1" 6379 0 false⟩
        = .next ⟨"RedisConfig".toList, configWith "127.0.0.1" 3306 "127.0.0.1" 6379 0 true⟩ := by
      obtain ⟨rf, b, pf, tf⟩ := env
      cases b <;> rfl
    have s9 : processLine env false 8 ([] : Str) ⟨"RedisConfig".toList, configWith "127.0.0.1" 3306 "127.0.0.1" 6379 0 true⟩
        = .next ⟨"RedisConfig".toList, configWith "127.0.0.1" 3306 "127.0.0.1" 6379 0 true⟩ := by
      obtain ⟨rf, b, pf, tf⟩ := env
      cases b <;> rfl
    rw [scenario_lines, e0,
      scanLines_step _ _ _ _ _ _ _ s1,
      scanLines_step _ _ _ _ _ _ _ s2,
      scanLines_step _ _ _ _ _ _ _ s3,
      scanLines_step _ _ _ _ _ _ _ s4,
      scanLines_step _ _ _ _ _ _ _ s5,
      scanLines_step _ _ _ _ _ _ _ s6,
      scanLines_step _ _ _ _ _ _ _ s7,
      scanLines_step _ _ _ _ _ _ _ s8,
      scanLines_step _ _ _ _ _ _ _ s9]
    rfl

/-! ## The claims -/

/-- C2: loading the scenario file into a zero-valued `Config` returns no error
and leaves Address = "127.0.0.1" and Port = 3306 in `MysqlConfig`,
Host = "127.0.0.1", Port = 6379, Database = 0 and Test = true in `RedisConfig`,
and the zero value in Username and both Password fields. -/
theorem loadIni_scenario (env : Env) (fileName : Str)
    (hread : env.readFile fileName = some scenario) :
    ∃ r, loadIni env fileName (.structPointer Config) = ⟨.ok, .structPointer r⟩ ∧
      fieldValue r "MysqlConfig" "Address" = some (.str "127.0.0.1".toList) ∧
      fieldValue r "MysqlConfig" "Port" = some (.int 3306) ∧
      fieldValue r "MysqlConfig" "Username" = some (.str []) ∧
      fieldValue r "MysqlConfig" "Password" = some (.str []) ∧
      fieldValue r "RedisConfig" "Host" = some (.str "127.0.0.1".toList) ∧
      fieldValue r "RedisConfig" "Port" = some (.int 6379) ∧
      fieldValue r "RedisConfig" "Password" = some (.str []) ∧
      fieldValue r "RedisConfig" "Database" = some (.int 0) ∧
      fieldValue r "RedisConfig" "Test" = some (.bool true) := by
  rw [loadIni_structPointer env fileName scenario Config hread, scenario_scan]
  exact ⟨_, rfl, rfl, rfl, rfl, rfl, rfl, rfl, rfl, rfl, rfl⟩

theorem loadIni_scenario_witness :
    ∃ r, loadIni (envOf scenario) "./conf.ini".toList (.structPointer Config)
        = ⟨.ok, .structPointer r⟩ ∧
      fieldValue r "MysqlConfig" "Address" = some (.str "127.0.0.1".toList) ∧
      fieldValue r "MysqlConfig" "Port" = some (.int 3306) ∧
      fieldValue r "MysqlConfig" "Username" = some (.str []) ∧
      fieldValue r "MysqlConfig" "Password" = some (.str []) ∧
      fieldValue r "RedisConfig" "Host" = some (.str "127.0.0.1".toList) ∧
      fieldValue r "RedisConfig" "Port" = some (.int 6379) ∧
      fieldValue r "RedisConfig" "Password" = some (.str []) ∧
      fieldValue r "RedisConfig" "Database" = some (.int 0) ∧
      fieldValue r "RedisConfig" "Test" = some (.bool true) :=
  loadIni_scenario (envOf scenario) "./conf.ini".toList rfl

/-- C3: if line `n` of the file is, once trimmed, non-empty, starts with none of
`;`, `#`, `[`, and has no `=` or starts with `=`, and no earlier line stops the
scan, then `loadIni` returns the error "line:n syntax error", whatever section
is active (none included). -/
theorem loadIni_syntax_error_of_bad_assignment (env : Env) (fileName content : Str)
    (target : Record) (n : Nat) (line : Str)
    (hread : env.readFile fileName = some content)
    (hn : 0 < n)
    (hline : (linesOf content).get? (n - 1) = some line)
    (hne : TrimSpace line ≠ [])
    (h1 : HasPrefix (TrimSpace line) ";".toList = false)
    (h2 : HasPrefix (TrimSpace line) "#".toList = false)
    (h3 : HasPrefix (TrimSpace line) "[".toList = false)
    (h : '=' ∉ TrimSpace line ∨ HasPrefix (TrimSpace line) "=".toList = true)
    (hprev : (before env target content n).1 = .ok) :
    (loadIni env fileName (.structPointer target)).outcome = .error (.syntaxError n) ∧
    (LoadError.syntaxError n).message =
      "line:".toList ++ (Nat.repr n).toList ++ " syntax error".toList := by
  refine ⟨?_, rfl⟩
  have hn1 : n - 1 + 1 = n := by omega
  rw [loadIni_at env fileName content target n line hread hn hline hprev,
    processLine_bad_assignment env false (n - 1) line _ hne h1 h2 h3 h, hn1]

theorem loadIni_syntax_error_of_bad_assignment_witness :
    (loadIni (envOf "[mysql]\r\naddress 127.0.0.1".toList) [] (.structPointer Config)).outcome
        = .error (.syntaxError 2) ∧
    (LoadError.syntaxError 2).message = "line:2 syntax error".toList :=
  loadIni_syntax_error_of_bad_assignment (envOf "[mysql]\r\naddress 127.0.0.1".toList) []
    "[mysql]\r\naddress 127.0.0.1".toList Config 2 "address 127.0.0.1".toList
    rfl (by decide) rfl (by decide) rfl rfl rfl (Or.inl (by decide)) rfl

/-- C4: if line `n` of the file, once trimmed, starts with `[` and either does
not end with `]` (the one-character line `[` included) or has only white space
between the brackets, and no earlier line stops the scan, then `loadIni` returns
the error "line:n syntax error"; and no call of `loadIni` ever ends in an
out-of-range index or slice. -/
theorem loadIni_syntax_error_of_bad_header (env : Env) (fileName content : Str)
    (target : Record) (n : Nat) (line : Str)
    (hread : env.readFile fileName = some content)
    (hn : 0 < n)
    (hline : (linesOf content).get? (n - 1) = some line)
    (h1 : HasPrefix (TrimSpace line) "[".toList = true)
    (h : (TrimSpace line).getLast? ≠ some ']' ∨
      ∃ inner, TrimSpace line = '[' :: (inner ++ [']']) ∧ ∀ c ∈ inner, isSpace c = true)
    (hprev : (before env target content n).1 = .ok) :
    ((loadIni env fileName (.structPointer target)).outcome = .error (.syntaxError n) ∧
      (LoadError.syntaxError n).message =
        "line:".toList ++ (Nat.repr n).toList ++ " syntax error".toList) ∧
    ∀ (env1 : Env) (fileName1 : Str) (data : Data),
      (loadIni env1 fileName1 data).outcome ≠ .panic .sliceOutOfRange ∧
      (loadIni env1 fileName1 data).outcome ≠ .panic .indexOutOfRange := by
  refine ⟨⟨?_, rfl⟩, ?_⟩
  · have hn1 : n - 1 + 1 = n := by omega
    rw [loadIni_at env fileName content target n line hread hn hline hprev,
      processLine_bad_header env false (n - 1) line _ h1 h, hn1]
  · intro env1 fileName1 data
    constructor
    · intro hp
      rcases loadIni_panic env1 fileName1 data _ hp with h | h | h | h <;>
        exact Panic.noConfusion h
    · intro hp
      rcases loadIni_panic env1 fileName1 data _ hp with h | h | h | h <;>
        exact Panic.noConfusion h

theorem loadIni_syntax_error_of_bad_header_witness :
    ((loadIni (envOf "[mysql]\r\n[".toList) [] (.structPointer Config)).outcome
        = .error (.syntaxError 2) ∧
      (LoadError.syntaxError 2).message = "line:2 syntax error".toList) ∧
    ∀ (env1 : Env) (fileName1 : Str) (data : Data),
      (loadIni env1 fileName1 data).outcome ≠ .panic .sliceOutOfRange ∧
      (loadIni env1 fileName1 data).outcome ≠ .panic .indexOutOfRange :=
  loadIni_syntax_error_of_bad_header (envOf "[mysql]\r\n[".toList) []
    "[mysql]\r\n[".toList Config 2 "[".toList
    rfl (by decide) rfl rfl (Or.inl (by decide)) rfl

/-- C5: if line `n` is an assignment line whose key resolves, in the active
section, to a field of a signed integer kind (resp. of kind bool) and whose
trimmed value text is no base-10 signed integer literal in the 64-bit range
(resp. no accepted boolean literal), the empty text included, and no earlier
line stops the scan, then `loadIni` returns the error "line:n value type error"
and the record is as the earlier lines left it. -/
theorem loadIni_value_type_error (env : Env) (fileName content : Str)
    (target : Record) (n : Nat) (line : Str) (sec : Section) (leaf : Leaf)
    (hread : env.readFile fileName = some content)
    (hn : 0 < n)
    (hline : (linesOf content).get? (n - 1) = some line)
    (hprev : (before env target content n).1 = .ok)
    (hassign : isAssignment line = true)
    (hsec : FieldByName (before env target content n).2.target
      (before env target content n).2.structName = some sec)
    (hstruct : sec.kind = Kind.Struct)
    (hkey : findKey sec.fields (keyOf line) = some leaf)
    (hname : leaf.name ≠ [])
    (hbad : (isIntKind leaf.kind = true ∧ ¬ IsInt64Literal (valueOf line)) ∨
      (leaf.kind = Kind.Bool ∧ ¬ IsBoolLiteral (valueOf line))) :
    loadIni env fileName (.structPointer target) =
      ⟨.error (.valueTypeError n), .structPointer (before env target content n).2.target⟩ ∧
    (LoadError.valueTypeError n).message =
      "line:".toList ++ (Nat.repr n).toList ++ " value type error".toList := by
  refine ⟨?_, rfl⟩
  have hconv : convert env leaf.kind (valueOf line) = some none := by
    rcases hbad with ⟨hk, hv⟩ | ⟨hk, hv⟩
    · rw [convert_int env _ _ hk, ParseInt_eq_none_of_not_literal _ hv]
      rfl
    · rw [hk]
      show some ((ParseBool (valueOf line)).map Val.bool) = some none
      rw [ParseBool_eq_none_of_not_literal _ hv]
      rfl
  have hn1 : n - 1 + 1 = n := by omega
  rw [loadIni_at env fileName content target n line hread hn hline hprev,
    processLine_of_isAssignment env false (n - 1) line _ hassign,
    assign_value_type_error env (n - 1) _ _ _ sec leaf hsec hstruct hkey hname hconv, hn1]

theorem loadIni_value_type_error_witness :
    loadIni (envOf "[mysql]\r\nport =".toList) [] (.structPointer Config) =
      ⟨.error (.valueTypeError 2), .structPointer Config⟩ ∧
    (LoadError.valueTypeError 2).message = "line:2 value type error".toList :=
  loadIni_value_type_error (envOf "[mysql]\r\nport =".toList) [] "[mysql]\r\nport =".toList
    Config 2 "port =".toList
    ⟨"MysqlConfig".toList, "mysql".toList, true, true, .Struct, MysqlConfig, .other⟩
    (zeroLeaf "Port" "port" .Int (.int 0))
    rfl (by decide) rfl rfl rfl rfl rfl rfl (by decide)
    (Or.inl ⟨rfl, fun ⟨_, _, hs, _, hne, _, _⟩ => hne (List.append_eq_nil.mp hs.symm).2⟩)

/-- C6: when `loadIni` returns a syntax or value type error for line `n`, the
record it leaves is the record that a load of the first `n - 1` lines alone
(same initial record, same platform) produces, and that load succeeds: lines
`n` and later have no effect. -/
theorem loadIni_error_keeps_prefix (env : Env) (fileName content : Str) (target : Record)
    (n : Nat)
    (hread : env.readFile fileName = some content)
    (herr : (loadIni env fileName (.structPointer target)).outcome = .error (.syntaxError n) ∨
      (loadIni env fileName (.structPointer target)).outcome = .error (.valueTypeError n)) :
    1 ≤ n ∧ n ≤ (linesOf content).length ∧
    loadIni ⟨fun _ => some (joinCRLF ((linesOf content).take (n - 1))),
        env.int64bit, env.parseFloat, env.toFloat32⟩ fileName (.structPointer target) =
      ⟨.ok, (loadIni env fileName (.structPointer target)).data⟩ := by
  obtain ⟨h1, h2, hok, hdata⟩ := loadIni_error_line env fileName content target n hread herr
  refine ⟨h1, h2, ?_⟩
  rw [hdata, loadIni_structPointer _ fileName _ target rfl, scanLines_readFile]
  have hscan : scanLines env false 0
      (splitCRLF (joinCRLF ((linesOf content).take (n - 1)))) ⟨[], target⟩ =
      before env target content n := by
    by_cases hn : n - 1 = 0
    · unfold before
      rw [hn]
      rfl
    · have hne : (linesOf content).take (n - 1) ≠ [] := by
        intro e
        have hl := congrArg List.length e
        simp only [List.length_take, List.length_nil] at hl
        omega
      rw [splitCRLF_joinCRLF _ hne
        (fun l hl => splitCRLF_segments content l (List.mem_of_mem_take hl))]
      rfl
  rw [hscan, hok]

theorem loadIni_error_keeps_prefix_witness :
    (loadIni (envOf scenarioBadPort) [] (.structPointer Config) =
      ⟨.error (.valueTypeError 3),
        .structPointer (configWith "127.0.0.1" 0 "" 0 0 false)⟩ ∧
      (LoadError.valueTypeError 3).message = "line:3 value type error".toList) ∧
    (1 ≤ 3 ∧ 3 ≤ (linesOf scenarioBadPort).length ∧
      loadIni ⟨fun _ => some (joinCRLF ((linesOf scenarioBadPort).take (3 - 1))),
          (envOf scenarioBadPort).int64bit, (envOf scenarioBadPort).parseFloat,
          (envOf scenarioBadPort).toFloat32⟩ [] (.structPointer Config) =
        ⟨.ok, (loadIni (envOf scenarioBadPort) [] (.structPointer Config)).data⟩) :=
  ⟨⟨by decide, by decide⟩,
    loadIni_error_keeps_prefix (envOf scenarioBadPort) [] scenarioBadPort Config 3 rfl
      (Or.inr (by decide))⟩

/-- C7, as stated, fails: an assignment line whose key matches no declared key
makes `loadIni` return the error of source line 113 when the active section is
a field that is no struct, and makes it panic when no section is active. -/
theorem unknown_key_line_can_fail :
    (isAssignment "zzz = 1".toList = true ∧
      (∀ s ∈ flatRecord, ∀ l ∈ s.fields, l.ini ≠ keyOf "zzz = 1".toList) ∧
      loadIni (envOf "[port]\r\nzzz = 1".toList) [] (.structPointer flatRecord) =
        ⟨.error (.notStruct "Port".toList), .structPointer flatRecord⟩) ∧
    ((∀ s ∈ Config, ∀ l ∈ s.fields, l.ini ≠ keyOf "zzz = 1".toList) ∧
      loadIni (envOf "zzz = 1".toList) [] (.structPointer Config) =
        ⟨.panic .zeroValue, .structPointer Config⟩) := by
  decide

/-- C7, amended: a header line whose section name matches no declared section,
and an assignment line whose key matches no declared key of the active section
when that section is a struct field, do not stop `loadIni`: the record and the
active section after line `n` are what they were before it, and the scan goes
on with line `n + 1`. -/
theorem loadIni_skips_unknown_names (env : Env) (fileName content : Str) (target : Record)
    (n : Nat) (line : Str)
    (hread : env.readFile fileName = some content)
    (hn : 0 < n)
    (hline : (linesOf content).get? (n - 1) = some line)
    (hprev : (before env target content n).1 = .ok)
    (h : IsUnknownHeader (before env target content n).2.target line ∨
      ∃ sec, FieldByName (before env target content n).2.target
          (before env target content n).2.structName = some sec ∧
        sec.kind = Kind.Struct ∧ IsUnknownKey sec line) :
    before env target content (n + 1) = before env target content n ∧
    loadIni env fileName (.structPointer target) =
      ⟨(scanLines env false n ((linesOf content).drop n) (before env target content n).2).1,
        .structPointer
          (scanLines env false n ((linesOf content).drop n)
            (before env target content n).2).2.target⟩ := by
  have hp := processLine_unknown env (n - 1) line _ h
  constructor
  · rw [before_succ env target content n line hn hline hprev, hp]
    exact Prod.ext hprev.symm rfl
  · rw [loadIni_at env fileName content target n line hread hn hline hprev, hp]

theorem loadIni_skips_unknown_names_witness :
    before (envOf "[mysql]\r\nzzz = 1\r\nport = 7".toList) Config
        "[mysql]\r\nzzz = 1\r\nport = 7".toList (2 + 1) =
      before (envOf "[mysql]\r\nzzz = 1\r\nport = 7".toList) Config
        "[mysql]\r\nzzz = 1\r\nport = 7".toList 2 ∧
    loadIni (envOf "[mysql]\r\nzzz = 1\r\nport = 7".toList) [] (.structPointer Config) =
      ⟨(scanLines (envOf "[mysql]\r\nzzz = 1\r\nport = 7".toList) false 2
          ((linesOf "[mysql]\r\nzzz = 1\r\nport = 7".toList).drop 2)
          (before (envOf "[mysql]\r\nzzz = 1\r\nport = 7".toList) Config
            "[mysql]\r\nzzz = 1\r\nport = 7".toList 2).2).1,
        .structPointer
          (scanLines (envOf "[mysql]\r\nzzz = 1\r\nport = 7".toList) false 2
            ((linesOf "[mysql]\r\nzzz = 1\r\nport = 7".toList).drop 2)
            (before (envOf "[mysql]\r\nzzz = 1\r\nport = 7".toList) Config
              "[mysql]\r\nzzz = 1\r\nport = 7".toList 2).2).2.target⟩ :=
  loadIni_skips_unknown_names (envOf "[mysql]\r\nzzz = 1\r\nport = 7".toList) []
    "[mysql]\r\nzzz = 1\r\nport = 7".toList Config 2 "zzz = 1".toList
    rfl (by decide) rfl rfl
    (Or.inr ⟨⟨"MysqlConfig".toList, "mysql".toList, true, true, .Struct, MysqlConfig, .other⟩,
      rfl, rfl, by decide, by decide⟩)

/-- C8, as stated, fails: `TRue` equals `true` when letter case is ignored, yet
a boolean field given `TRue` gets a value type error. -/
theorem bool_literal_case_matters :
    equalsIgnoringCase "TRue".toList "true".toList = true ∧
    loadIni (envOf "[redis]\r\ntest = TRue".toList) [] (.structPointer Config) =
      ⟨.error (.valueTypeError 2), .structPointer Config⟩ := by
  decide

/-- C8, amended: for an assignment line whose key resolves, in the active
section, to a settable field of kind bool (exported, in a section field that is
exported or embedded): when the value text is one of `1 t T TRUE true True` the
field is set to true, when it is one of `0 f F FALSE false False` the field is
set to false, and the scan goes on; every other value text gets the error
"line:n value type error". -/
theorem loadIni_bool_literals (env : Env) (fileName content : Str)
    (target : Record) (n : Nat) (line : Str) (sec : Section) (leaf : Leaf)
    (hread : env.readFile fileName = some content)
    (hn : 0 < n)
    (hline : (linesOf content).get? (n - 1) = some line)
    (hprev : (before env target content n).1 = .ok)
    (hassign : isAssignment line = true)
    (hsec : FieldByName (before env target content n).2.target
      (before env target content n).2.structName = some sec)
    (hstruct : sec.kind = Kind.Struct)
    (hkey : findKey sec.fields (keyOf line) = some leaf)
    (hname : leaf.name ≠ [])
    (hbool : leaf.kind = Kind.Bool)
    (hobj : leafByName sec.fields leaf.name = some leaf)
    (hexp : (sec.exported = true ∨ sec.embedded = true) ∧ leaf.exported = true) :
    (∀ b : Bool, (b = true ∧ valueOf line ∈ trueLiterals ∨
        b = false ∧ valueOf line ∈ falseLiterals) →
      before env target content (n + 1) =
        (.ok, ⟨(before env target content n).2.structName,
          writeLeaf (before env target content n).2.target
            (before env target content n).2.structName leaf.name (.bool b)⟩) ∧
      leafValue (before env target content (n + 1)).2.target
        (before env target content n).2.structName leaf.name = some (.bool b)) ∧
    (¬ IsBoolLiteral (valueOf line) →
      loadIni env fileName (.structPointer target) =
        ⟨.error (.valueTypeError n),
          .structPointer (before env target content n).2.target⟩) := by
  have hn1 : n - 1 + 1 = n := by omega
  constructor
  · intro b hb
    have hparse : ParseBool (valueOf line) = some b := by
      rcases hb with ⟨e, hm⟩ | ⟨e, hm⟩
      · rw [e]
        exact (ParseBool_eq_true_iff _).mpr hm
      · rw [e]
        exact (ParseBool_eq_false_iff _).mpr hm
    have hconv : convert env leaf.kind (valueOf line) = some (some (.bool b)) := by
      rw [hbool]
      show some ((ParseBool (valueOf line)).map Val.bool) = _
      rw [hparse]
      rfl
    have hset : setValue env false leaf (.bool b) = .ok (.bool b) := by
      simp [setValue, hbool]
    have hro : ((!sec.exported && !sec.embedded) || !leaf.exported) = false := by
      rcases hexp with ⟨h1 | h1, h2⟩ <;> simp [h1, h2]
    have hstep := assign_write env (n - 1) (keyOf line) (valueOf line) _ sec leaf _ _
      hsec hstruct hkey hname hobj hro hconv hset
    have hb1 : before env target content (n + 1) =
        (.ok, ⟨(before env target content n).2.structName,
          writeLeaf (before env target content n).2.target
            (before env target content n).2.structName leaf.name (.bool b)⟩) := by
      rw [before_succ env target content n line hn hline hprev,
        processLine_of_isAssignment env false (n - 1) line _ hassign, hstep]
    refine ⟨hb1, ?_⟩
    rw [hb1]
    exact leafValue_writeLeaf _ _ _ _ sec leaf hsec hobj
  · intro hv
    have hconv : convert env leaf.kind (valueOf line) = some none := by
      rw [hbool]
      show some ((ParseBool (valueOf line)).map Val.bool) = some none
      rw [ParseBool_eq_none_of_not_literal _ hv]
      rfl
    rw [loadIni_at env fileName content target n line hread hn hline hprev,
      processLine_of_isAssignment env false (n - 1) line _ hassign,
      assign_value_type_error env (n - 1) _ _ _ sec leaf hsec hstruct hkey hname hconv, hn1]

theorem loadIni_bool_literals_witness :
    before (envOf "[redis]\r\ntest = T".toList) Config "[redis]\r\ntest = T".toList (2 + 1) =
      (.ok, ⟨"RedisConfig".toList, configWith "" 0 "" 0 0 true⟩) ∧
    leafValue (before (envOf "[redis]\r\ntest = T".toList) Config
        "[redis]\r\ntest = T".toList (2 + 1)).2.target
      "RedisConfig".toList "Test".toList = some (.bool true) :=
  (loadIni_bool_literals (envOf "[redis]\r\ntest = T".toList) []
    "[redis]\r\ntest = T".toList Config 2 "test = T".toList
    ⟨"RedisConfig".toList, "redis".toList, true, true, .Struct, RedisConfig, .other⟩
    (zeroLeaf "Test" "test" .Bool (.bool false))
    rfl (by decide) rfl rfl rfl rfl rfl rfl (by decide) rfl rfl
    ⟨Or.inl rfl, rfl⟩).1 true (Or.inl ⟨rfl, by decide⟩)

/-- C9: the nil interface value is no reference to a record, yet `loadIni` does
not return an error for it: it panics on the nil `reflect.Type` (source line 42),
in every environment.  The two other kinds of target the claim names do get
their error, before the file is read and with nothing modified. -/
theorem loadIni_nil_interface_panics (env : Env) (fileName : Str) :
    loadIni env fileName .nil = ⟨.panic .nilType, .nil⟩ ∧
    (∀ k, k ≠ Kind.Ptr →
      loadIni env fileName (.nonPointer k) = ⟨.error .notPointer, .nonPointer k⟩) ∧
    (∀ k, k ≠ Kind.Struct →
      loadIni env fileName (.pointerTo k) = ⟨.error .notStructPointer, .pointerTo k⟩) := by
  refine ⟨rfl, ?_, ?_⟩
  · intro k hk
    simp [loadIni, Data.kind, hk]
  · intro k hk
    simp [loadIni, Data.kind, Data.elemKind, hk]

/-- C10, as stated, fails: a file whose only line is a header that resolves to a
field that is no struct loads without error. -/
theorem header_of_non_struct_field_is_accepted :
    processLine (envOf "[port]".toList) false 0 "[port]".toList ⟨[], flatRecord⟩ =
      .next ⟨"Port".toList, flatRecord⟩ ∧
    FieldByName flatRecord "Port".toList =
      some ⟨"Port".toList, "port".toList, true, false, .Int, [], .int 0⟩ ∧
    loadIni (envOf "[port]".toList) [] (.structPointer flatRecord) =
      ⟨.ok, .structPointer flatRecord⟩ := by
  decide

/-- C10, amended: when line `n` is an assignment line reached while the active
section is a field of the target that is no struct, and no earlier line stops
the scan, `loadIni` returns the error naming that field (source line 113) and
the record is as the earlier lines left it; it is the initial record when no
earlier line is an assignment line. -/
theorem loadIni_schema_error_at_assignment (env : Env) (fileName content : Str)
    (target : Record) (n : Nat) (line : Str) (sec : Section)
    (hread : env.readFile fileName = some content)
    (hn : 0 < n)
    (hline : (linesOf content).get? (n - 1) = some line)
    (hprev : (before env target content n).1 = .ok)
    (hassign : isAssignment line = true)
    (hsec : FieldByName (before env target content n).2.target
      (before env target content n).2.structName = some sec)
    (hkind : sec.kind ≠ Kind.Struct) :
    loadIni env fileName (.structPointer target) =
      ⟨.error (.notStruct (before env target content n).2.structName),
        .structPointer (before env target content n).2.target⟩ ∧
    ((∀ l ∈ (linesOf content).take (n - 1), isAssignment l = false) →
      (before env target content n).2.target = target) := by
  constructor
  · rw [loadIni_at env fileName content target n line hread hn hline hprev,
      processLine_of_isAssignment env false (n - 1) line _ hassign,
      assign_not_struct env (n - 1) _ _ _ sec hsec hkind]
  · intro h
    exact scanLines_target_of_no_assignment env false _ 0 _ h

theorem loadIni_schema_error_at_assignment_witness :
    loadIni (envOf "[port]\r\nx = 1".toList) [] (.structPointer flatRecord) =
      ⟨.error (.notStruct (before (envOf "[port]\r\nx = 1".toList) flatRecord
          "[port]\r\nx = 1".toList 2).2.structName),
        .structPointer (before (envOf "[port]\r\nx = 1".toList) flatRecord
          "[port]\r\nx = 1".toList 2).2.target⟩ ∧
    ((∀ l ∈ (linesOf "[port]\r\nx = 1".toList).take (2 - 1), isAssignment l = false) →
      (before (envOf "[port]\r\nx = 1".toList) flatRecord
        "[port]\r\nx = 1".toList 2).2.target = flatRecord) :=
  loadIni_schema_error_at_assignment (envOf "[port]\r\nx = 1".toList) []
    "[port]\r\nx = 1".toList flatRecord 2 "x = 1".toList
    ⟨"Port".toList, "port".toList, true, false, .Int, [], .int 0⟩
    rfl (by decide) rfl rfl rfl rfl (by decide)

/-- C1, as stated, fails: for a schema with one section (a struct) and one key,
names unique, whose key field is unexported, and the file `[s]`, `port = 1`,
`loadIni` does not return: the `SetInt` call panics. -/
theorem unexported_field_panics :
    SectionsAreRecords (schemaOf unexportedRecord) ∧
    UniqueTags (schemaOf unexportedRecord) ∧
    WellFormedFile (envOf "[s]\r\nport = 1".toList) (schemaOf unexportedRecord)
      "[s]\r\nport = 1".toList unexportedBlocks ∧
    loadIni (envOf "[s]\r\nport = 1".toList) [] (.structPointer unexportedRecord) =
      ⟨.panic .notAssignable, .structPointer unexportedRecord⟩ := by
  refine ⟨?_, ?_, ?_, ?_⟩
  · unfold SectionsAreRecords
    decide
  · unfold UniqueTags
    decide
  · unfold WellFormedFile
    decide
  · decide

/-- C1, amended: for every target whose declared sections are struct fields that
can be set through `reflect` (keys exported, sections exported or embedded), with
unique section names and unique key names per section, and every file that
consists, blank and comment lines apart, of one header line for each declared
section followed by one assignment line for each declared key of that section,
with a value text that parses for the key's kind, `loadIni` returns no error
and every declared field holds the conversion of the value text of its line. -/
theorem loadIni_well_formed_file (env : Env) (fileName content : Str) (target : Record)
    (blocks : List Block)
    (hread : env.readFile fileName = some content)
    (hG : GoNames (schemaOf target))
    (hR : SectionsAreRecords (schemaOf target))
    (hU : UniqueTags (schemaOf target))
    (hS : Settable (schemaOf target))
    (hfile : WellFormedFile env (schemaOf target) content blocks) :
    ∃ r1, loadIni env fileName (.structPointer target) = ⟨.ok, .structPointer r1⟩ ∧
      schemaOf r1 = schemaOf target ∧
      ∀ s ∈ declaredSections (schemaOf target), ∀ l ∈ declaredKeys s,
        ∃ v, (∃ b ∈ blocks, b.sec = s ∧ (l, v) ∈ b.entries) ∧
          (stored env l v).isSome = true ∧ leafValue r1 s.name l.name = stored env l v := by
  obtain ⟨hlines, hperm, hblocks⟩ := hfile
  have hsecmem : ∀ b ∈ blocks, b.sec ∈ declaredSections (schemaOf target) := fun b hb =>
    hperm.mem_iff.mp (List.mem_map.mpr ⟨b, hb, rfl⟩)
  have hbs : ∀ b ∈ blocks, b.sec ∈ declaredSections (schemaOf target) ∧
      (∀ e ∈ b.entries, e.1 ∈ declaredKeys b.sec ∧ parses env e.1.kind e.2 = true) ∧
      (b.entries.map fun e => e.1.name).Nodup := by
    intro b hb
    refine ⟨hsecmem b hb, ?_, ?_⟩
    · intro e he
      exact ⟨(hblocks b hb).1.mem_iff.mp (List.mem_map.mpr ⟨e, he, rfl⟩), (hblocks b hb).2 e he⟩
    · have hsub : ((declaredKeys b.sec).map fun l => l.name).Nodup := by
        have h1 := (hG.2 b.sec ((mem_declaredSections _ _).mp (hsecmem b hb)).1).2.1
        exact List.Nodup.sublist (List.Sublist.map _ (List.filter_sublist _)) h1
      have hp := ((hblocks b hb).1.map fun l : Leaf => l.name)
      rw [List.map_map] at hp
      exact hp.nodup_iff.mpr hsub
  have hnd : (blocks.map fun b => b.sec.name).Nodup := by
    have hsub : ((declaredSections (schemaOf target)).map fun s => s.name).Nodup :=
      List.Nodup.sublist (List.Sublist.map _ (List.filter_sublist _)) hG.1
    have hp := (hperm.map fun s : Section => s.name)
    rw [List.map_map] at hp
    exact hp.nodup_iff.mpr hsub
  obtain ⟨sn1, r1, hrun, hsch, hvals, _⟩ :=
    runKinds_blocks env (schemaOf target) hG hR hU hS blocks [] target rfl hbs hnd
  rw [← hlines] at hrun
  have hscan := scanLines_of_runKinds env (linesOf content) 0 _ _ hrun
  refine ⟨r1, ?_, hsch, ?_⟩
  · rw [loadIni_structPointer env fileName content target hread]
    unfold linesOf at hscan
    rw [hscan]
  · intro s hs l hl
    obtain ⟨b, hb, hbs1⟩ := List.mem_map.mp (hperm.mem_iff.mpr hs)
    subst hbs1
    obtain ⟨e, he, hel⟩ := List.mem_map.mp ((hblocks b hb).1.mem_iff.mpr hl)
    subst hel
    exact ⟨e.2, ⟨b, hb, rfl, he⟩, hvals b hb e he⟩

theorem loadIni_well_formed_file_witness :
    ∃ r1, loadIni (envOf fullFile) [] (.structPointer Config) = ⟨.ok, .structPointer r1⟩ ∧
      schemaOf r1 = schemaOf Config ∧
      ∀ s ∈ declaredSections (schemaOf Config), ∀ l ∈ declaredKeys s,
        ∃ v, (∃ b ∈ fullFileBlocks, b.sec = s ∧ (l, v) ∈ b.entries) ∧
          (stored (envOf fullFile) l v).isSome = true ∧
          leafValue r1 s.name l.name = stored (envOf fullFile) l v :=
  loadIni_well_formed_file (envOf fullFile) [] fullFile Config fullFileBlocks rfl
    (by unfold GoNames; decide) (by unfold SectionsAreRecords; decide)
    (by unfold UniqueTags; decide) (by unfold Settable; decide)
    (by unfold WellFormedFile; decide)

/-! ## Further facts about the assignment branch -/

theorem convert_none_of_not_primitive (env : Env) (k : Kind) (value : Str)
    (h : isPrimitiveKind k = false) : convert env k value = none := by
  cases k <;> first | rfl | exact absurd h (by decide)

theorem assign_no_case (env : Env) (idx : Nat) (key value : Str) (st : State)
    (sec : Section) (leaf : Leaf)
    (hsec : FieldByName st.target st.structName = some sec)
    (hstruct : sec.kind = Kind.Struct)
    (hkey : findKey sec.fields key = some leaf)
    (hconv : convert env leaf.kind value = none) :
    assign env false idx key value st = .next st := by
  unfold assign
  simp [hsec, hstruct, hkey, hconv]

theorem ParseInt_of_literal (s : Str) (h : IsInt64Literal s) :
    ParseInt s = some (literalValue s) := by
  obtain ⟨sign, digits, rfl, hs, hne, hd, hr⟩ := h
  rcases hs with rfl | rfl | rfl
  · rw [if_neg (by decide)] at hr
    cases digits with
    | nil => exact absurd rfl hne
    | cons c rest =>
      have hc : c.isDigit = true := hd c (List.mem_cons_self _ _)
      have hp : c ≠ '+' := by
        intro h
        rw [h] at hc
        exact absurd hc (by decide)
      have hm : c ≠ '-' := by
        intro h
        rw [h] at hc
        exact absurd hc (by decide)
      simp only [List.nil_append]
      rw [ParseInt_cons, if_neg hp, if_neg hm, if_pos ⟨hd, hr⟩]
      unfold literalValue
      split
      · rename_i h
        injection h with h1 h2
        exact absurd h1 hm
      · rename_i h
        injection h with h1 h2
        exact absurd h1 hp
      · rfl
  · rw [if_neg (by decide)] at hr
    show ParseInt ('+' :: digits) = _
    rw [ParseInt_cons, if_pos rfl, if_pos ⟨hne, hd, hr⟩]
    rfl
  · rw [if_pos rfl] at hr
    show ParseInt ('-' :: digits) = _
    rw [ParseInt_cons, if_neg (by decide), if_pos rfl, if_pos ⟨hne, hd, hr⟩]
    rfl

theorem wrapInt_range (w : Nat) (z : Int) : InIntRange w (wrapInt w z) := by
  unfold InIntRange wrapInt
  cases w with
  | zero =>
    simp only [Nat.zero_sub, pow_zero, Nat.cast_one, Int.emod_one]
    omega
  | succ v =>
    have hm : ((2 ^ (v + 1) : Nat) : Int) = 2 * ((2 ^ v : Nat) : Int) := by
      rw [pow_succ]
      push_cast
      ring
    have hpos : (0 : Int) < ((2 ^ v : Nat) : Int) := by positivity
    simp only [Nat.add_sub_cancel]
    rw [hm]
    have h1 := Int.emod_nonneg (z + ((2 ^ v : Nat) : Int))
      (show (2 * ((2 ^ v : Nat) : Int)) ≠ 0 by omega)
    have h2 := Int.emod_lt_of_pos (z + ((2 ^ v : Nat) : Int))
      (show (0 : Int) < 2 * ((2 ^ v : Nat) : Int) by omega)
    omega

theorem wrapInt_congruent (w : Nat) (z : Int) :
    ∃ q : Int, wrapInt w z = z + q * ((2 ^ w : Nat) : Int) := by
  refine ⟨-((z + ((2 ^ (w - 1) : Nat) : Int)) / ((2 ^ w : Nat) : Int)), ?_⟩
  unfold wrapInt
  rw [Int.emod_def]
  ring

theorem wrapInt_of_inRange (w : Nat) (hw : 0 < w) (z : Int) (h : InIntRange w z) :
    wrapInt w z = z := by
  unfold InIntRange at h
  unfold wrapInt
  obtain ⟨v, rfl⟩ : ∃ v, w = v + 1 := ⟨w - 1, by omega⟩
  have hm : ((2 ^ (v + 1) : Nat) : Int) = 2 * ((2 ^ v : Nat) : Int) := by
    rw [pow_succ]
    push_cast
    ring
  simp only [Nat.add_sub_cancel] at h ⊢
  rw [hm, Int.emod_eq_of_lt (by omega) (by omega)]
  omega

/-! ## Claims about single assignment lines -/

/-- C19: if line `n` is an assignment line whose key resolves, in the active
section, to a field whose kind is none of text, signed integer, boolean and
floating point, then nothing is written and no error is raised: the record and
the active section after line `n` are what they were before it, and the scan
goes on with line `n + 1`. -/
theorem loadIni_skips_other_kinds (env : Env) (fileName content : Str) (target : Record)
    (n : Nat) (line : Str) (sec : Section) (leaf : Leaf)
    (hread : env.readFile fileName = some content)
    (hn : 0 < n)
    (hline : (linesOf content).get? (n - 1) = some line)
    (hprev : (before env target content n).1 = .ok)
    (hassign : isAssignment line = true)
    (hsec : FieldByName (before env target content n).2.target
      (before env target content n).2.structName = some sec)
    (hstruct : sec.kind = Kind.Struct)
    (hkey : findKey sec.fields (keyOf line) = some leaf)
    (hkind : isPrimitiveKind leaf.kind = false) :
    before env target content (n + 1) = before env target content n ∧
    loadIni env fileName (.structPointer target) =
      ⟨(scanLines env false n ((linesOf content).drop n) (before env target content n).2).1,
        .structPointer
          (scanLines env false n ((linesOf content).drop n)
            (before env target content n).2).2.target⟩ := by
  have hp : processLine env false (n - 1) line (before env target content n).2 =
      .next (before env target content n).2 := by
    rw [processLine_of_isAssignment env false (n - 1) line _ hassign]
    exact assign_no_case env (n - 1) _ _ _ sec leaf hsec hstruct hkey
      (convert_none_of_not_primitive env _ _ hkind)
  constructor
  · rw [before_succ env target content n line hn hline hprev, hp]
    exact Prod.ext hprev.symm rfl
  · rw [loadIni_at env fileName content target n line hread hn hline hprev, hp]

theorem loadIni_skips_other_kinds_witness :
    before (envOf "[shape]\r\nsides = 4\r\nname = box".toList) shapeRecord
        "[shape]\r\nsides = 4\r\nname = box".toList (2 + 1) =
      before (envOf "[shape]\r\nsides = 4\r\nname = box".toList) shapeRecord
        "[shape]\r\nsides = 4\r\nname = box".toList 2 ∧
    loadIni (envOf "[shape]\r\nsides = 4\r\nname = box".toList) [] (.structPointer shapeRecord) =
      ⟨(scanLines (envOf "[shape]\r\nsides = 4\r\nname = box".toList) false 2
          ((linesOf "[shape]\r\nsides = 4\r\nname = box".toList).drop 2)
          (before (envOf "[shape]\r\nsides = 4\r\nname = box".toList) shapeRecord
            "[shape]\r\nsides = 4\r\nname = box".toList 2).2).1,
        .structPointer
          (scanLines (envOf "[shape]\r\nsides = 4\r\nname = box".toList) false 2
            ((linesOf "[shape]\r\nsides = 4\r\nname = box".toList).drop 2)
            (before (envOf "[shape]\r\nsides = 4\r\nname = box".toList) shapeRecord
              "[shape]\r\nsides = 4\r\nname = box".toList 2).2).2.target⟩ :=
  loadIni_skips_other_kinds (envOf "[shape]\r\nsides = 4\r\nname = box".toList) []
    "[shape]\r\nsides = 4\r\nname = box".toList shapeRecord 2 "sides = 4".toList
    ⟨"Shape".toList, "shape".toList, true, false, .Struct,
      [⟨"Sides".toList, "sides".toList, true, .Uint, .other⟩,
        ⟨"Name".toList, "name".toList, true, .String, .str []⟩], .other⟩
    ⟨"Sides".toList, "sides".toList, true, .Uint, .other⟩
    rfl (by decide) rfl rfl rfl rfl rfl rfl rfl

/-- C17, as stated, fails: `300` is a base-10 integer in the 64-bit range and
outside the 8-bit range, yet when the 8-bit field it is bound to is unexported
the call panics instead of storing 44. -/
theorem narrow_int_unexported_panics :
    ParseInt "300".toList = some 300 ∧ ¬ InIntRange 8 300 ∧
    loadIni (envOf "[limits]\r\nlevel = 300".toList) [] (.structPointer hiddenNarrowRecord) =
      ⟨.panic .notAssignable, .structPointer hiddenNarrowRecord⟩ := by
  refine ⟨by decide, ?_, by decide⟩
  unfold InIntRange
  decide

/-- C17, amended: for an assignment line whose key resolves, in the active
section, to a settable field of kind int8, int16 or int32 (width `w`; exported,
in a section field that is exported or embedded): when the value text is a
base-10 signed integer literal in the 64-bit range, the field is set to the
value wrapped modulo `2^w` into the signed range of `w` bits (the value itself
when it is in that range) and the scan goes on; every other value text, among
them the integers outside the 64-bit range, gets the error
"line:n value type error". -/
theorem loadIni_narrow_int (env : Env) (fileName content : Str)
    (target : Record) (n : Nat) (line : Str) (sec : Section) (leaf : Leaf) (w : Nat)
    (hread : env.readFile fileName = some content)
    (hn : 0 < n)
    (hline : (linesOf content).get? (n - 1) = some line)
    (hprev : (before env target content n).1 = .ok)
    (hassign : isAssignment line = true)
    (hsec : FieldByName (before env target content n).2.target
      (before env target content n).2.structName = some sec)
    (hstruct : sec.kind = Kind.Struct)
    (hkey : findKey sec.fields (keyOf line) = some leaf)
    (hname : leaf.name ≠ [])
    (hw : narrowBits leaf.kind = some w)
    (hobj : leafByName sec.fields leaf.name = some leaf)
    (hexp : (sec.exported = true ∨ sec.embedded = true) ∧ leaf.exported = true) :
    (IsInt64Literal (valueOf line) →
      before env target content (n + 1) =
        (.ok, ⟨(before env target content n).2.structName,
          writeLeaf (before env target content n).2.target
            (before env target content n).2.structName leaf.name
            (.int (wrapInt w (literalValue (valueOf line))))⟩) ∧
      leafValue (before env target content (n + 1)).2.target
          (before env target content n).2.structName leaf.name =
        some (.int (wrapInt w (literalValue (valueOf line)))) ∧
      InIntRange w (wrapInt w (literalValue (valueOf line))) ∧
      (∃ q : Int, wrapInt w (literalValue (valueOf line)) =
        literalValue (valueOf line) + q * ((2 ^ w : Nat) : Int)) ∧
      (InIntRange w (literalValue (valueOf line)) →
        wrapInt w (literalValue (valueOf line)) = literalValue (valueOf line))) ∧
    (¬ IsInt64Literal (valueOf line) →
      loadIni env fileName (.structPointer target) =
        ⟨.error (.valueTypeError n),
          .structPointer (before env target content n).2.target⟩) := by
  have hn1 : n - 1 + 1 = n := by omega
  have hint : isIntKind leaf.kind = true ∧ intBits env leaf.kind = some w ∧ 0 < w := by
    cases hk : leaf.kind <;> rw [hk] at hw <;>
      first
        | exact Option.noConfusion hw
        | (injection hw with hw; subst hw; exact ⟨rfl, rfl, by decide⟩)
  constructor
  · intro hv
    have hconv : convert env leaf.kind (valueOf line) =
        some (some (.int (literalValue (valueOf line)))) := by
      rw [convert_int env _ _ hint.1, ParseInt_of_literal _ hv]
      rfl
    have hset : setValue env false leaf (.int (literalValue (valueOf line))) =
        .ok (.int (wrapInt w (literalValue (valueOf line)))) := by
      simp [setValue, hint.2.1]
    have hro : ((!sec.exported && !sec.embedded) || !leaf.exported) = false := by
      rcases hexp with ⟨h1 | h1, h2⟩ <;> simp [h1, h2]
    have hstep := assign_write env (n - 1) (keyOf line) (valueOf line) _ sec leaf _ _
      hsec hstruct hkey hname hobj hro hconv hset
    have hb1 : before env target content (n + 1) =
        (.ok, ⟨(before env target content n).2.structName,
          writeLeaf (before env target content n).2.target
            (before env target content n).2.structName leaf.name
            (.int (wrapInt w (literalValue (valueOf line))))⟩) := by
      rw [before_succ env target content n line hn hline hprev,
        processLine_of_isAssignment env false (n - 1) line _ hassign, hstep]
    refine ⟨hb1, ?_, wrapInt_range w _, wrapInt_congruent w _,
      wrapInt_of_inRange w hint.2.2 _⟩
    rw [hb1]
    exact leafValue_writeLeaf _ _ _ _ sec leaf hsec hobj
  · intro hv
    have hconv : convert env leaf.kind (valueOf line) = some none := by
      rw [convert_int env _ _ hint.1, ParseInt_eq_none_of_not_literal _ hv]
      rfl
    rw [loadIni_at env fileName content target n line hread hn hline hprev,
      processLine_of_isAssignment env false (n - 1) line _ hassign,
      assign_value_type_error env (n - 1) _ _ _ sec leaf hsec hstruct hkey hname hconv, hn1]

theorem loadIni_narrow_int_witness :
    leafValue (before (envOf "[limits]\r\nlevel = 300".toList) narrowRecord
        "[limits]\r\nlevel = 300".toList (2 + 1)).2.target
      "Limits".toList "Level".toList = some (.int 44) :=
  ((loadIni_narrow_int (envOf "[limits]\r\nlevel = 300".toList) []
    "[limits]\r\nlevel = 300".toList narrowRecord 2 "level = 300".toList
    ⟨"Limits".toList, "limits".toList, true, false, .Struct,
      [⟨"Level".toList, "level".toList, true, .Int8, .int 0⟩], .other⟩
    ⟨"Level".toList, "level".toList, true, .Int8, .int 0⟩ 8
    rfl (by decide) rfl rfl rfl rfl rfl rfl (by decide) rfl rfl ⟨Or.inl rfl, rfl⟩).1
    ⟨[], "300".toList, rfl, Or.inl rfl, by decide, by decide, by decide⟩).2.1

/-! ## Key and value of an assignment line -/

theorem isAssignment_iff (line : Str) :
    isAssignment line = true ↔
      TrimSpace line ≠ [] ∧ HasPrefix (TrimSpace line) ";".toList = false ∧
      HasPrefix (TrimSpace line) "#".toList = false ∧
      HasPrefix (TrimSpace line) "[".toList = false ∧
      HasPrefix (TrimSpace line) "=".toList = false ∧ '=' ∈ TrimSpace line := by
  unfold isAssignment
  simp only [Bool.and_eq_true, Bool.not_eq_true', List.contains_iff_exists_mem_beq,
    List.isEmpty_eq_false, beq_iff_eq, exists_eq_right']
  constructor
  · rintro ⟨⟨⟨⟨⟨h0, h1⟩, h2⟩, h3⟩, h4⟩, h5⟩
    exact ⟨h0, h1, h2, h3, h4, by simpa using h5⟩
  · rintro ⟨h0, h1, h2, h3, h4, h5⟩
    exact ⟨⟨⟨⟨⟨h0, h1⟩, h2⟩, h3⟩, h4⟩, by simpa using h5⟩

theorem TrimSpace_ne_nil_of_head (c : Char) (rest : Str) (h : isSpace c = false) :
    TrimSpace (c :: rest) ≠ [] := by
  rw [TrimSpace_eq_rdropWhile]
  have h1 : (c :: rest).dropWhile isSpace = c :: rest := by
    simp [List.dropWhile, h]
  rw [h1]
  intro e
  have := List.rdropWhile_eq_nil_iff.mp e c (List.mem_cons_self _ _)
  rw [h] at this
  exact Bool.noConfusion this

theorem keyOf_ne_nil (line : Str) (h : isAssignment line = true) : keyOf line ≠ [] := by
  obtain ⟨h0, _, _, _, h4, h5⟩ := (isAssignment_iff line).mp h
  unfold keyOf
  cases ht : TrimSpace line with
  | nil => exact absurd ht h0
  | cons c rest =>
    have hsp := TrimSpace_head line c rest ht
    rw [ht] at h4
    have hc : c ≠ '=' := by
      intro e
      rw [e] at h4
      simp [HasPrefix] at h4
    have hidx : (c :: rest).indexOf '=' = rest.indexOf '=' + 1 := by
      rw [List.indexOf_cons_ne _ hc]
    rw [hidx, List.take_succ_cons]
    exact TrimSpace_ne_nil_of_head c _ hsp

theorem key_value_split (line : Str) (h : isAssignment line = true) :
    ∃ pre post, TrimSpace line = pre ++ '=' :: post ∧ '=' ∉ pre ∧
      keyOf line = TrimSpace pre ∧ valueOf line = TrimSpace post := by
  obtain ⟨_, _, _, _, _, h5⟩ := (isAssignment_iff line).mp h
  have hlt : (TrimSpace line).indexOf '=' < (TrimSpace line).length :=
    List.indexOf_lt_length.mpr h5
  refine ⟨(TrimSpace line).take ((TrimSpace line).indexOf '='),
    (TrimSpace line).drop ((TrimSpace line).indexOf '=' + 1), ?_, ?_, rfl, rfl⟩
  · have hget : (TrimSpace line)[(TrimSpace line).indexOf '='] = '=' :=
      List.indexOf_get hlt
    conv_lhs => rw [← List.take_append_drop ((TrimSpace line).indexOf '=') (TrimSpace line)]
    rw [List.drop_eq_getElem_cons hlt, hget]
  · intro hmem
    obtain ⟨i, hi, hget⟩ := List.getElem_of_mem hmem
    rw [List.getElem_take] at hget
    have hi2 : i < (TrimSpace line).indexOf '=' := by
      rw [List.length_take] at hi
      omega
    have hnot := List.not_of_lt_findIdx (show i < (TrimSpace line).findIdx (· == '=') from hi2)
    rw [hget] at hnot
    exact absurd hnot (by decide)
/-- C12, as stated, fails: the key `text` is bound to a text field, yet when
that field is unexported the call panics and the field keeps its content. -/
theorem text_unexported_panics :
    loadIni (envOf "[notes]\r\ntext = a = b".toList) [] (.structPointer hiddenTextRecord) =
      ⟨.panic .notAssignable, .structPointer hiddenTextRecord⟩ ∧
    leafValue hiddenTextRecord "Notes".toList "text".toList = some (.str []) := by
  decide

/-- C12, amended: for every assignment line `n` reached by the scan, the trimmed
line splits at its first `=` into `pre` and `post`, the key is `pre` trimmed and
the raw value is `post` trimmed (so the value may contain `=` and interior white
space); the key is not empty; the line is handled by the assignment branch with
that key and value; and when the key resolves, in the active section, to a
settable field of kind string (exported, in a section field that is exported or
embedded), the field is set to exactly the raw value and the scan goes on. -/
theorem loadIni_key_value (env : Env) (content : Str) (target : Record)
    (n : Nat) (line : Str)
    (hn : 0 < n)
    (hline : (linesOf content).get? (n - 1) = some line)
    (hprev : (before env target content n).1 = .ok)
    (hassign : isAssignment line = true) :
    (∃ pre post, TrimSpace line = pre ++ '=' :: post ∧ '=' ∉ pre ∧
      keyOf line = TrimSpace pre ∧ valueOf line = TrimSpace post) ∧
    keyOf line ≠ [] ∧
    processLine env false (n - 1) line (before env target content n).2 =
      assign env false (n - 1) (keyOf line) (valueOf line) (before env target content n).2 ∧
    ∀ sec leaf,
      FieldByName (before env target content n).2.target
        (before env target content n).2.structName = some sec →
      sec.kind = Kind.Struct →
      findKey sec.fields (keyOf line) = some leaf →
      leaf.name ≠ [] →
      leaf.kind = Kind.String →
      leafByName sec.fields leaf.name = some leaf →
      (sec.exported = true ∨ sec.embedded = true) ∧ leaf.exported = true →
      before env target content (n + 1) =
        (.ok, ⟨(before env target content n).2.structName,
          writeLeaf (before env target content n).2.target
            (before env target content n).2.structName leaf.name (.str (valueOf line))⟩) ∧
      leafValue (before env target content (n + 1)).2.target
        (before env target content n).2.structName leaf.name = some (.str (valueOf line)) := by
  refine ⟨key_value_split line hassign, keyOf_ne_nil line hassign,
    processLine_of_isAssignment env false (n - 1) line _ hassign, ?_⟩
  intro sec leaf hsec hstruct hkey hname hkind hobj hexp
  have hconv : convert env leaf.kind (valueOf line) = some (some (.str (valueOf line))) := by
    rw [hkind]
    rfl
  have hset : setValue env false leaf (.str (valueOf line)) = .ok (.str (valueOf line)) := by
    simp [setValue, hkind]
  have hro : ((!sec.exported && !sec.embedded) || !leaf.exported) = false := by
    rcases hexp with ⟨h1 | h1, h2⟩ <;> simp [h1, h2]
  have hstep := assign_write env (n - 1) (keyOf line) (valueOf line) _ sec leaf _ _
    hsec hstruct hkey hname hobj hro hconv hset
  have hb1 : before env target content (n + 1) =
      (.ok, ⟨(before env target content n).2.structName,
        writeLeaf (before env target content n).2.target
          (before env target content n).2.structName leaf.name (.str (valueOf line))⟩) := by
    rw [before_succ env target content n line hn hline hprev,
      processLine_of_isAssignment env false (n - 1) line _ hassign, hstep]
  refine ⟨hb1, ?_⟩
  rw [hb1]
  exact leafValue_writeLeaf _ _ _ _ sec leaf hsec hobj

theorem loadIni_key_value_witness :
    keyOf "  address =  a = b  ".toList = "address".toList ∧
    leafValue (before (envOf "[mysql]\r\n  address =  a = b  ".toList) Config
        "[mysql]\r\n  address =  a = b  ".toList (2 + 1)).2.target
      "MysqlConfig".toList "Address".toList = some (.str "a = b".toList) :=
  ⟨by decide,
    ((loadIni_key_value (envOf "[mysql]\r\n  address =  a = b  ".toList)
      "[mysql]\r\n  address =  a = b  ".toList Config 2 "  address =  a = b  ".toList
      (by decide) rfl rfl rfl).2.2.2
      ⟨"MysqlConfig".toList, "mysql".toList, true, true, .Struct, MysqlConfig, .other⟩
      (zeroLeaf "Address" "address" .String (.str []))
      rfl rfl rfl (by decide) rfl rfl ⟨Or.inl rfl, rfl⟩).2⟩

/-! ## What the loop preserves -/

theorem assign_state (env : Env) (isNil : Bool) (idx : Nat) (key value : Str) (st : State) :
    (assign env isNil idx key value st).state = st ∨
    ∃ fieldName y, (assign env isNil idx key value st).state =
      { st with target := writeLeaf st.target st.structName fieldName y } := by
  rcases assign_cases env isNil idx key value st with ⟨p, h, _⟩ | h | h | h | ⟨f, y, h⟩
  · exact Or.inl (by rw [h]; rfl)
  · exact Or.inl (by rw [h]; rfl)
  · exact Or.inl (by rw [h]; rfl)
  · exact Or.inl (by rw [h]; rfl)
  · exact Or.inr ⟨f, y, by rw [h]; rfl⟩

theorem applyKind_schema (env : Env) (idx : Nat) (k : LineKind) (st : State) :
    schemaOf (applyKind env idx k st).state.target = schemaOf st.target := by
  cases k with
  | skip => rfl
  | malformed => rfl
  | header name => rfl
  | assignment key value =>
    rcases assign_state env false idx key value st with h | ⟨f, y, h⟩
    · show schemaOf (assign env false idx key value st).state.target = _
      rw [h]
    · show schemaOf (assign env false idx key value st).state.target = _
      rw [h]
      exact schemaOf_writeLeaf _ _ _ _

theorem scanLines_schema (env : Env) (lines : List Str) (idx : Nat) (st : State) :
    schemaOf (scanLines env false idx lines st).2.target = schemaOf st.target := by
  induction lines generalizing idx st with
  | nil => rfl
  | cons l ls ih =>
    have hs := applyKind_schema env idx (classify l) st
    rw [← processLine_classify] at hs
    simp only [scanLines]
    cases hp : processLine env false idx l st with
    | next st1 =>
      rw [hp] at hs
      simp only
      rw [ih (idx + 1) st1]
      exact hs
    | fail e st1 =>
      rw [hp] at hs
      exact hs
    | panic q st1 =>
      rw [hp] at hs
      exact hs

theorem before_schema (env : Env) (target : Record) (content : Str) (n : Nat) :
    schemaOf (before env target content n).2.target = schemaOf target :=
  scanLines_schema env _ 0 ⟨[], target⟩

theorem scanLines_ok_of_append (env : Env) (isNil : Bool) (l1 l2 : List Str) (idx : Nat)
    (st : State) (h : (scanLines env isNil idx (l1 ++ l2) st).1 = .ok) :
    (scanLines env isNil idx l1 st).1 = .ok := by
  rw [scanLines_append] at h
  cases hs : scanLines env isNil idx l1 st with
  | mk o st1 =>
    rw [hs] at h
    cases o with
    | ok => rfl
    | error e => exact h
    | panic p => exact h

theorem before_ok_of_le (env : Env) (target : Record) (content : Str) (m n : Nat)
    (hmn : m ≤ n) (h : (before env target content n).1 = .ok) :
    (before env target content m).1 = .ok := by
  unfold before at h ⊢
  have e : (linesOf content).take (n - 1) =
      (linesOf content).take (m - 1) ++ ((linesOf content).take (n - 1)).drop (m - 1) := by
    conv_lhs => rw [← List.take_append_drop (m - 1) ((linesOf content).take (n - 1))]
    rw [List.take_take, Nat.min_eq_left (by omega)]
  rw [e] at h
  exact scanLines_ok_of_append env false _ _ 0 _ h

theorem get?_of_lt_of_get? {α : Type} (l : List α) (i j : Nat) (a : α) (hij : i ≤ j)
    (h : l.get? j = some a) : ∃ b, l.get? i = some b := by
  have hj : j < l.length := by
    rcases Nat.lt_or_ge j l.length with h1 | h1
    · exact h1
    · rw [List.get?_eq_none.mpr h1] at h
      exact absurd h (by simp)
  exact ⟨l[i], List.get?_eq_get (by omega)⟩

/-- What the assignment branch did when the loop goes on. -/
theorem assign_next (env : Env) (idx : Nat) (key value : Str) (st st1 : State)
    (h : assign env false idx key value st = .next st1) :
    st1 = st ∨
    ∃ sec ft obj x y, FieldByName st.target st.structName = some sec ∧
      sec.kind = Kind.Struct ∧ findKey sec.fields key = some ft ∧ ft.name ≠ [] ∧
      leafByName sec.fields ft.name = some obj ∧
      convert env ft.kind value = some (some x) ∧
      setValue env ((!sec.exported && !sec.embedded) || !obj.exported) obj x = .ok y ∧
      st1 = { st with target := writeLeaf st.target st.structName ft.name y } := by
  unfold assign at h
  simp only [Bool.false_eq_true, if_false] at h
  cases hsec : FieldByName st.target st.structName with
  | none =>
    rw [hsec] at h
    cases h
  | some sValue =>
    rw [hsec] at h
    simp only at h
    by_cases hk : sValue.kind = Kind.Struct
    · rw [if_neg (not_not.mpr hk)] at h
      cases hkey : findKey sValue.fields key with
      | none =>
        rw [hkey] at h
        injection h with h
        exact Or.inl h.symm
      | some fileType =>
        rw [hkey] at h
        simp only at h
        by_cases hn : fileType.name.length = 0
        · rw [if_pos hn] at h
          injection h with h
          exact Or.inl h.symm
        · rw [if_neg hn] at h
          cases hc : convert env fileType.kind value with
          | none =>
            rw [hc] at h
            injection h with h
            exact Or.inl h.symm
          | some c =>
            cases c with
            | none =>
              rw [hc] at h
              cases h
            | some x =>
              rw [hc] at h
              simp only at h
              cases ho : leafByName sValue.fields fileType.name with
              | none =>
                rw [ho] at h
                cases h
              | some obj =>
                rw [ho] at h
                simp only at h
                cases hset : setValue env
                    ((!sValue.exported && !sValue.embedded) || !obj.exported) obj x with
                | error p =>
                  rw [hset] at h
                  cases h
                | ok y =>
                  rw [hset] at h
                  injection h with h
                  refine Or.inr ⟨sValue, fileType, obj, x, y, rfl, hk, hkey, ?_, ho, hc, hset,
                    h.symm⟩
                  intro e
                  exact hn (by rw [e]; rfl)
    · rw [if_pos hk] at h
      cases h

/-! ## The active section across header lines -/

theorem findSection_resolves (r : Record) (name cur : Str) (S : Section)
    (h : (schemaOf r).find? (fun f => name == f.ini) = some S) :
    findSection r name cur = S.name := by
  rw [← findSection_schemaOf]
  unfold findSection
  rw [h]

theorem applyKind_structName (env : Env) (idx : Nat) (k : LineKind) (st : State)
    (h : ∀ nm, k = .header nm → ∀ s ∈ schemaOf st.target, s.ini ≠ nm) :
    (applyKind env idx k st).state.structName = st.structName := by
  cases k with
  | skip => rfl
  | malformed => rfl
  | header name =>
    show findSection st.target name st.structName = st.structName
    rw [← findSection_schemaOf]
    exact findSection_unknown _ _ _ (h name rfl)
  | assignment key value =>
    rcases assign_state env false idx key value st with h1 | ⟨f, y, h1⟩
    · show (assign env false idx key value st).state.structName = _
      rw [h1]
    · show (assign env false idx key value st).state.structName = _
      rw [h1]

theorem before_succ_state (env : Env) (target : Record) (content : Str) (n : Nat) (line : Str)
    (hn : 0 < n)
    (hline : (linesOf content).get? (n - 1) = some line)
    (hprev : (before env target content n).1 = .ok) :
    (before env target content (n + 1)).2 =
      (applyKind env (n - 1) (classify line) (before env target content n).2).state := by
  rw [before_succ env target content n line hn hline hprev, ← processLine_classify]
  cases processLine env false (n - 1) line (before env target content n).2 <;> rfl

theorem before_structName_kept (env : Env) (target : Record) (content : Str) (n1 n : Nat)
    (sn : Str) (h1 : 0 < n1) (h12 : n1 < n)
    (hstart : (before env target content (n1 + 1)).2.structName = sn)
    (hbetween : ∀ m l, n1 < m → m < n → (linesOf content).get? (m - 1) = some l →
      ∀ nm, classify l = .header nm → ∀ s ∈ schemaOf target, s.ini ≠ nm)
    (hlast : ∃ l, (linesOf content).get? (n - 1) = some l)
    (hprev : (before env target content n).1 = .ok) :
    (before env target content n).2.structName = sn := by
  induction n with
  | zero => omega
  | succ k ih =>
    by_cases hk : k = n1
    · rw [hk]
      exact hstart
    · have hlt : n1 < k := by omega
      obtain ⟨l0, hl0⟩ := hlast
      obtain ⟨l, hl⟩ := get?_of_lt_of_get? (linesOf content) (k - 1) (k + 1 - 1) l0
        (by omega) hl0
      have hpk := before_ok_of_le env target content k (k + 1) (by omega) hprev
      have hk1 := ih hlt (fun m l hm1 hm2 => hbetween m l hm1 (by omega)) ⟨l, hl⟩ hpk
      rw [before_succ_state env target content k l (by omega) hl hpk,
        applyKind_structName env (k - 1) (classify l) _ ?_]
      · exact hk1
      · intro nm hc
        rw [before_schema]
        exact hbetween k l hlt (by omega) hl nm hc

/-- C11, as stated, fails: after `[mysql]` and the unknown header `[nosuch]`
the key `port` is found in the nested struct of `MysqlConfig`, yet the value
`abc` is not written: the call returns a value type error. -/
theorem unknown_header_then_bad_value :
    loadIni (envOf "[mysql]\r\n[nosuch]\r\nport = abc".toList) [] (.structPointer Config) =
      ⟨.error (.valueTypeError 3), .structPointer Config⟩ ∧
    findKey MysqlConfig (keyOf "port = abc".toList) =
      some (zeroLeaf "Port" "port" .Int (.int 0)) := by
  decide

/-- C11, amended: when line `n1` is a header whose name resolves to the section
field `S`, every header between line `n1` and the assignment line `n` names no
declared section, and the scan reaches line `n`, then the active section at
line `n` is `S`: the line is handled by the assignment branch against `S`, and
when its key resolves in the nested struct of `S` to a settable field for whose
kind the value text converts, the converted value is written into that field
of `S` and the scan goes on. -/
theorem loadIni_unknown_header_keeps_section (env : Env) (content : Str) (target : Record)
    (n1 n : Nat) (header name line : Str) (S : Section)
    (h1 : 0 < n1) (h12 : n1 < n)
    (hheader : (linesOf content).get? (n1 - 1) = some header)
    (hclass : classify header = .header name)
    (hres : (schemaOf target).find? (fun f => name == f.ini) = some S)
    (hbetween : ∀ m l, n1 < m → m < n → (linesOf content).get? (m - 1) = some l →
      ∀ nm, classify l = .header nm → ∀ s ∈ schemaOf target, s.ini ≠ nm)
    (hline : (linesOf content).get? (n - 1) = some line)
    (hassign : isAssignment line = true)
    (hprev : (before env target content n).1 = .ok) :
    (before env target content n).2.structName = S.name ∧
    processLine env false (n - 1) line (before env target content n).2 =
      assign env false (n - 1) (keyOf line) (valueOf line)
        ⟨S.name, (before env target content n).2.target⟩ ∧
    ∀ sec leaf x y,
      FieldByName (before env target content n).2.target S.name = some sec →
      sec.kind = Kind.Struct →
      findKey sec.fields (keyOf line) = some leaf →
      leaf.name ≠ [] →
      leafByName sec.fields leaf.name = some leaf →
      (sec.exported = true ∨ sec.embedded = true) ∧ leaf.exported = true →
      convert env leaf.kind (valueOf line) = some (some x) →
      setValue env false leaf x = .ok y →
      before env target content (n + 1) =
        (.ok, ⟨S.name, writeLeaf (before env target content n).2.target S.name leaf.name y⟩) ∧
      leafValue (before env target content (n + 1)).2.target S.name leaf.name = some y := by
  have hp1 := before_ok_of_le env target content n1 n (by omega) hprev
  have hstart : (before env target content (n1 + 1)).2.structName = S.name := by
    rw [before_succ_state env target content n1 header h1 hheader hp1, hclass]
    show findSection _ name _ = S.name
    apply findSection_resolves
    rw [before_schema]
    exact hres
  have hsn := before_structName_kept env target content n1 n S.name h1 h12 hstart hbetween
    ⟨line, hline⟩ hprev
  have hst : (before env target content n).2 =
      ⟨S.name, (before env target content n).2.target⟩ := by
    rw [← hsn]
  have hproc := processLine_of_isAssignment env false (n - 1) line
    (before env target content n).2 hassign
  refine ⟨hsn, ?_, ?_⟩
  · rw [hproc]
    congr 1
  · intro sec leaf x y hsec hstruct hkey hname hobj hexp hconv hset
    have hro : ((!sec.exported && !sec.embedded) || !leaf.exported) = false := by
      rcases hexp with ⟨h1 | h1, h2⟩ <;> simp [h1, h2]
    have hstep := assign_write env (n - 1) (keyOf line) (valueOf line)
      ⟨S.name, (before env target content n).2.target⟩ sec leaf x y
      hsec hstruct hkey hname hobj hro hconv hset
    have hb1 : before env target content (n + 1) =
        (.ok, ⟨S.name,
          writeLeaf (before env target content n).2.target S.name leaf.name y⟩) := by
      rw [before_succ env target content n line (by omega) hline hprev, hproc, hst, hstep]
    refine ⟨hb1, ?_⟩
    rw [hb1]
    exact leafValue_writeLeaf _ _ _ _ sec leaf hsec hobj
theorem loadIni_unknown_header_keeps_section_witness :
    (before (envOf "[mysql]\r\n[nosuch]\r\nport = 7".toList) Config
      "[mysql]\r\n[nosuch]\r\nport = 7".toList 3).2.structName = "MysqlConfig".toList ∧
    leafValue (before (envOf "[mysql]\r\n[nosuch]\r\nport = 7".toList) Config
        "[mysql]\r\n[nosuch]\r\nport = 7".toList (3 + 1)).2.target
      "MysqlConfig".toList "Port".toList = some (.int 7) ∧
    loadIni (envOf "[mysql]\r\n[nosuch]\r\nport = 7".toList) [] (.structPointer Config) =
      ⟨.ok, .structPointer (configWith "" 7 "" 0 0 false)⟩ :=
  have h := loadIni_unknown_header_keeps_section
    (envOf "[mysql]\r\n[nosuch]\r\nport = 7".toList)
    "[mysql]\r\n[nosuch]\r\nport = 7".toList Config 1 3 "[mysql]".toList "mysql".toList
    "port = 7".toList
    ⟨"MysqlConfig".toList, "mysql".toList, true, true, .Struct,
      MysqlConfig.map Leaf.erase, .other⟩
    (by decide) (by decide) rfl rfl rfl
    (fun m l hm1 hm2 hl nm hc s hs => by
      have hm : m = 2 := by omega
      subst hm
      obtain rfl : "[nosuch]".toList = l :=
        Option.some.inj (show some "[nosuch]".toList = some l from hl)
      obtain rfl : "nosuch".toList = nm :=
        LineKind.header.inj (show LineKind.header "nosuch".toList = .header nm from hc)
      revert s
      decide)
    rfl rfl rfl
  ⟨h.1, (h.2.2
      ⟨"MysqlConfig".toList, "mysql".toList, true, true, .Struct, MysqlConfig, .other⟩
      (zeroLeaf "Port" "port" .Int (.int 0)) (.int 7) (.int 7)
      rfl rfl rfl (by decide) rfl ⟨Or.inl rfl, rfl⟩ rfl rfl).2, by decide⟩

/-! ## Lines and line numbers -/

theorem joinCRLF_splitCRLF_aux (m : Nat) :
    ∀ s : Str, s.length = m → joinCRLF (splitCRLF s) = s := by
  induction m using Nat.strong_induction_on with
  | _ m ih =>
    intro s hlen
    by_cases h : hasCRLF s = true
    · obtain ⟨a, b, hab, ha⟩ := hasCRLF_decompose s h
      have hb : b.length < m := by
        rw [← hlen, hab]
        simp
        omega
      have ihb := ih b.length hb b rfl
      rw [hab, splitCRLF_append_crlf a b ha]
      cases hs : splitCRLF b with
      | nil => exact absurd hs (splitCRLF_ne_nil b)
      | cons l ls =>
        rw [hs] at ihb
        show a ++ '\r' :: '\n' :: joinCRLF (l :: ls) = _
        rw [ihb]
    · have h1 : hasCRLF s = false := by simpa using h
      rw [splitCRLF_of_not_hasCRLF s h1]
      rfl

theorem joinCRLF_splitCRLF (s : Str) : joinCRLF (splitCRLF s) = s :=
  joinCRLF_splitCRLF_aux s.length s rfl

theorem loadIni_error_at (env : Env) (fileName content : Str) (target : Record)
    (e : LoadError) (hread : env.readFile fileName = some content)
    (herr : (loadIni env fileName (.structPointer target)).outcome = .error e) :
    ∃ n line, 0 < n ∧ (linesOf content).get? (n - 1) = some line ∧
      (before env target content n).1 = .ok ∧
      processLine env false (n - 1) line (before env target content n).2 =
        .fail e (before env target content n).2 ∧
      (loadIni env fileName (.structPointer target)).data =
        .structPointer (before env target content n).2.target ∧
      (e = .syntaxError n ∨ e = .valueTypeError n ∨
        e = .notStruct (before env target content n).2.structName) := by
  rw [loadIni_structPointer env fileName content target hread] at herr ⊢
  simp only at herr ⊢
  cases hs : scanLines env false 0 (splitCRLF content) ⟨[], target⟩ with
  | mk o st1 =>
    rw [hs] at herr
    simp only at herr ⊢
    subst herr
    obtain ⟨k, line, st0, hk, hscan, hstep⟩ := scanLines_error env false _ 0 _ _ e hs
    rw [Nat.zero_add] at hstep
    have hfs := processLine_fail_state env false k line st0 st1 e hstep
    have hb : before env target content (k + 1) = (.ok, st0) := by
      unfold before linesOf
      rw [Nat.add_sub_cancel]
      exact hscan
    refine ⟨k + 1, line, by omega, ?_, ?_, ?_, ?_, ?_⟩
    · rw [Nat.add_sub_cancel]
      exact hk
    · rw [hb]
    · rw [hb, Nat.add_sub_cancel, hstep, hfs.1]
    · rw [hb, hfs.1]
    · rw [hb]
      exact hfs.2

/-- C14: `loadIni` scans the lines `linesOf content`, counted from 1.  These are
the content split at every carriage return + line feed: joined with that
separator they give back the content, none of them contains the separator, and
they are the only such sequence; so a content without the separator, whatever
lone `\n` or `\r` it holds, is a single line.  An error is raised by the line
at the 1-based position it names in that sequence, after the lines before it,
blank and comment lines included, have been scanned without a stop. -/
theorem loadIni_line_sequence (env : Env) (fileName content : Str) (target : Record)
    (hread : env.readFile fileName = some content) :
    loadIni env fileName (.structPointer target) =
      ⟨(scanLines env false 0 (linesOf content) ⟨[], target⟩).1,
        .structPointer (scanLines env false 0 (linesOf content) ⟨[], target⟩).2.target⟩ ∧
    joinCRLF (linesOf content) = content ∧
    (∀ l ∈ linesOf content, hasCRLF l = false) ∧
    (∀ ls : List Str, ls ≠ [] → (∀ l ∈ ls, hasCRLF l = false) → joinCRLF ls = content →
      linesOf content = ls) ∧
    (hasCRLF content = false → linesOf content = [content]) ∧
    ∀ e, (loadIni env fileName (.structPointer target)).outcome = .error e →
      ∃ n line, 0 < n ∧ (linesOf content).get? (n - 1) = some line ∧
        (before env target content n).1 = .ok ∧
        processLine env false (n - 1) line (before env target content n).2 =
          .fail e (before env target content n).2 ∧
        (e = .syntaxError n ∧
            e.message = "line:".toList ++ (Nat.repr n).toList ++ " syntax error".toList ∨
          e = .valueTypeError n ∧
            e.message = "line:".toList ++ (Nat.repr n).toList ++ " value type error".toList ∨
          e = .notStruct (before env target content n).2.structName) := by
  refine ⟨loadIni_structPointer env fileName content target hread,
    joinCRLF_splitCRLF content, splitCRLF_segments content, ?_,
    splitCRLF_of_not_hasCRLF content, ?_⟩
  · intro ls hne hall hjoin
    rw [← hjoin]
    exact splitCRLF_joinCRLF ls hne hall
  · intro e herr
    obtain ⟨n, line, hn, hline, hprev, hstep, _, he⟩ :=
      loadIni_error_at env fileName content target e hread herr
    refine ⟨n, line, hn, hline, hprev, hstep, ?_⟩
    rcases he with he | he | he
    · exact Or.inl ⟨he, by rw [he]; rfl⟩
    · exact Or.inr (Or.inl ⟨he, by rw [he]; rfl⟩)
    · exact Or.inr (Or.inr he)

theorem loadIni_line_sequence_witness :
    linesOf "[mysql]\naddress = x".toList = ["[mysql]\naddress = x".toList] ∧
    loadIni (envOf "[mysql]\naddress = x".toList) [] (.structPointer Config) =
      ⟨.error (.syntaxError 1), .structPointer Config⟩ ∧
    (LoadError.syntaxError 1).message = "line:1 syntax error".toList :=
  ⟨(loadIni_line_sequence (envOf "[mysql]\naddress = x".toList) []
      "[mysql]\naddress = x".toList Config rfl).2.2.2.2.1 (by decide),
    by decide, by decide⟩

/-! ## Inserting a blank or comment line -/

theorem dropWhile_isSpace_append (ws : Str) (c : Char) (rest : Str)
    (hws : ∀ x ∈ ws, isSpace x = true) (hc : isSpace c = false) :
    (ws ++ c :: rest).dropWhile isSpace = c :: rest := by
  induction ws with
  | nil => simp [List.dropWhile, hc]
  | cons w ws ih =>
    have hw : isSpace w = true := hws w (List.mem_cons_self _ _)
    simp only [List.cons_append, List.dropWhile, hw]
    exact ih (fun x hx => hws x (List.mem_cons_of_mem _ hx))

theorem classify_of_isSkipLine (s : Str) (h : IsSkipLine s) : classify s = .skip := by
  unfold classify
  simp only
  rcases h with h | ⟨ws, c, rest, hs, hws, hc⟩
  · rw [if_pos (TrimSpace_eq_nil_of_all s h)]
  · have hsp : isSpace c = false := by
      rcases hc with hc | hc <;> rw [hc] <;> decide
    have hd : s.dropWhile isSpace = c :: rest := by
      rw [hs]
      exact dropWhile_isSpace_append ws c rest hws hsp
    have hne : TrimSpace s ≠ [] := by
      rw [TrimSpace_eq_rdropWhile, hd]
      intro e
      have := List.rdropWhile_eq_nil_iff.mp e c (List.mem_cons_self _ _)
      rw [hsp] at this
      exact Bool.noConfusion this
    have hhead : (TrimSpace s).head? = some c := by
      have hpre : TrimSpace s <+: c :: rest := by
        rw [TrimSpace_eq_rdropWhile, hd]
        exact List.rdropWhile_prefix isSpace _
      cases ht : TrimSpace s with
      | nil => exact absurd ht hne
      | cons d t =>
        rw [ht] at hpre
        obtain ⟨u, hu⟩ := hpre
        injection hu with h1 h2
        rw [h1]
        rfl
    rw [if_neg hne, hhead]
    rcases hc with hc | hc
    · rw [if_pos (Or.inl (by rw [hc]))]
    · rw [if_pos (Or.inr (by rw [hc]))]

theorem assign_succ_idx (env : Env) (idx : Nat) (key value : Str) (st : State) :
    assign env false (idx + 1) key value st =
      match assign env false idx key value st with
      | .fail (.valueTypeError n) st1 => .fail (.valueTypeError (n + 1)) st1
      | r => r := by
  unfold assign
  simp only [Bool.false_eq_true, if_false]
  cases FieldByName st.target st.structName with
  | none => rfl
  | some sValue =>
    simp only
    by_cases hk : sValue.kind = Kind.Struct
    · rw [if_neg (not_not.mpr hk), if_neg (not_not.mpr hk)]
      cases findKey sValue.fields key with
      | none => rfl
      | some fileType =>
        simp only
        by_cases hn : fileType.name.length = 0
        · rw [if_pos hn, if_pos hn]
        · rw [if_neg hn, if_neg hn]
          cases convert env fileType.kind value with
          | none => rfl
          | some c =>
            cases c with
            | none => rfl
            | some x =>
              simp only
              cases leafByName sValue.fields fileType.name with
              | none => rfl
              | some obj =>
                simp only
                cases setValue env
                    ((!sValue.exported && !sValue.embedded) || !obj.exported) obj x <;> rfl
    · rw [if_pos hk, if_pos hk]

theorem assign_fail_cases (env : Env) (idx : Nat) (key value : Str) (st st1 : State)
    (e : LoadError) (h : assign env false idx key value st = .fail e st1) :
    e = .valueTypeError (idx + 1) ∨ e = .notStruct st.structName := by
  rcases assign_cases env false idx key value st with ⟨p, h1, _⟩ | h1 | h1 | h1 | ⟨f, y, h1⟩ <;>
    rw [h1] at h
  · cases h
  · injection h with h2 h3
    exact Or.inr h2.symm
  · injection h with h2 h3
    exact Or.inl h2.symm
  · cases h
  · cases h

theorem applyKind_shift (env : Env) (idx k : Nat) (kind : LineKind) (st : State)
    (hk : k ≤ idx) :
    applyKind env (idx + 1) kind st =
      match applyKind env idx kind st with
      | .fail e st1 => .fail (e.shift k) st1
      | r => r := by
  cases kind with
  | skip => rfl
  | malformed =>
    show Step.fail (.syntaxError (idx + 1 + 1)) st =
      .fail (.syntaxError (if k < idx + 1 then idx + 1 + 1 else idx + 1)) st
    rw [if_pos (by omega)]
  | header name => rfl
  | assignment key value =>
    show assign env false (idx + 1) key value st =
      match assign env false idx key value st with
      | .fail e st1 => .fail (e.shift k) st1
      | r => r
    rw [assign_succ_idx]
    cases ha : assign env false idx key value st with
    | next st1 => rfl
    | panic p st1 => rfl
    | fail e st1 =>
      rcases assign_fail_cases env idx key value st st1 e ha with he | he
      · rw [he]
        show Step.fail (.valueTypeError (idx + 1 + 1)) st1 =
          .fail (.valueTypeError (if k < idx + 1 then idx + 1 + 1 else idx + 1)) st1
        rw [if_pos (by omega)]
      · rw [he]
        rfl
theorem scanLines_shift (env : Env) (lines : List Str) (idx k : Nat) (st : State)
    (hk : k ≤ idx) :
    scanLines env false (idx + 1) lines st =
      ((scanLines env false idx lines st).1.shift k, (scanLines env false idx lines st).2) := by
  induction lines generalizing idx st with
  | nil => rfl
  | cons l ls ih =>
    simp only [scanLines]
    rw [processLine_classify, processLine_classify, applyKind_shift env idx k _ st hk]
    cases applyKind env idx (classify l) st with
    | next st1 => exact ih (idx + 1) st1 (by omega)
    | fail e st1 => rfl
    | panic p st1 => rfl

theorem scanLines_no_shift (env : Env) (lines : List Str) (idx k : Nat) (st : State)
    (h : idx + lines.length ≤ k) :
    (scanLines env false idx lines st).1.shift k = (scanLines env false idx lines st).1 := by
  induction lines generalizing idx st with
  | nil => rfl
  | cons l ls ih =>
    simp only [scanLines]
    simp only [List.length_cons] at h
    cases hp : processLine env false idx l st with
    | next st1 => exact ih (idx + 1) st1 (by omega)
    | panic p st1 => rfl
    | fail e st1 =>
      rcases (processLine_fail_state env false idx l st st1 e hp).2 with he | he | he <;>
        rw [he]
      · show Outcome.error (.syntaxError (if k < idx + 1 then idx + 1 + 1 else idx + 1)) = _
        rw [if_neg (by omega)]
      · show Outcome.error (.valueTypeError (if k < idx + 1 then idx + 1 + 1 else idx + 1)) = _
        rw [if_neg (by omega)]
      · rfl

theorem scanLines_insert_skip (env : Env) (lines : List Str) (k : Nat) (s : Str) (st : State)
    (hskip : IsSkipLine s) :
    scanLines env false 0 (lines.take k ++ s :: lines.drop k) st =
      ((scanLines env false 0 lines st).1.shift k, (scanLines env false 0 lines st).2) := by
  have hs : ∀ idx st1, processLine env false idx s st1 = .next st1 := by
    intro idx st1
    rw [processLine_classify, classify_of_isSkipLine s hskip]
    rfl
  have hno := scanLines_no_shift env (lines.take k) 0 k st
    (by rw [List.length_take]; omega)
  conv_rhs => rw [← List.take_append_drop k lines]
  rw [scanLines_append, scanLines_append]
  cases hA : scanLines env false 0 (lines.take k) st with
  | mk o st1 =>
    rw [hA] at hno
    cases o with
    | ok =>
      simp only [scanLines, hs]
      by_cases hkl : k ≤ lines.length
      · have hlen : (lines.take k).length = k := by
          rw [List.length_take]
          omega
        rw [hlen, Nat.zero_add]
        exact scanLines_shift env _ k k st1 (Nat.le_refl k)
      · rw [List.drop_eq_nil_of_le (by omega)]
        rfl
    | error e =>
      simp only at hno ⊢
      rw [hno]
    | panic p => rfl

/-- C15: a file whose lines are those of `content` with a blank or comment line
`s` inserted after the first `k` of them leaves the same record as `content`,
and the same outcome, except that an error on a line after the first `k` names
a line number one higher. -/
theorem loadIni_insert_skip_line (env : Env) (fileName fileName1 content content1 : Str)
    (target : Record) (k : Nat) (s : Str)
    (hread : env.readFile fileName = some content)
    (hread1 : env.readFile fileName1 = some content1)
    (hskip : IsSkipLine s)
    (hlines : linesOf content1 = (linesOf content).take k ++ s :: (linesOf content).drop k) :
    (loadIni env fileName1 (.structPointer target)).data =
      (loadIni env fileName (.structPointer target)).data ∧
    (loadIni env fileName1 (.structPointer target)).outcome =
      (loadIni env fileName (.structPointer target)).outcome.shift k := by
  rw [loadIni_structPointer env fileName content target hread,
    loadIni_structPointer env fileName1 content1 target hread1]
  unfold linesOf at hlines
  rw [hlines, scanLines_insert_skip env (splitCRLF content) k s _ hskip]
  exact ⟨rfl, rfl⟩

theorem loadIni_insert_skip_line_witness :
    (loadIni (envOfFiles "[mysql]\r\nport = x".toList "[mysql]\r\n ; note\r\nport = x".toList)
        "b".toList (.structPointer Config)).data =
      (loadIni (envOfFiles "[mysql]\r\nport = x".toList "[mysql]\r\n ; note\r\nport = x".toList)
        [] (.structPointer Config)).data ∧
    (loadIni (envOfFiles "[mysql]\r\nport = x".toList "[mysql]\r\n ; note\r\nport = x".toList)
        "b".toList (.structPointer Config)).outcome = .error (.valueTypeError 3) ∧
    (loadIni (envOfFiles "[mysql]\r\nport = x".toList "[mysql]\r\n ; note\r\nport = x".toList)
        [] (.structPointer Config)).outcome = .error (.valueTypeError 2) :=
  have h := loadIni_insert_skip_line
    (envOfFiles "[mysql]\r\nport = x".toList "[mysql]\r\n ; note\r\nport = x".toList)
    [] "b".toList "[mysql]\r\nport = x".toList "[mysql]\r\n ; note\r\nport = x".toList
    Config 1 " ; note".toList rfl rfl
    (Or.inr ⟨" ".toList, ';', " note".toList, rfl, by decide, Or.inl rfl⟩) rfl
  ⟨h.1, h.2, by decide⟩

/-! ## Which fields a line can write -/

theorem leafByName_erase (fs : List Leaf) (ln : Str) :
    leafByName (fs.map Leaf.erase) ln = (leafByName fs ln).map Leaf.erase := by
  unfold leafByName
  split
  · rfl
  · rw [List.find?_map]
    rfl

theorem assign_state_detail (env : Env) (idx : Nat) (key value : Str) (st : State) :
    (assign env false idx key value st).state = st ∨
    ∃ sec ft y, FieldByName st.target st.structName = some sec ∧
      findKey sec.fields key = some ft ∧
      (assign env false idx key value st).state =
        { st with target := writeLeaf st.target st.structName ft.name y } := by
  rcases assign_cases env false idx key value st with ⟨p, h, _⟩ | h | h | h | ⟨f, y, h⟩
  · exact Or.inl (by rw [h]; rfl)
  · exact Or.inl (by rw [h]; rfl)
  · exact Or.inl (by rw [h]; rfl)
  · exact Or.inl (by rw [h]; rfl)
  · rcases assign_next env idx key value st _ h with h1 | ⟨sec, ft, obj, x, y1, hsec, _, hkey, _,
      _, _, _, h1⟩
    · refine Or.inl ?_
      rw [h]
      exact h1
    · refine Or.inr ⟨sec, ft, y1, hsec, hkey, ?_⟩
      rw [h]
      exact h1

theorem classify_assignment (line key value : Str)
    (hc : classify line = .assignment key value) :
    isAssignment line = true ∧ key = keyOf line ∧ value = valueOf line := by
  unfold classify at hc
  simp only at hc
  split at hc
  · cases hc
  · split at hc
    · cases hc
    · split at hc
      · split at hc
        · split at hc <;> cases hc
        · cases hc
      · split at hc
        · rename_i ha
          injection hc with h1 h2
          exact ⟨ha, h1.symm, h2.symm⟩
        · cases hc

theorem classify_header_ne_nil (line name : Str) (hc : classify line = .header name) :
    name ≠ [] := by
  unfold classify at hc
  simp only at hc
  split at hc
  · cases hc
  · split at hc
    · cases hc
    · split at hc
      · split at hc
        · split at hc
          · cases hc
          · rename_i hne
            injection hc with h1
            rw [← h1]
            exact hne
        · cases hc
      · split at hc <;> cases hc

theorem applyKind_frame (env : Env) (idx : Nat) (line : Str) (st : State) (sn ln : Str)
    (h : ¬ WritesSlot st line sn ln) :
    leafValue (applyKind env idx (classify line) st).state.target sn ln =
      leafValue st.target sn ln := by
  cases hc : classify line with
  | skip => rfl
  | malformed => rfl
  | header name => rfl
  | assignment key value =>
    have hassign := classify_assignment line key value hc
    show leafValue (assign env false idx key value st).state.target sn ln = _
    rcases assign_state_detail env idx key value st with h1 | ⟨sec, ft, y, hsec, hkey, h1⟩
    · rw [h1]
    · rw [h1]
      apply leafValue_writeLeaf_other
      by_contra hcon
      simp only [not_or, not_not] at hcon
      apply h
      refine ⟨hassign.1, hcon.1.symm, sec, ft, ?_, ?_, hcon.2.symm⟩
      · rw [hcon.1]
        exact hsec
      · rw [← hassign.2.1]
        exact hkey

theorem scanLines_frame (env : Env) (lines : List Str) (idx : Nat) (st : State) (sn ln : Str)
    (h : ∀ j line stj, lines.get? j = some line →
      scanLines env false idx (lines.take j) st = (.ok, stj) → ¬ WritesSlot stj line sn ln) :
    leafValue (scanLines env false idx lines st).2.target sn ln =
      leafValue st.target sn ln := by
  induction lines generalizing idx st with
  | nil => rfl
  | cons l ls ih =>
    have h0 := applyKind_frame env idx l st sn ln (h 0 l st rfl rfl)
    rw [← processLine_classify] at h0
    simp only [scanLines]
    cases hp : processLine env false idx l st with
    | next st1 =>
      rw [hp] at h0
      simp only
      rw [ih (idx + 1) st1 ?_]
      · exact h0
      · intro j line stj hj hscan
        apply h (j + 1) line stj
        · simpa using hj
        · simp only [List.take_succ_cons, scanLines, hp]
          exact hscan
    | fail e st1 =>
      rw [hp] at h0
      exact h0
    | panic q st1 =>
      rw [hp] at h0
      exact h0
theorem applyKind_active (env : Env) (idx : Nat) (line : Str) (st : State)
    (h : ActiveDeclared (schemaOf st.target) st.structName) :
    ActiveDeclared (schemaOf st.target)
      (applyKind env idx (classify line) st).state.structName := by
  cases hc : classify line with
  | skip => exact h
  | malformed => exact h
  | header name =>
    have hne := classify_header_ne_nil line name hc
    show ActiveDeclared _ (findSection st.target name st.structName)
    unfold findSection
    cases hf : st.target.find? (fun f => name == f.ini) with
    | none => exact h
    | some f =>
      have hmem := List.mem_of_find?_eq_some hf
      have hini := List.find?_some hf
      simp only [beq_iff_eq] at hini
      refine Or.inr ⟨f.erase, List.mem_map_of_mem _ hmem, rfl, ?_⟩
      show f.ini ≠ []
      rw [← hini]
      exact hne
  | assignment key value =>
    show ActiveDeclared _ (assign env false idx key value st).state.structName
    rcases assign_state env false idx key value st with h1 | ⟨f, y, h1⟩
    · rw [h1]
      exact h
    · rw [h1]
      exact h

theorem scanLines_active (env : Env) (lines : List Str) (idx : Nat) (st : State)
    (h : ActiveDeclared (schemaOf st.target) st.structName) :
    ActiveDeclared (schemaOf st.target) (scanLines env false idx lines st).2.structName := by
  induction lines generalizing idx st with
  | nil => exact h
  | cons l ls ih =>
    have ha := applyKind_active env idx l st h
    have hs := applyKind_schema env idx (classify l) st
    rw [← processLine_classify] at ha hs
    simp only [scanLines]
    cases hp : processLine env false idx l st with
    | next st1 =>
      rw [hp] at ha hs
      have hs1 : schemaOf st1.target = schemaOf st.target := hs
      simp only
      have := ih (idx + 1) st1 (by rw [hs1]; exact ha)
      rw [hs1] at this
      exact this
    | fail e st1 =>
      rw [hp] at ha
      exact ha
    | panic q st1 =>
      rw [hp] at ha
      exact ha

theorem FieldByName_some (r : Record) (sn : Str) (sec : Section)
    (h : FieldByName r sn = some sec) : sec ∈ r ∧ sec.name = sn ∧ sn ≠ [] := by
  unfold FieldByName at h
  split at h
  · cases h
  · rename_i hne
    have h1 := List.find?_some h
    simp only [beq_iff_eq] at h1
    exact ⟨List.mem_of_find?_eq_some h, h1, hne⟩

theorem leafByName_some (fs : List Leaf) (ln : Str) (leaf : Leaf)
    (h : leafByName fs ln = some leaf) : leaf ∈ fs ∧ leaf.name = ln ∧ ln ≠ [] := by
  unfold leafByName at h
  split at h
  · cases h
  · rename_i hne
    have h1 := List.find?_some h
    simp only [beq_iff_eq] at h1
    exact ⟨List.mem_of_find?_eq_some h, h1, hne⟩

theorem findKey_some (fs : List Leaf) (key : Str) (leaf : Leaf)
    (h : findKey fs key = some leaf) : leaf ∈ fs ∧ leaf.ini = key := by
  unfold findKey at h
  have h1 := List.find?_some h
  simp only [beq_iff_eq] at h1
  exact ⟨List.mem_of_find?_eq_some h, h1⟩

theorem erase_eq_of_FieldByName (r target : Record) (sn : Str) (sec1 sec : Section)
    (hs : schemaOf r = schemaOf target)
    (h1 : FieldByName r sn = some sec1) (h : FieldByName target sn = some sec) :
    sec1.erase = sec.erase := by
  have e1 := FieldByName_schemaOf r sn
  have e2 := FieldByName_schemaOf target sn
  rw [hs, e2, h, h1] at e1
  simp only [Option.map_some', Option.some.injEq] at e1
  exact e1.symm

/-- Under Go's rule that field names are distinct, the field a write is aimed
at determines the key that led to it. -/
theorem writesSlot_key (target : Record) (st : State) (line sn ln : Str) (sec : Section)
    (leaf : Leaf) (hG : GoNames (schemaOf target))
    (hs : schemaOf st.target = schemaOf target)
    (hsec : FieldByName target sn = some sec)
    (hleaf : leafByName sec.fields ln = some leaf)
    (hw : WritesSlot st line sn ln) :
    isAssignment line = true ∧ st.structName = sn ∧ keyOf line = leaf.ini := by
  obtain ⟨hassign, hsn, sec1, ft, hsec1, hkey, hname⟩ := hw
  refine ⟨hassign, hsn, ?_⟩
  have he := erase_eq_of_FieldByName st.target target sn sec1 sec hs hsec1 hsec
  obtain ⟨hmem, _, _⟩ := FieldByName_some target sn sec hsec
  have hnd := (hG.2 sec.erase (List.mem_map_of_mem _ hmem)).2.1
  obtain ⟨hft, hini⟩ := findKey_some _ _ _ hkey
  obtain ⟨hlf, hln, _⟩ := leafByName_some _ _ _ hleaf
  have hft1 : ft.erase ∈ sec.erase.fields := by
    rw [← he]
    exact List.mem_map_of_mem _ hft
  have hlf1 : leaf.erase ∈ sec.erase.fields := List.mem_map_of_mem _ hlf
  have heq : ft.erase = leaf.erase :=
    List.inj_on_of_nodup_map hnd hft1 hlf1 (by
      show ft.name = leaf.name
      rw [hname, hln])
  have h2 : ft.erase.ini = leaf.erase.ini := by rw [heq]
  have : ft.ini = leaf.ini := h2
  rw [← hini, this]

/-- C18: for a target whose field names are non-empty and distinct (Go's rule
for struct types), take the field `ln` of the nested struct of the field `sn`.
If its section field has no `ini` tag, or it has no `ini` tag itself, or its
tag is the key of no assignment line of the file, then whatever `loadIni` does
(success, error or panic) the field holds its entry value afterwards.  The
reason for untagged fields: the key of an assignment line is never empty, and
neither is the name of a header line. -/
theorem loadIni_untouched_fields (env : Env) (fileName content : Str) (target : Record)
    (sn ln : Str) (sec : Section) (leaf : Leaf)
    (hread : env.readFile fileName = some content)
    (hG : GoNames (schemaOf target))
    (hsec : FieldByName target sn = some sec)
    (hleaf : leafByName sec.fields ln = some leaf)
    (hkey : sec.ini = [] ∨ leaf.ini = [] ∨
      ∀ line ∈ linesOf content, isAssignment line = true → keyOf line ≠ leaf.ini) :
    (∃ r1, (loadIni env fileName (.structPointer target)).data = .structPointer r1 ∧
      leafValue r1 sn ln = some leaf.val) ∧
    (∀ line, isAssignment line = true → keyOf line ≠ []) ∧
    (∀ line name, classify line = .header name → name ≠ []) := by
  refine ⟨?_, keyOf_ne_nil, classify_header_ne_nil⟩
  rw [loadIni_structPointer env fileName content target hread]
  refine ⟨_, rfl, ?_⟩
  have hentry : leafValue target sn ln = some leaf.val := by
    unfold leafValue
    rw [hsec]
    simp only [Option.some_bind, hleaf, Option.map_some']
  rw [← hentry]
  apply scanLines_frame env (splitCRLF content) 0 ⟨[], target⟩ sn ln
  intro j line stj hj hscan hw
  have hsch : schemaOf stj.target = schemaOf target := by
    have := scanLines_schema env ((splitCRLF content).take j) 0 ⟨[], target⟩
    rw [hscan] at this
    exact this
  obtain ⟨hassign, hsn, hk⟩ := writesSlot_key target stj line sn ln sec leaf hG hsch hsec hleaf hw
  rcases hkey with h | h | h
  · have hact := scanLines_active env ((splitCRLF content).take j) 0 ⟨[], target⟩ (Or.inl rfl)
    rw [hscan] at hact
    obtain ⟨hmem, hname, hne⟩ := FieldByName_some target sn sec hsec
    rcases hact with h0 | ⟨s, hs, hs1, hs2⟩
    · apply hne
      rw [← hsn]
      exact h0
    · have heq : s = sec.erase :=
        List.inj_on_of_nodup_map hG.1 hs (List.mem_map_of_mem _ hmem) (by
          show s.name = sec.name
          rw [hs1, hname]
          exact hsn)
      apply hs2
      rw [heq]
      exact h
  · exact keyOf_ne_nil line hassign (by rw [hk, h])
  · exact h line (List.get?_mem hj) hassign hk

theorem loadIni_untouched_fields_witness :
    (∃ r1, (loadIni (envOf scenario) [] (.structPointer Config)).data = .structPointer r1 ∧
      leafValue r1 "MysqlConfig".toList "Username".toList = some (.str [])) ∧
    (∀ line, isAssignment line = true → keyOf line ≠ []) ∧
    (∀ line name, classify line = .header name → name ≠ []) :=
  loadIni_untouched_fields (envOf scenario) [] scenario Config "MysqlConfig".toList
    "Username".toList
    ⟨"MysqlConfig".toList, "mysql".toList, true, true, .Struct, MysqlConfig, .other⟩
    (zeroLeaf "Username" "username" .String (.str []))
    rfl (by unfold GoNames; decide) rfl rfl (Or.inr (Or.inr (by decide)))

/-! ## The last assignment of a key -/

theorem convert_of_primitive (env : Env) (k : Kind) (value : Str)
    (h : isPrimitiveKind k = true) : ∃ c, convert env k value = some c := by
  cases k <;> first | exact ⟨_, rfl⟩ | exact absurd h (by decide)

theorem leafByName_of_mem (fs : List Leaf) (l : Leaf)
    (hn : (fs.map fun x => x.name).Nodup) (hl : l ∈ fs) (hne : l.name ≠ []) :
    leafByName fs l.name = some l := by
  unfold leafByName
  rw [if_neg hne]
  exact find?_of_nodup (fun x : Leaf => x.name) _ fs l (fun x => by simp) hn hl

theorem writesSlot_same_key (target : Record) (st1 st2 : State) (l1 l2 sn ln : Str)
    (hG : GoNames (schemaOf target))
    (hs1 : schemaOf st1.target = schemaOf target)
    (hs2 : schemaOf st2.target = schemaOf target)
    (hw1 : WritesSlot st1 l1 sn ln) (hw2 : WritesSlot st2 l2 sn ln) :
    keyOf l1 = keyOf l2 := by
  obtain ⟨_, _, sec1, ft1, hsec1, hkey1, hname1⟩ := hw1
  obtain ⟨_, _, sec2, ft2, hsec2, hkey2, hname2⟩ := hw2
  have he := erase_eq_of_FieldByName st1.target st2.target sn sec1 sec2
    (hs1.trans hs2.symm) hsec1 hsec2
  obtain ⟨hmem, _, _⟩ := FieldByName_some _ sn sec2 hsec2
  have hin : sec2.erase ∈ schemaOf target := by
    rw [← hs2]
    exact List.mem_map_of_mem _ hmem
  have hnd := (hG.2 sec2.erase hin).2.1
  obtain ⟨hft1, hini1⟩ := findKey_some _ _ _ hkey1
  obtain ⟨hft2, hini2⟩ := findKey_some _ _ _ hkey2
  have hm1 : ft1.erase ∈ sec2.erase.fields := by
    rw [← he]
    exact List.mem_map_of_mem _ hft1
  have hm2 : ft2.erase ∈ sec2.erase.fields := List.mem_map_of_mem _ hft2
  have heq : ft1.erase = ft2.erase :=
    List.inj_on_of_nodup_map hnd hm1 hm2 (by
      show ft1.name = ft2.name
      rw [hname1, hname2])
  have h2 : ft1.erase.ini = ft2.erase.ini := by rw [heq]
  have h3 : ft1.ini = ft2.ini := h2
  rw [← hini1, ← hini2, h3]

theorem before_add (env : Env) (target : Record) (content : Str) (n j : Nat) (st1 : State)
    (hn : n ≤ (linesOf content).length)
    (hb : before env target content (n + 1) = (.ok, st1)) :
    before env target content (n + 1 + j) =
      scanLines env false n (((linesOf content).drop n).take j) st1 := by
  unfold before at hb ⊢
  have e1 : n + 1 + j - 1 = n + j := by omega
  rw [Nat.add_sub_cancel] at hb
  rw [e1, List.take_add, scanLines_append, hb]
  simp only [List.length_take, Nat.zero_add, Nat.min_eq_left hn]
/-- The value a settable field receives from a value text that converts,
spelled out kind by kind. -/
theorem conversion_explicit (env : Env) (leaf : Leaf) (v : Str) (x y : Val)
    (hc : convert env leaf.kind v = some (some x))
    (hset : setValue env false leaf x = .ok y) :
    (leaf.kind = Kind.String → y = .str v) ∧
    (∀ w, intBits env leaf.kind = some w →
      IsInt64Literal v ∧ y = .int (wrapInt w (literalValue v))) ∧
    (leaf.kind = Kind.Bool →
      (v ∈ trueLiterals ∧ y = .bool true) ∨ (v ∈ falseLiterals ∧ y = .bool false)) ∧
    (leaf.kind = Kind.Float64 → ∃ f, env.parseFloat v = some f ∧ y = .float f) ∧
    (leaf.kind = Kind.Float32 →
      ∃ f, env.parseFloat v = some f ∧ y = .float (env.toFloat32 f)) := by
  refine ⟨?_, ?_, ?_, ?_, ?_⟩
  · intro hk
    rw [hk] at hc
    have hx : x = .str v := by
      injection hc with hc
      injection hc with hc
      exact hc.symm
    subst hx
    simp only [setValue, Bool.false_eq_true, if_false, hk, if_true] at hset
    injection hset with hset
    exact hset.symm
  · intro w hw
    have hint : isIntKind leaf.kind = true := by
      cases hk : leaf.kind <;> rw [hk] at hw <;>
        first
          | rfl
          | exact Option.noConfusion hw
    rw [convert_int env _ _ hint] at hc
    cases hp : ParseInt v with
    | none =>
      rw [hp] at hc
      simp at hc
    | some z =>
      rw [hp] at hc
      have hlit : IsInt64Literal v := (ParseInt_isSome_iff v).mp (by rw [hp]; rfl)
      have hz : z = literalValue v := by
        have := ParseInt_of_literal v hlit
        rw [hp] at this
        injection this
      have hx : x = .int z := by
        simp only [Option.map_some', Option.some.injEq] at hc
        exact hc.symm
      subst hx
      simp only [setValue, Bool.false_eq_true, if_false, hw] at hset
      injection hset with hset
      exact ⟨hlit, by rw [← hset, hz]⟩
  · intro hk
    rw [hk] at hc
    have hc1 : some ((ParseBool v).map Val.bool) = some (some x) := hc
    cases hp : ParseBool v with
    | none =>
      rw [hp] at hc1
      simp at hc1
    | some b =>
      rw [hp] at hc1
      have hx : x = .bool b := by
        simp only [Option.map_some', Option.some.injEq] at hc1
        exact hc1.symm
      subst hx
      simp only [setValue, Bool.false_eq_true, if_false, hk, if_true] at hset
      injection hset with hset
      cases b with
      | true => exact Or.inl ⟨(ParseBool_eq_true_iff v).mp hp, hset.symm⟩
      | false => exact Or.inr ⟨(ParseBool_eq_false_iff v).mp hp, hset.symm⟩
  · intro hk
    rw [hk] at hc
    have hc1 : some ((env.parseFloat v).map Val.float) = some (some x) := hc
    cases hp : env.parseFloat v with
    | none =>
      rw [hp] at hc1
      simp at hc1
    | some f =>
      rw [hp] at hc1
      have hx : x = .float f := by
        simp only [Option.map_some', Option.some.injEq] at hc1
        exact hc1.symm
      subst hx
      simp [setValue, hk] at hset
      exact ⟨f, rfl, hset.symm⟩
  · intro hk
    rw [hk] at hc
    have hc1 : some ((env.parseFloat v).map Val.float) = some (some x) := hc
    cases hp : env.parseFloat v with
    | none =>
      rw [hp] at hc1
      simp at hc1
    | some f =>
      rw [hp] at hc1
      have hx : x = .float f := by
        simp only [Option.map_some', Option.some.injEq] at hc1
        exact hc1.symm
      subst hx
      simp [setValue, hk] at hset
      exact ⟨f, rfl, hset.symm⟩

/-- C13, as stated, fails: the key `sides` is assigned twice under `[shape]` and
the load into `shapeRecord` succeeds, yet the field bound to the key, of kind
uint, has no conversion: the record is left as it was on entry and the field
holds the value of neither line. -/
theorem repeated_key_without_conversion :
    loadIni (envOf "[shape]\r\nsides = 4\r\nsides = 5".toList) []
        (.structPointer shapeRecord) = ⟨.ok, .structPointer shapeRecord⟩ ∧
    findKey [⟨"Sides".toList, "sides".toList, true, .Uint, .other⟩,
        ⟨"Name".toList, "name".toList, true, .String, .str []⟩]
      (keyOf "sides = 5".toList) = some ⟨"Sides".toList, "sides".toList, true, .Uint, .other⟩ ∧
    convert (envOf "[shape]\r\nsides = 4\r\nsides = 5".toList) .Uint
      (valueOf "sides = 5".toList) = none ∧
    stored (envOf "[shape]\r\nsides = 4\r\nsides = 5".toList)
      ⟨"Sides".toList, "sides".toList, true, .Uint, .other⟩ (valueOf "sides = 5".toList) = none := by
  decide

/-- C13, amended: suppose `loadIni` succeeds on a target whose field names are
non-empty and distinct (Go's rule for struct types), and line `n` is an
assignment line whose key resolves, in the active section, to a field of text,
signed integer, boolean or floating-point kind.  If no later assignment line
met while the same section is active has the same key, then the field ends with
the conversion `y` of the value text of line `n`: the text itself for a string
field; for a signed integer field of `w` bits the number the text denotes, a
base-10 literal of the 64-bit range, wrapped to `w` bits; the truth value the
text spells for a bool field; the parsed number for a float64 field, rounded to
single precision for a float32 field. -/
theorem loadIni_last_assignment_wins (env : Env) (fileName content : Str) (target : Record)
    (n : Nat) (line : Str) (sec : Section) (leaf : Leaf)
    (hread : env.readFile fileName = some content)
    (hG : GoNames (schemaOf target))
    (hok : (loadIni env fileName (.structPointer target)).outcome = .ok)
    (hn : 0 < n)
    (hline : (linesOf content).get? (n - 1) = some line)
    (hassign : isAssignment line = true)
    (hsec : FieldByName (before env target content n).2.target
      (before env target content n).2.structName = some sec)
    (hstruct : sec.kind = Kind.Struct)
    (hkey : findKey sec.fields (keyOf line) = some leaf)
    (hkind : isPrimitiveKind leaf.kind = true)
    (hlast : ∀ m l, n < m → (linesOf content).get? (m - 1) = some l →
      isAssignment l = true →
      (before env target content m).2.structName =
        (before env target content n).2.structName →
      keyOf l ≠ keyOf line) :
    ∃ r1 y, (loadIni env fileName (.structPointer target)).data = .structPointer r1 ∧
      stored env leaf (valueOf line) = some y ∧
      leafValue r1 (before env target content n).2.structName leaf.name = some y ∧
      (leaf.kind = Kind.String → y = .str (valueOf line)) ∧
      (∀ w, intBits env leaf.kind = some w →
        IsInt64Literal (valueOf line) ∧ y = .int (wrapInt w (literalValue (valueOf line)))) ∧
      (leaf.kind = Kind.Bool →
        (valueOf line ∈ trueLiterals ∧ y = .bool true) ∨
          (valueOf line ∈ falseLiterals ∧ y = .bool false)) ∧
      (leaf.kind = Kind.Float64 → ∃ f, env.parseFloat (valueOf line) = some f ∧ y = .float f) ∧
      (leaf.kind = Kind.Float32 →
        ∃ f, env.parseFloat (valueOf line) = some f ∧ y = .float (env.toFloat32 f)) := by
  have hlen : n - 1 < (linesOf content).length := by
    rcases Nat.lt_or_ge (n - 1) (linesOf content).length with h | h
    · exact h
    · rw [List.get?_eq_none.mpr h] at hline
      exact absurd hline (by simp)
  have hprev : (before env target content n).1 = .ok := by
    rw [loadIni_structPointer env fileName content target hread] at hok
    simp only at hok
    unfold before linesOf
    rw [← List.take_append_drop (n - 1) (splitCRLF content)] at hok
    exact scanLines_ok_of_append env false _ _ 0 _ hok
  have hsch := before_schema env target content n
  obtain ⟨hmem, _, _⟩ := FieldByName_some _ _ sec hsec
  have hin : sec.erase ∈ schemaOf target := by
    rw [← hsch]
    exact List.mem_map_of_mem _ hmem
  obtain ⟨hlf, _⟩ := findKey_some _ _ _ hkey
  have hname : leaf.name ≠ [] := (hG.2 sec.erase hin).2.2 leaf.erase (List.mem_map_of_mem _ hlf)
  have hnd : (sec.fields.map fun x => x.name).Nodup := by
    have := (hG.2 sec.erase hin).2.1
    simp only [Section.erase, List.map_map] at this
    exact this
  have hobj := leafByName_of_mem sec.fields leaf hnd hlf hname
  have hat := loadIni_at env fileName content target n line hread hn hline hprev
  rw [processLine_of_isAssignment env false (n - 1) line _ hassign] at hat
  obtain ⟨c, hc⟩ := convert_of_primitive env leaf.kind (valueOf line) hkind
  cases c with
  | none =>
    rw [assign_value_type_error env (n - 1) _ _ _ sec leaf hsec hstruct hkey hname hc] at hat
    rw [hat] at hok
    cases hok
  | some x =>
    cases hro : ((!sec.exported && !sec.embedded) || !leaf.exported) with
    | true =>
      have hstep : assign env false (n - 1) (keyOf line) (valueOf line)
          (before env target content n).2 =
          .panic .notAssignable (before env target content n).2 := by
        unfold assign
        simp [hsec, hstruct, hkey, hname, hc, hobj, hro, setValue]
      rw [hstep] at hat
      rw [hat] at hok
      cases hok
    | false =>
      obtain ⟨y, hset⟩ := setValue_of_convert env leaf (valueOf line) x hc
      have hstep := assign_write env (n - 1) (keyOf line) (valueOf line) _ sec leaf x y
        hsec hstruct hkey hname hobj hro hc hset
      have hstored : stored env leaf (valueOf line) = some y := by
        unfold stored
        rw [hc]
        simp only
        rw [hset]
      have hb1 : before env target content (n - 1 + 1 + 1) =
          (.ok, ⟨(before env target content n).2.structName,
            writeLeaf (before env target content n).2.target
              (before env target content n).2.structName leaf.name y⟩) := by
        have e : n - 1 + 1 = n := by omega
        rw [e, before_succ env target content n line hn hline hprev,
          processLine_of_isAssignment env false (n - 1) line _ hassign, hstep]
      rw [hstep] at hat
      simp only at hat
      rw [hat]
      refine ⟨_, y, rfl, hstored, ?_, conversion_explicit env leaf (valueOf line) x y hc hset⟩
      rw [scanLines_frame env _ n _ (before env target content n).2.structName leaf.name ?_]
      · exact leafValue_writeLeaf _ _ _ _ sec leaf hsec hobj
      · intro j l stj hj hscan hw
        have e : n - 1 + 1 = n := by omega
        have hbm := before_add env target content (n - 1 + 1) j _ (by omega) hb1
        rw [e] at hbm
        rw [hscan] at hbm
        have hget : (linesOf content).get? (n + 1 + j - 1) = some l := by
          rw [List.get?_eq_getElem?, List.getElem?_drop] at hj
          have e2 : n + 1 + j - 1 = n + j := by omega
          rw [e2, List.get?_eq_getElem?]
          exact hj
        have hsj : schemaOf stj.target = schemaOf target := by
          have := before_schema env target content (n + 1 + j)
          rw [hbm] at this
          exact this
        have hsame := writesSlot_same_key target stj (before env target content n).2 l line
          _ _ hG hsj hsch hw ⟨hassign, rfl, sec, leaf, hsec, hkey, rfl⟩
        refine hlast (n + 1 + j) l (by omega) hget hw.1 ?_ hsame
        rw [hbm]
        exact hw.2.1

theorem loadIni_last_assignment_wins_witness :
    (∃ r1 y, (loadIni (envOf "[mysql]\r\nport = 1\r\nport = 2".toList) []
          (.structPointer Config)).data = .structPointer r1 ∧
        leafValue r1 "MysqlConfig".toList "Port".toList = some y ∧ y = .int 2) ∧
    loadIni (envOf "[mysql]\r\nport = 1\r\nport = 2".toList) [] (.structPointer Config) =
      ⟨.ok, .structPointer (configWith "" 2 "" 0 0 false)⟩ :=
  have h := loadIni_last_assignment_wins (envOf "[mysql]\r\nport = 1\r\nport = 2".toList) []
    "[mysql]\r\nport = 1\r\nport = 2".toList Config 3 "port = 2".toList
    ⟨"MysqlConfig".toList, "mysql".toList, true, true, .Struct,
      [zeroLeaf "Address" "address" .String (.str []), zeroLeaf "Port" "port" .Int (.int 1),
        zeroLeaf "Username" "username" .String (.str []),
        zeroLeaf "Password" "password" .String (.str [])], .other⟩
    (zeroLeaf "Port" "port" .Int (.int 1))
    rfl (by unfold GoNames; decide) rfl (by decide) rfl rfl rfl rfl rfl rfl
    (fun m l hm hl => by
      have hnone : (linesOf "[mysql]\r\nport = 1\r\nport = 2".toList).get? (m - 1) = none :=
        List.get?_eq_none.mpr (by
          show 3 ≤ m - 1
          omega)
      rw [hnone] at hl
      cases hl)
  ⟨h.elim fun r1 h1 => h1.elim fun y h2 =>
      ⟨r1, y, h2.1, h2.2.2.1, (h2.2.2.2.2.1 64 rfl).2⟩,
    by decide⟩

/-! ## The lookup of the active section -/

theorem scanLines_panic_at (env : Env) (isNil : Bool) (lines : List Str) (idx : Nat)
    (st st1 : State) (p : Panic)
    (h : scanLines env isNil idx lines st = (.panic p, st1)) :
    ∃ k line st0, lines.get? k = some line ∧
      scanLines env isNil idx (lines.take k) st = (.ok, st0) ∧
      processLine env isNil (idx + k) line st0 = .panic p st1 := by
  induction lines generalizing idx st with
  | nil => simp [scanLines] at h
  | cons l ls ih =>
    simp only [scanLines] at h
    cases hp : processLine env isNil idx l st with
    | next st2 =>
      rw [hp] at h
      obtain ⟨k, line, st0, hk, hscan, hstep⟩ := ih (idx + 1) st2 h
      refine ⟨k + 1, line, st0, by simpa using hk, ?_, ?_⟩
      · simp only [List.take_succ_cons, scanLines, hp]
        exact hscan
      · have : idx + (k + 1) = idx + 1 + k := by omega
        rw [this]
        exact hstep
    | fail e2 st2 =>
      rw [hp] at h
      simp at h
    | panic q st2 =>
      rw [hp] at h
      simp only [Prod.mk.injEq, Outcome.panic.injEq] at h
      refine ⟨0, l, st, rfl, rfl, ?_⟩
      rw [← h.1, ← h.2]
      exact hp

/-- Induction along the lines `n0`, ..., `n - 1` of a scan that reaches line `n`. -/
theorem before_induct (env : Env) (target : Record) (content : Str) (P : State → Prop)
    (n0 n : Nat) (h0 : 0 < n0) (h0n : n0 ≤ n)
    (hlast : ∃ l, (linesOf content).get? (n - 1) = some l)
    (hprev : (before env target content n).1 = .ok)
    (hbase : P (before env target content n0).2)
    (hstep : ∀ k l, n0 ≤ k → k < n → (linesOf content).get? (k - 1) = some l →
      (before env target content k).1 = .ok → P (before env target content k).2 →
      P (applyKind env (k - 1) (classify l) (before env target content k).2).state) :
    P (before env target content n).2 := by
  induction n with
  | zero => omega
  | succ k ih =>
    by_cases hk : k + 1 = n0
    · rw [hk]
      exact hbase
    · have hlt : n0 ≤ k := by omega
      obtain ⟨l0, hl0⟩ := hlast
      obtain ⟨l, hl⟩ := get?_of_lt_of_get? (linesOf content) (k - 1) (k + 1 - 1) l0
        (by omega) hl0
      have hpk := before_ok_of_le env target content k (k + 1) (by omega) hprev
      have hk1 := ih hlt ⟨l, hl⟩ hpk
        (fun j l hj1 hj2 => hstep j l hj1 (by omega))
      rw [before_succ_state env target content k l (by omega) hl hpk]
      exact hstep k l hlt (by omega) hl hpk hk1

theorem before_one (env : Env) (target : Record) (content : Str) :
    before env target content 1 = (.ok, ⟨[], target⟩) := rfl

theorem not_resolving (schema : Record) (line : Str) (h : ¬ ResolvingHeader schema line) :
    ∀ nm, classify line = .header nm → ∀ s ∈ schema, s.ini ≠ nm := by
  intro nm hc s hs he
  exact h ⟨nm, hc, s, hs, he⟩

theorem before_structName_nil (env : Env) (target : Record) (content : Str) (n : Nat)
    (hn : 0 < n)
    (hlast : ∃ l, (linesOf content).get? (n - 1) = some l)
    (hprev : (before env target content n).1 = .ok)
    (hnone : ∀ m l, 0 < m → m < n → (linesOf content).get? (m - 1) = some l →
      ¬ ResolvingHeader (schemaOf target) l) :
    (before env target content n).2.structName = [] := by
  apply before_induct env target content (fun st => st.structName = []) 1 n
    (by omega) hn hlast hprev rfl
  intro k l hk1 hk2 hl hpk hP
  show (applyKind env (k - 1) (classify l) (before env target content k).2).state.structName = []
  rw [applyKind_structName env (k - 1) (classify l) _ ?_]
  · exact hP
  · rw [before_schema]
    exact not_resolving _ _ (hnone k l (by omega) hk2 hl)

theorem applyKind_structName_ne_nil (env : Env) (idx : Nat) (k : LineKind) (st : State)
    (hG : GoNames (schemaOf st.target)) (h : st.structName ≠ []) :
    (applyKind env idx k st).state.structName ≠ [] := by
  cases k with
  | skip => exact h
  | malformed => exact h
  | header name =>
    show findSection st.target name st.structName ≠ []
    unfold findSection
    cases hf : st.target.find? (fun f => name == f.ini) with
    | none => exact h
    | some f =>
      exact (hG.2 f.erase (List.mem_map_of_mem _ (List.mem_of_find?_eq_some hf))).1
  | assignment key value =>
    show (assign env false idx key value st).state.structName ≠ []
    rcases assign_state env false idx key value st with h1 | ⟨f, y, h1⟩
    · rw [h1]
      exact h
    · rw [h1]
      exact h

theorem applyKind_resolving (env : Env) (idx : Nat) (line : Str) (st : State)
    (hG : GoNames (schemaOf st.target))
    (h : ResolvingHeader (schemaOf st.target) line) :
    (applyKind env idx (classify line) st).state.structName ≠ [] := by
  obtain ⟨name, hc, s, hs, hini⟩ := h
  rw [hc]
  show findSection st.target name st.structName ≠ []
  rw [← findSection_schemaOf]
  unfold findSection
  cases hf : (schemaOf st.target).find? (fun f => name == f.ini) with
  | none =>
    have := List.find?_eq_none.mp hf s hs
    simp only [beq_iff_eq] at this
    exact absurd hini.symm this
  | some f =>
    exact (hG.2 f (List.mem_of_find?_eq_some hf)).1

theorem before_structName_ne_nil (env : Env) (target : Record) (content : Str) (m n : Nat)
    (l : Str) (hG : GoNames (schemaOf target))
    (hm : 0 < m) (hmn : m < n)
    (hl : (linesOf content).get? (m - 1) = some l)
    (hres : ResolvingHeader (schemaOf target) l)
    (hlast : ∃ l, (linesOf content).get? (n - 1) = some l)
    (hprev : (before env target content n).1 = .ok) :
    (before env target content n).2.structName ≠ [] := by
  have hpm := before_ok_of_le env target content m n (by omega) hprev
  apply before_induct env target content (fun st => st.structName ≠ []) (m + 1) n
    (by omega) (by omega) hlast hprev
  · show (before env target content (m + 1)).2.structName ≠ []
    rw [before_succ_state env target content m l hm hl hpm]
    apply applyKind_resolving
    · rw [before_schema]
      exact hG
    · rw [before_schema]
      exact hres
  · intro k l1 hk1 hk2 hl1 hpk hP
    apply applyKind_structName_ne_nil
    · rw [before_schema]
      exact hG
    · exact hP

theorem before_active (env : Env) (target : Record) (content : Str) (n : Nat) :
    ActiveDeclared (schemaOf target) (before env target content n).2.structName :=
  scanLines_active env _ 0 ⟨[], target⟩ (Or.inl rfl)

theorem FieldByName_of_active (r : Record) (sn : Str) (hG : GoNames (schemaOf r))
    (h : ∃ s ∈ schemaOf r, s.name = sn ∧ s.ini ≠ []) :
    ∃ sec, FieldByName r sn = some sec ∧ sec.erase ∈ schemaOf r ∧ sec.ini ≠ [] := by
  obtain ⟨s, hs, hname, hini⟩ := h
  obtain ⟨sec, hsec, he⟩ := List.mem_map.mp hs
  subst he
  have hne : sn ≠ [] := by
    rw [← hname]
    exact (hG.2 _ hs).1
  have hnd : (r.map fun x => x.name).Nodup := by
    have := hG.1
    unfold schemaOf at this
    rw [List.map_map] at this
    exact this
  refine ⟨sec, ?_, hs, hini⟩
  unfold FieldByName
  rw [if_neg hne]
  refine find?_of_nodup (fun x : Section => x.name) _ r sec (fun x => ?_) hnd hsec
  simp only [beq_iff_eq]
  rw [← hname]
  rfl
theorem assign_of_settable (env : Env) (idx : Nat) (key value : Str) (st : State)
    (sec : Section)
    (hsec : FieldByName st.target st.structName = some sec)
    (hnd : (sec.fields.map fun x => x.name).Nodup)
    (hne : ∀ l ∈ sec.fields, l.name ≠ [])
    (hkey : key ≠ [])
    (hset : (sec.exported = true ∨ sec.embedded = true) ∧
      ∀ l ∈ sec.fields, l.ini ≠ [] → l.exported = true) :
    ∀ p st1, assign env false idx key value st ≠ .panic p st1 := by
  intro p st1 h
  unfold assign at h
  simp only [Bool.false_eq_true, if_false, hsec] at h
  by_cases hk : sec.kind = Kind.Struct
  · rw [if_neg (not_not.mpr hk)] at h
    cases hf : findKey sec.fields key with
    | none =>
      rw [hf] at h
      cases h
    | some ft =>
      rw [hf] at h
      simp only at h
      obtain ⟨hmem, hini⟩ := findKey_some _ _ _ hf
      have hname := hne ft hmem
      have hlen : ¬ ft.name.length = 0 := by
        intro e
        exact hname (List.length_eq_zero.mp e)
      rw [if_neg hlen] at h
      cases hc : convert env ft.kind value with
      | none =>
        rw [hc] at h
        cases h
      | some c =>
        cases c with
        | none =>
          rw [hc] at h
          cases h
        | some x =>
          rw [hc, leafByName_of_mem sec.fields ft hnd hmem hname] at h
          simp only at h
          have hro : ((!sec.exported && !sec.embedded) || !ft.exported) = false := by
            have h2 := hset.2 ft hmem (by rw [hini]; exact hkey)
            rcases hset.1 with h1 | h1 <;> simp [h1, h2]
          obtain ⟨y, hy⟩ := setValue_of_convert env ft value x hc
          rw [hro, hy] at h
          cases h
  · rw [if_pos hk] at h
    cases h

theorem lookup_of_resolving (env : Env) (target : Record) (content : Str) (n : Nat)
    (line : Str) (hG : GoNames (schemaOf target))
    (hline : (linesOf content).get? (n - 1) = some line)
    (hprev : (before env target content n).1 = .ok)
    (hex : ∃ m l, 0 < m ∧ m < n ∧ (linesOf content).get? (m - 1) = some l ∧
      ResolvingHeader (schemaOf target) l) :
    ∃ sec, FieldByName (before env target content n).2.target
        (before env target content n).2.structName = some sec ∧
      sec.erase ∈ schemaOf target ∧ sec.ini ≠ [] := by
  obtain ⟨m, l, hm, hmn, hl, hres⟩ := hex
  have hne := before_structName_ne_nil env target content m n l hG hm hmn hl hres
    ⟨line, hline⟩ hprev
  have hact := before_active env target content n
  have hsch := before_schema env target content n
  rcases hact with h0 | h1
  · exact absurd h0 hne
  · rw [← hsch] at h1 hG
    obtain ⟨sec, h2, h3, h4⟩ := FieldByName_of_active _ _ hG h1
    exact ⟨sec, h2, by rw [← hsch]; exact h3, h4⟩
/-- C16, as stated, fails: `Config` has only struct section fields and in both
files the assignment line follows a resolving header, yet the call panics when
the pointer is nil (the lookup of the active section is made on a zero Value)
and when the field bound to the key is unexported. -/
theorem lookup_after_header_can_panic :
    loadIni (envOf "[mysql]\r\nport = 1".toList) [] (.nilStructPointer Config) =
      ⟨.panic .zeroValue, .nilStructPointer Config⟩ ∧
    loadIni (envOf "[limits]\r\nlevel = 1".toList) [] (.structPointer hiddenNarrowRecord) =
      ⟨.panic .notAssignable, .structPointer hiddenNarrowRecord⟩ := by
  decide

/-- C16, amended: for a non-nil pointer to a target whose field names are
non-empty and distinct (Go's rule for struct types) and whose section fields
are all structs, at every assignment line `n` that the scan reaches: if a
header resolving to a declared section comes earlier in the file, the lookup of
the active section succeeds and finds a struct; if none does, the name of the
active section is empty, the lookup fails and `loadIni` panics.  When moreover
every declared field is settable and every assignment line of the file is
preceded by a resolving header, `loadIni` does not panic: it returns, with or
without an error. -/
theorem loadIni_active_section_lookup (env : Env) (fileName content : Str) (target : Record)
    (hread : env.readFile fileName = some content)
    (hG : GoNames (schemaOf target))
    (hR : SectionsAreRecords (schemaOf target)) :
    (∀ n line, 0 < n → (linesOf content).get? (n - 1) = some line →
      (before env target content n).1 = .ok → isAssignment line = true →
      ((∃ m l, 0 < m ∧ m < n ∧ (linesOf content).get? (m - 1) = some l ∧
          ResolvingHeader (schemaOf target) l) →
        ∃ sec, FieldByName (before env target content n).2.target
            (before env target content n).2.structName = some sec ∧
          sec.kind = Kind.Struct) ∧
      ((¬ ∃ m l, 0 < m ∧ m < n ∧ (linesOf content).get? (m - 1) = some l ∧
          ResolvingHeader (schemaOf target) l) →
        (before env target content n).2.structName = [] ∧
        FieldByName (before env target content n).2.target
          (before env target content n).2.structName = none ∧
        loadIni env fileName (.structPointer target) =
          ⟨.panic .zeroValue, .structPointer (before env target content n).2.target⟩)) ∧
    (Settable (schemaOf target) →
      (∀ n line, 0 < n → (linesOf content).get? (n - 1) = some line →
        isAssignment line = true →
        ∃ m l, 0 < m ∧ m < n ∧ (linesOf content).get? (m - 1) = some l ∧
          ResolvingHeader (schemaOf target) l) →
      ∀ p, (loadIni env fileName (.structPointer target)).outcome ≠ .panic p) := by
  constructor
  · intro n line hn hline hprev hassign
    constructor
    · intro hex
      obtain ⟨sec, h1, h2, h3⟩ := lookup_of_resolving env target content n line hG hline hprev hex
      exact ⟨sec, h1, hR sec.erase ((mem_declaredSections _ _).mpr ⟨h2, h3⟩)⟩
    · intro hno
      have hnil := before_structName_nil env target content n hn ⟨line, hline⟩ hprev
        (fun m l hm hmn hl hres => hno ⟨m, l, hm, hmn, hl, hres⟩)
      have hfield : FieldByName (before env target content n).2.target
          (before env target content n).2.structName = none := by
        rw [hnil]
        rfl
      refine ⟨hnil, hfield, ?_⟩
      have hstep : assign env false (n - 1) (keyOf line) (valueOf line)
          (before env target content n).2 =
          .panic .zeroValue (before env target content n).2 := by
        unfold assign
        simp [hfield]
      rw [loadIni_at env fileName content target n line hread hn hline hprev,
        processLine_of_isAssignment env false (n - 1) line _ hassign, hstep]
  · intro hS hall p hp
    rw [loadIni_structPointer env fileName content target hread] at hp
    simp only at hp
    cases hs : scanLines env false 0 (splitCRLF content) ⟨[], target⟩ with
    | mk o st1 =>
      rw [hs] at hp
      simp only at hp
      subst hp
      obtain ⟨k, line, st0, hk, hscan, hstep⟩ := scanLines_panic_at env false _ 0 _ _ p hs
      rw [Nat.zero_add] at hstep
      have hb : before env target content (k + 1) = (.ok, st0) := by
        unfold before linesOf
        rw [Nat.add_sub_cancel]
        exact hscan
      have hline : (linesOf content).get? (k + 1 - 1) = some line := by
        rw [Nat.add_sub_cancel]
        exact hk
      have hprev : (before env target content (k + 1)).1 = .ok := by rw [hb]
      have hassign : isAssignment line = true := by
        rw [processLine_classify] at hstep
        cases hc : classify line with
        | skip =>
          rw [hc] at hstep
          cases hstep
        | malformed =>
          rw [hc] at hstep
          cases hstep
        | header name =>
          rw [hc] at hstep
          cases hstep
        | assignment key value => exact (classify_assignment line key value hc).1
      obtain ⟨sec, h1, h2, h3⟩ := lookup_of_resolving env target content (k + 1) line hG hline
        hprev (hall (k + 1) line (by omega) hline hassign)
      rw [hb] at h1
      have hGs := hG.2 sec.erase h2
      have hSs := hS sec.erase ((mem_declaredSections _ _).mpr ⟨h2, h3⟩)
      have hnd : (sec.fields.map fun x => x.name).Nodup := by
        have := hGs.2.1
        simp only [Section.erase, List.map_map] at this
        exact this
      rw [processLine_of_isAssignment env false k line _ hassign] at hstep
      refine assign_of_settable env k (keyOf line) (valueOf line) st0 sec h1 hnd ?_
        (keyOf_ne_nil line hassign) ⟨hSs.1, ?_⟩ p st1 hstep
      · intro l hl
        exact hGs.2.2 l.erase (List.mem_map_of_mem _ hl)
      · intro l hl hini
        exact hSs.2 l.erase ((mem_declaredKeys _ _).mpr ⟨List.mem_map_of_mem _ hl, hini⟩)

theorem loadIni_active_section_lookup_witness :
    ¬ ∃ p, (loadIni (envOf scenario) [] (.structPointer Config)).outcome = .panic p :=
  fun ⟨p, hp⟩ =>
    (loadIni_active_section_lookup (envOf scenario) [] scenario Config rfl
      (by unfold GoNames; decide) (by unfold SectionsAreRecords; decide)).2
      (by unfold Settable; decide)
      (fun n line hn hl ha => by
        by_cases h1 : n = 1
        · subst h1
          obtain rfl : "[mysql]".toList = line :=
            Option.some.inj (show some "[mysql]".toList = some line from hl)
          exact absurd ha (by decide)
        · exact ⟨1, "[mysql]".toList, by decide, by omega, rfl, "mysql".toList, rfl,
            ⟨"MysqlConfig".toList, "mysql".toList, true, true, .Struct,
              MysqlConfig.map Leaf.erase, .other⟩, by decide, rfl⟩)
      p hp

end IniParse

namespace MyLogger

/-! ## The logger: levels and their names -/

/-- C20: for each of the levels DEBUG, INFO, WARNING, ERROR and FATAL,
`parseLogLevel (getLogString l)` is `l` with no error; `parseLogLevel` returns
no error exactly for the strings whose lower-cased form is one of `debug`,
`info`, `warning`, `error`, `fatal`; and for every other level, UNKNOWN and the
values above FATAL, `getLogString` gives `UNKNOWN`, for which `parseLogLevel`
returns the level UNKNOWN and an error. -/
theorem parseLogLevel_getLogString (table : Char → Char) :
    (∀ l ∈ [DEBUG, INFO, WARNING, ERROR, FATAL],
      parseLogLevel table (getLogString l) = (l, none)) ∧
    (∀ s, (parseLogLevel table s).2 = none ↔ ToLower table s ∈ levelNames) ∧
    (∀ l : LogLevel, l ∉ [DEBUG, INFO, WARNING, ERROR, FATAL] →
      getLogString l = "UNKNOWN".toList ∧
      parseLogLevel table (getLogString l) = (UNKNOWN, some invalidLevel)) := by
  refine ⟨?_, ?_, ?_⟩
  · intro l hl
    simp only [List.mem_cons, List.mem_singleton, List.not_mem_nil, or_false] at hl
    rcases hl with h | h | h | h | h <;> subst h <;> rfl
  · intro s
    unfold parseLogLevel levelNames
    simp only [List.mem_cons, List.mem_singleton, List.not_mem_nil, or_false]
    by_cases h1 : ToLower table s = "debug".toList
    · rw [if_pos h1]
      exact ⟨fun _ => Or.inl h1, fun _ => rfl⟩
    rw [if_neg h1]
    by_cases h2 : ToLower table s = "info".toList
    · rw [if_pos h2]
      exact ⟨fun _ => Or.inr (Or.inl h2), fun _ => rfl⟩
    rw [if_neg h2]
    by_cases h3 : ToLower table s = "warning".toList
    · rw [if_pos h3]
      exact ⟨fun _ => Or.inr (Or.inr (Or.inl h3)), fun _ => rfl⟩
    rw [if_neg h3]
    by_cases h4 : ToLower table s = "error".toList
    · rw [if_pos h4]
      exact ⟨fun _ => Or.inr (Or.inr (Or.inr (Or.inl h4))), fun _ => rfl⟩
    rw [if_neg h4]
    by_cases h5 : ToLower table s = "fatal".toList
    · rw [if_pos h5]
      exact ⟨fun _ => Or.inr (Or.inr (Or.inr (Or.inr h5))), fun _ => rfl⟩
    rw [if_neg h5]
    constructor
    · intro h
      exact Option.noConfusion h
    · intro h
      rcases h with h | h | h | h | h
      · exact absurd h h1
      · exact absurd h h2
      · exact absurd h h3
      · exact absurd h h4
      · exact absurd h h5
  · intro l hl
    simp only [List.mem_cons, List.mem_singleton, List.not_mem_nil, or_false, not_or] at hl
    obtain ⟨h1, h2, h3, h4, h5⟩ := hl
    have hg : getLogString l = "UNKNOWN".toList := by
      unfold getLogString
      rw [if_neg h1, if_neg h2, if_neg h3, if_neg h4, if_neg h5]
    rw [hg]
    exact ⟨rfl, rfl⟩

theorem parseLogLevel_getLogString_witness :
    parseLogLevel Char.toLower (getLogString WARNING) = (WARNING, none) ∧
    parseLogLevel Char.toLower "Info".toList = (INFO, none) ∧
    parseLogLevel Char.toLower (getLogString 6) = (UNKNOWN, some invalidLevel) :=
  ⟨(parseLogLevel_getLogString Char.toLower).1 WARNING (by decide), by decide,
    ((parseLogLevel_getLogString Char.toLower).2.2 6 (by decide)).2⟩

end MyLogger
